import Mathlib

/-!
# padring: a shallow embedding of the layout item model, the side layout,
the orchestrator in `main.cpp`, the CSV writer and the Verilog writer

Conventions of the embedding.

* C++ `double` values are exact rationals (`Rat`): every comparison and every
  `+`/`-` of the source is the exact one.
* C++ `int` counters (`numfill`, `m_side`) are unbounded integers (`Int`).
* `LayoutItem*` pointers are values: a `Layout` holds its items by value, in
  the order of the `std::list`; a null pointer is `none`.
* Output streams are not written: every call a writer receives is recorded as
  an `Event`, in program order.
-/

namespace Padring

/-! ## prlefreader.h -/

/-- The class `PRLEFReader::LEFPinInfo_t`. -/
structure LEFPinInfo_t where
  m_dir : Int
  m_class : Int
  m_use : Int
  deriving DecidableEq, Repr

/-- The class `PRLEFReader::LEFCellInfo_t`; the unordered map `m_pins` is the list of
its entries in the order in which the map enumerates them. -/
structure LEFCellInfo_t where
  m_name : String
  m_foreign : String
  m_sx : Rat
  m_sy : Rat
  m_symmetry : String
  m_isFiller : Bool
  m_pins : List (String × LEFPinInfo_t)
  deriving DecidableEq, Repr

/-- The cell database part of `PRLEFReader`: the entries of `m_cells`. -/
structure PRLEFReader where
  m_cells : List (String × LEFCellInfo_t)
  m_lefDatabaseUnits : Rat
  deriving DecidableEq, Repr

/-- Modelled from the spec: `PRLEFReader::getCellByName` is declared in
`prlefreader.h` and defined outside the sources at hand; the spec gives it as
`getCellByName(name) -> CellInfo | not found`, a lookup of the cell name. -/
def PRLEFReader.getCellByName (lef : PRLEFReader) (name : String) : Option LEFCellInfo_t :=
  (lef.m_cells.find? (fun c => c.1 == name)).map Prod.snd

/-! ## layout.h : LayoutItem -/

/-- The enumeration `LayoutItem::LayoutItemType`. -/
inductive LayoutItemType where
  | TYPE_CELL
  | TYPE_CORNER
  | TYPE_FIXEDSPACE
  | TYPE_FLEXSPACE
  | TYPE_FILLER
  | TYPE_BOND
  | TYPE_FILLERDECL
  deriving DecidableEq, Repr

open LayoutItemType

/-- The class `LayoutItem`. -/
structure LayoutItem where
  m_lefinfo : Option LEFCellInfo_t
  m_instance : String
  m_cellname : String
  m_location : String
  m_size : Rat
  m_osize : Rat
  m_offset : Rat
  m_x : Rat
  m_y : Rat
  m_flipped : Bool
  m_fillers : List String
  m_ltype : LayoutItemType
  deriving DecidableEq, Repr

/-- The constructor `LayoutItem(LayoutItemType ltype)`. -/
def LayoutItem.new (ltype : LayoutItemType) : LayoutItem :=
  { m_lefinfo := none
    m_instance := ""
    m_cellname := ""
    m_location := ""
    m_size := -1
    m_osize := -1
    m_offset := 0
    m_x := -1
    m_y := -1
    m_flipped := false
    m_fillers := []
    m_ltype := ltype }

/-! ## layout.h : Layout -/

/-- The enumeration `Layout::direction_t`. -/
inductive direction_t where
  | DIR_HORIZONTAL
  | DIR_VERTICAL
  deriving DecidableEq, Repr

/-- The enumeration `Layout::side_t`. -/
inductive side_t where
  | SIDE_NORTH
  | SIDE_SOUTH
  | SIDE_EAST
  | SIDE_WEST
  deriving DecidableEq, Repr

open direction_t side_t

/-- The class `Layout`: one side of the padring. -/
structure Layout where
  m_insertFlexSpacer : Bool
  m_dieSize : Rat
  m_dir : direction_t
  m_side : side_t
  m_edgePos : Rat
  m_grid : Rat
  m_items : List LayoutItem
  m_firstCorner : Option LayoutItem
  m_lastCorner : Option LayoutItem
  deriving DecidableEq, Repr

/-- The method `Layout::getItemPos`: the coordinate along the layout axis. -/
def Layout.getItemPos (l : Layout) (item : LayoutItem) : Rat :=
  if l.m_dir = DIR_HORIZONTAL then item.m_x else item.m_y

/-- The method `Layout::setItemEdgePos` on a non-null item: stamps the
coordinate perpendicular to the layout axis. -/
def Layout.setItemEdgePos (l : Layout) (item : LayoutItem) : LayoutItem :=
  if l.m_dir ≠ DIR_HORIZONTAL then { item with m_x := l.m_edgePos }
  else { item with m_y := l.m_edgePos }

/-- The method `Layout::setItemEdgePos` on a possibly null pointer. -/
def Layout.setItemEdgePosPtr (l : Layout) (item : Option LayoutItem) : Option LayoutItem :=
  match item with
  | none => none
  | some it => some (l.setItemEdgePos it)

/-- The coordinate `setItemEdgePos` writes: `m_y` on a horizontal side, `m_x`
on a vertical one. -/
def Layout.getItemEdgePos (l : Layout) (item : LayoutItem) : Rat :=
  if l.m_dir ≠ DIR_HORIZONTAL then item.m_x else item.m_y

/-- The method `Layout::addItem`. -/
def Layout.addItem (l : Layout) (item : LayoutItem) : Layout :=
  let l1 : Layout :=
    if l.m_insertFlexSpacer && item.m_ltype == TYPE_CELL then
      let flex : LayoutItem := LayoutItem.new TYPE_FLEXSPACE
      let flex : LayoutItem := { flex with m_size := -1 }
      let flex : LayoutItem := l.setItemEdgePos flex
      { l with m_items := l.m_items ++ [flex] }
    else l
  let l2 : Layout := { l1 with m_items := l1.m_items ++ [item] }
  if item.m_ltype = TYPE_CELL ∨ item.m_ltype = TYPE_BOND then
    { l2 with m_insertFlexSpacer := true }
  else if item.m_ltype ≠ TYPE_FILLERDECL then
    { l2 with m_insertFlexSpacer := false }
  else l2

/-- The method `Layout::setFirstCorner`. -/
def Layout.setFirstCorner (l : Layout) (corner : Option LayoutItem) : Layout :=
  { l with m_firstCorner := l.setItemEdgePosPtr corner }

/-- The method `Layout::setLastCorner`. -/
def Layout.setLastCorner (l : Layout) (corner : Option LayoutItem) : Layout :=
  { l with m_lastCorner := l.setItemEdgePosPtr corner }

/-- The method `Layout::setEdgePos`. -/
def Layout.setEdgePos (l : Layout) (edgePos : Rat) : Layout :=
  let l1 : Layout := { l with m_edgePos := edgePos }
  let l2 : Layout := { l1 with m_items := l1.m_items.map l1.setItemEdgePos }
  let l3 : Layout := { l2 with m_firstCorner := l2.setItemEdgePosPtr l2.m_firstCorner }
  { l3 with m_lastCorner := l3.setItemEdgePosPtr l3.m_lastCorner }

/-- The methods `Layout::begin`/`end`: the items in insertion order. -/
def Layout.forward (l : Layout) : List LayoutItem := l.m_items

/-- The methods `Layout::rbegin`/`rend`: the items in reverse insertion order. -/
def Layout.backward (l : Layout) : List LayoutItem := l.m_items.reverse

/-! ## padringdb.h, fillerhandler.h : what `main.cpp` uses of them -/

/-- The members of `PadringDB` that `main.cpp` and `csvwriter.cpp` read; the
class is declared in `padringdb.h`. -/
structure PadringDB where
  m_lefreader : PRLEFReader
  m_fillers : List String
  m_dieWidth : Rat
  m_dieHeight : Rat
  m_grid : Rat
  m_designName : String
  m_north : Layout
  m_south : Layout
  m_east : Layout
  m_west : Layout
  deriving DecidableEq, Repr

/-- The methods of `FillerHandler` (declared in `fillerhandler.h`) that
`main.cpp` calls, over a handler state `H`: `fresh` is the default constructed
handler, `getFillerCell h space` gives the returned width together with the
cell name written through the reference argument. -/
structure FillerOps (H : Type) where
  fresh : H
  addFillers : H → PRLEFReader → List String → H
  getCellCount : H → Int
  getFillerCell : H → Rat → Rat × String

/-- What `main.cpp` takes from its surroundings: the parsers, the layout pass of
`PadringDB` and whether an output file can be opened. -/
structure Env where
  parse : List String → String → PadringDB × Bool
  doLayout : PadringDB → PadringDB
  openStream : String → Bool
  gds2Open : String → String → Bool

/-- The command line options `main.cpp` reads. -/
structure CmdLine where
  help : Bool
  lef : List String
  positional : List String
  output : Option String
  svg : Option String
  defFile : Option String
  ver : Option String
  deriving DecidableEq, Repr

/-! ## main.cpp -/

/-- The four writers `main.cpp` forwards items to. -/
inductive Writer where
  | GDS2Writer
  | SVGWriter
  | DEFWriter
  | VerilogWriter
  deriving DecidableEq, Repr

/-- The `doLog(LOG_ERROR, ...)` calls of `main.cpp`; `noFillerFits` carries the side
named in the message text, the remaining width and the item type printed. -/
inductive ErrorMsg where
  | cannotParse
  | noFillerCells
  | dieAreaNotSpecified
  | cannotOpen (w : Writer)
  | noFillerFits (side : String) (space : Rat) (ltype : LayoutItemType)
  deriving DecidableEq, Repr

/-- The observable actions of `main.cpp`, recorded in program order. -/
inductive Event where
  | logError (msg : ErrorMsg)
  | doLayout
  | openStream (w : Writer) (file : String)
  | writeCell (w : Writer) (item : Option LayoutItem)
  deriving DecidableEq, Repr

/-- How a piece of `main.cpp` ends: it falls through to the next statement with a
value, the process exits with a status, or a `while` loop is still running when
the iteration budget of the model is used up. -/
inductive Flow (α : Type) where
  | next (a : α)
  | exit (code : Int)
  | running
  deriving DecidableEq, Repr

/-- The four calls `if (writer != nullptr) writer->writeCell(item); svg.writeCell(item);
def.writeCell(item); ver.writeCell(item);`. -/
def forwardItem (gds : Bool) (item : LayoutItem) : List Event :=
  (if gds then [Event.writeCell Writer.GDS2Writer (some item)] else []) ++
  [Event.writeCell Writer.SVGWriter (some item),
   Event.writeCell Writer.DEFWriter (some item),
   Event.writeCell Writer.VerilogWriter (some item)]

/-- The corner writes of lines 220 to 238, grouped by writer as in the source. -/
def writeCorners (gds : Bool) (corners : List (Option LayoutItem)) : List Event :=
  (if gds then corners.map (Event.writeCell Writer.GDS2Writer) else []) ++
  corners.map (Event.writeCell Writer.SVGWriter) ++
  corners.map (Event.writeCell Writer.DEFWriter) ++
  corners.map (Event.writeCell Writer.VerilogWriter)

/-- The side named in the message of the failure branch of each walk: the walk
over `m_west` prints `(east)` and the walk over `m_east` prints `(west)`. -/
def walkLabel : side_t → String
  | SIDE_NORTH => "north"
  | SIDE_SOUTH => "south"
  | SIDE_WEST => "east"
  | SIDE_EAST => "west"

/-- The value stored in `filler.m_location` by each walk. -/
def walkLocation : side_t → String
  | SIDE_NORTH => "N"
  | SIDE_SOUTH => "S"
  | SIDE_WEST => "W"
  | SIDE_EAST => "E"

/-- The locals `north_y`, `south_y`, `west_x`, `east_x`. -/
def walkEdge (padring : PadringDB) : side_t → Rat
  | SIDE_NORTH => padring.m_dieHeight
  | SIDE_SOUTH => 0
  | SIDE_WEST => 0
  | SIDE_EAST => padring.m_dieWidth

/-- The layout each walk iterates over. -/
def walkLayout (padring : PadringDB) : side_t → Layout
  | SIDE_NORTH => padring.m_north
  | SIDE_SOUTH => padring.m_south
  | SIDE_WEST => padring.m_west
  | SIDE_EAST => padring.m_east

/-- The start of a gap, `double pos = item->m_x` on north and south and
`item->m_y` on west and east. -/
def gapStart (side : side_t) (item : LayoutItem) : Rat :=
  match side with
  | SIDE_NORTH => item.m_x
  | SIDE_SOUTH => item.m_x
  | SIDE_WEST => item.m_y
  | SIDE_EAST => item.m_y

/-- The local `filler` built in the body of the gap loop. -/
def makeFiller (padring : PadringDB) (side : side_t) (cellName : String) (numfill : Int)
    (pos width : Rat) : LayoutItem :=
  let filler : LayoutItem := LayoutItem.new TYPE_FILLER
  let filler : LayoutItem := { filler with m_cellname := cellName }
  let filler : LayoutItem := { filler with m_instance := "FILLER_" ++ toString numfill }
  let filler : LayoutItem :=
    match side with
    | SIDE_NORTH => { filler with m_x := pos, m_y := walkEdge padring SIDE_NORTH }
    | SIDE_SOUTH => { filler with m_x := pos, m_y := walkEdge padring SIDE_SOUTH }
    | SIDE_WEST => { filler with m_x := walkEdge padring SIDE_WEST, m_y := pos }
    | SIDE_EAST => { filler with m_x := walkEdge padring SIDE_EAST, m_y := pos }
  let filler : LayoutItem := { filler with m_size := width }
  let filler : LayoutItem := { filler with m_location := walkLocation side }
  { filler with m_lefinfo := padring.m_lefreader.getCellByName cellName }

/-- The loop `while(space > 0.0) { ... }` of a walk, with at most `fuel` iterations:
the events of the iterations run and how the loop ends, `next numfill` when
`space > 0.0` fails, `exit 1` in the failure branch. The handler is only read. -/
def fillGap {H : Type} (ops : FillerOps H) (padring : PadringDB) (gds : Bool) (side : side_t)
    (ltype : LayoutItemType) (h : H) :
    Nat → Rat → Rat → Int → List Event × Flow Int
  | 0, space, _, numfill =>
    if space > 0 then ([], Flow.running) else ([], Flow.next numfill)
  | fuel + 1, space, pos, numfill =>
    if space > 0 then
      let r := ops.getFillerCell h space
      let width := r.1
      let cellName := r.2
      if width > 0 then
        let filler := makeFiller padring side cellName numfill pos width
        let space1 := space - width
        let space2 := if space1 > 0 ∧ space1 < padring.m_grid then 0 else space1
        let rest := fillGap ops padring gds side ltype h fuel space2 (pos + width) (numfill + 1)
        (forwardItem gds filler ++ rest.1, rest.2)
      else
        ([Event.logError (ErrorMsg.noFillerFits (walkLabel side) space ltype)], Flow.exit 1)
    else ([], Flow.next numfill)

/-- The body of the `for(auto item : padring.m_...)` loop of a walk, on the
handler and the counter `numfill`. -/
def walkItem {H : Type} (ops : FillerOps H) (padring : PadringDB) (gds : Bool) (fuel : Nat)
    (side : side_t) (st : H × Int) (item : LayoutItem) : List Event × Flow (H × Int) :=
  if item.m_ltype = TYPE_CELL then (forwardItem gds item, Flow.next st)
  else if item.m_ltype = TYPE_BOND then (forwardItem gds item, Flow.next st)
  else if item.m_ltype = TYPE_FILLERDECL then
    ([], Flow.next (ops.addFillers st.1 padring.m_lefreader item.m_fillers, st.2))
  else if item.m_ltype = TYPE_FIXEDSPACE ∨ item.m_ltype = TYPE_FLEXSPACE then
    let r := fillGap ops padring gds side item.m_ltype st.1 fuel item.m_size
      (gapStart side item) st.2
    match r.2 with
    | Flow.next numfill => (r.1, Flow.next (st.1, numfill))
    | Flow.exit code => (r.1, Flow.exit code)
    | Flow.running => (r.1, Flow.running)
  else ([], Flow.next st)

/-- A `for` loop over items in order, stopping at the first item whose body does
not fall through. -/
def walkItems {H : Type} (ops : FillerOps H) (padring : PadringDB) (gds : Bool) (fuel : Nat)
    (side : side_t) : H × Int → List LayoutItem → List Event × Flow (H × Int)
  | st, [] => ([], Flow.next st)
  | st, item :: rest =>
    let r := walkItem ops padring gds fuel side st item
    match r.2 with
    | Flow.next st1 =>
      let q := walkItems ops padring gds fuel side st1 rest
      (r.1 ++ q.1, q.2)
    | Flow.exit code => (r.1, Flow.exit code)
    | Flow.running => (r.1, Flow.running)

/-- One walk of `main.cpp`: `for(auto item : padring.m_north)` and its three
siblings, which run from `begin()` to `end()`. -/
def walkSide {H : Type} (ops : FillerOps H) (padring : PadringDB) (gds : Bool) (fuel : Nat)
    (side : side_t) (st : H × Int) : List Event × Flow (H × Int) :=
  walkItems ops padring gds fuel side st (walkLayout padring side).forward

/-- The walks over the given sides one after the other, the handler and the
counter passing from each walk to the next. -/
def walkSides {H : Type} (ops : FillerOps H) (padring : PadringDB) (gds : Bool) (fuel : Nat) :
    H × Int → List side_t → List Event × Flow (H × Int)
  | st, [] => ([], Flow.next st)
  | st, side :: rest =>
    let r := walkSide ops padring gds fuel side st
    match r.2 with
    | Flow.next st1 =>
      let q := walkSides ops padring gds fuel st1 rest
      (r.1 ++ q.1, q.2)
    | Flow.exit code => (r.1, Flow.exit code)
    | Flow.running => (r.1, Flow.running)

/-- The order of the four walks in `main.cpp`. -/
def walkOrder : List side_t := [SIDE_NORTH, SIDE_SOUTH, SIDE_WEST, SIDE_EAST]

/-- Lines 220 to 490 of `main.cpp`: the corner writes, `int numfill = 0`, the four
walks and `return 0`. -/
def mainOutput {H : Type} (ops : FillerOps H) (padring : PadringDB) (gds : Bool) (fuel : Nat)
    (fillerHandler : H) : List Event × Flow Int :=
  let topleft := padring.m_north.m_firstCorner
  let topright := padring.m_north.m_lastCorner
  let bottomleft := padring.m_south.m_firstCorner
  let bottomright := padring.m_south.m_lastCorner
  let corners := writeCorners gds [topleft, topright, bottomleft, bottomright]
  let numfill : Int := 0
  let r := walkSides ops padring gds fuel (fillerHandler, numfill) walkOrder
  match r.2 with
  | Flow.next _ => (corners ++ r.1, Flow.exit 0)
  | Flow.exit code => (corners ++ r.1, Flow.exit code)
  | Flow.running => (corners ++ r.1, Flow.running)

/-- The opening of one text output file (lines 165 to 201): nothing without the
option, otherwise the stream is opened and the run ends with status 1 when it
is not open afterwards. -/
def openOutput (env : Env) (w : Writer) (file : Option String) : List Event × Flow Unit :=
  match file with
  | none => ([], Flow.next ())
  | some name =>
    if env.openStream name then ([Event.openStream w name], Flow.next ())
    else ([Event.openStream w name, Event.logError (ErrorMsg.cannotOpen w)], Flow.exit 1)

/-- Lines 130 to 490 of `main.cpp`, for a configuration that parsed. -/
def mainParsed {H : Type} (ops : FillerOps H) (env : Env) (cmd : CmdLine) (fuel : Nat)
    (padring : PadringDB) : List Event × Flow Int :=
  let fillerHandler := ops.addFillers ops.fresh padring.m_lefreader padring.m_fillers
  if ops.getCellCount fillerHandler = 0 then
    ([Event.logError ErrorMsg.noFillerCells], Flow.exit 1)
  else if padring.m_dieWidth < 1 / 1000000 ∨ padring.m_dieHeight < 1 / 1000000 then
    ([Event.logError ErrorMsg.dieAreaNotSpecified], Flow.exit 1)
  else
    let padring := env.doLayout padring
    let e0 := [Event.doLayout]
    let r1 := openOutput env Writer.SVGWriter cmd.svg
    match r1.2 with
    | Flow.exit code => (e0 ++ r1.1, Flow.exit code)
    | Flow.running => (e0 ++ r1.1, Flow.running)
    | Flow.next _ =>
      let r2 := openOutput env Writer.DEFWriter cmd.defFile
      match r2.2 with
      | Flow.exit code => (e0 ++ r1.1 ++ r2.1, Flow.exit code)
      | Flow.running => (e0 ++ r1.1 ++ r2.1, Flow.running)
      | Flow.next _ =>
        let r3 := openOutput env Writer.VerilogWriter cmd.ver
        match r3.2 with
        | Flow.exit code => (e0 ++ r1.1 ++ r2.1 ++ r3.1, Flow.exit code)
        | Flow.running => (e0 ++ r1.1 ++ r2.1 ++ r3.1, Flow.running)
        | Flow.next _ =>
          let gds : Bool :=
            match cmd.output with
            | none => false
            | some name => env.gds2Open name padring.m_designName
          let e4 : List Event :=
            match cmd.output with
            | none => []
            | some name => [Event.openStream Writer.GDS2Writer name]
          let r := mainOutput ops padring gds fuel fillerHandler
          (e0 ++ r1.1 ++ r2.1 ++ r3.1 ++ e4 ++ r.1, r.2)

/-- The function `main` from the option checks on. -/
def main {H : Type} (ops : FillerOps H) (env : Env) (cmd : CmdLine) (fuel : Nat) :
    List Event × Flow Int :=
  if cmd.help ∨ cmd.positional.length ≠ 1 then ([], Flow.exit 0)
  else if cmd.lef.length < 1 then ([], Flow.exit 0)
  else
    let parsed := env.parse cmd.lef (cmd.positional.headD "")
    if !parsed.2 then ([Event.logError ErrorMsg.cannotParse], Flow.exit 1)
    else mainParsed ops env cmd fuel parsed.1

/-- The items one writer receives, in the order it receives them. -/
def streamOf (w : Writer) (events : List Event) : List (Option LayoutItem) :=
  events.filterMap (fun e =>
    match e with
    | Event.writeCell w1 item => if w1 = w then some item else none
    | _ => none)

/-- The fillers among the events, as the SVG writer receives them. -/
def fillersOf (events : List Event) : List LayoutItem :=
  (streamOf Writer.SVGWriter events).filterMap (fun o =>
    match o with
    | some item => if item.m_ltype = TYPE_FILLER then some item else none
    | none => none)

/-! ## fillerhandler.h : the filler registry, from the spec -/

/-- Modelled from the spec: the class `FillerHandler` of `fillerhandler.h`, whose
definition is outside the sources at hand. The spec describes it as a mapping
from filler cell name to width, restricted to library entries flagged as
fillers; the entries are kept in registration order. -/
structure FillerHandler where
  m_fillers : List (String × Rat)
  deriving DecidableEq, Repr

/-- Modelled from the spec: `FillerHandler::addFillers`, given there as
`rebuild(prefixes, library)`: clears current entries and re-populates from
every library entry whose name matches one of the prefixes and is flagged as
a filler cell. -/
def FillerHandler.addFillers (_h : FillerHandler) (lef : PRLEFReader) (names : List String) :
    FillerHandler :=
  { m_fillers :=
      (lef.m_cells.filter (fun c =>
        c.2.m_isFiller && names.any (fun p => p.isPrefixOf c.2.m_name))).map
        (fun c => (c.2.m_name, c.2.m_sx)) }

/-- Modelled from the spec: `bestFit(maxWidth) -> Option<(name, width)>` returns
the filler entry with the largest width not exceeding `maxWidth`, or none,
preferring the first registered on equal width. -/
def FillerHandler.bestFit (h : FillerHandler) (maxWidth : Rat) : Option (String × Rat) :=
  (h.m_fillers.filter (fun e => e.2 ≤ maxWidth)).foldl
    (fun best e =>
      match best with
      | none => some e
      | some b => if b.2 < e.2 then some e else some b)
    none

/-- Modelled from the spec: `FillerHandler::getFillerCell`, the best fit as a
width and a cell name; without a match the width is 0 and the name is left
empty. -/
def FillerHandler.getFillerCell (h : FillerHandler) (space : Rat) : Rat × String :=
  match h.bestFit space with
  | some e => (e.2, e.1)
  | none => (0, "")

/-- Modelled from the spec: `FillerHandler::getCellCount`, the number of
registered fillers. -/
def FillerHandler.getCellCount (h : FillerHandler) : Int := h.m_fillers.length

/-- Modelled from the spec: the filler registry as the operations `main.cpp`
calls, starting empty. -/
def specFillerOps : FillerOps FillerHandler :=
  { fresh := { m_fillers := [] }
    addFillers := FillerHandler.addFillers
    getCellCount := FillerHandler.getCellCount
    getFillerCell := FillerHandler.getFillerCell }

/-! ## csvwriter.cpp -/

/-- The members `m_ss` and `m_side` of `CSVWriter`. -/
structure CSVWriter where
  m_ss : String
  m_side : Int
  deriving DecidableEq, Repr

/-- The constructor `CSVWriter::CSVWriter`: an empty string stream, `m_side(0)`. -/
def CSVWriter.new : CSVWriter := { m_ss := "", m_side := 0 }

/-- The text one row appends to `m_ss`. -/
def csvRow (tag : String) (pin : Int) (item : LayoutItem) : String :=
  "," ++ tag ++ "," ++ toString pin ++ ",I/O,NONE," ++ item.m_instance ++ "," ++
    item.m_cellname ++ ",,,,,,,,,,,,,,,,\n"

/-- The body shared by the four loops of `CSVWriter::writePadring`. -/
def CSVWriter.writeItem (tag : String) (w : CSVWriter) (item : LayoutItem) : CSVWriter :=
  if item.m_ltype = TYPE_CELL then
    let w1 : CSVWriter := { w with m_side := w.m_side + 1 }
    { w1 with m_ss := w1.m_ss ++ csvRow tag w1.m_side item }
  else w

/-- The method `CSVWriter::writePadring`. -/
def CSVWriter.writePadring (w : CSVWriter) (padring : PadringDB) : CSVWriter :=
  let w1 := padring.m_south.forward.foldl (CSVWriter.writeItem "SOUTH") w
  let w2 := padring.m_east.forward.foldl (CSVWriter.writeItem "EAST") w1
  let w3 := padring.m_north.backward.foldl (CSVWriter.writeItem "NORTH") w2
  padring.m_west.backward.foldl (CSVWriter.writeItem "WEST") w3

/-! ## Words of the specification, for comparison with the code -/

/-- The cells and bonds among the items a writer received. -/
def cellsAndBonds (stream : List (Option LayoutItem)) : List LayoutItem :=
  stream.filterMap (fun o =>
    match o with
    | some item =>
      if item.m_ltype = TYPE_CELL ∨ item.m_ltype = TYPE_BOND then some item else none
    | none => none)

/-- The enumeration order the specification states for downstream consumers:
south ascending, east ascending, north in reverse insertion order, west in
reverse insertion order. -/
def specTraversal (padring : PadringDB) : List LayoutItem :=
  padring.m_south.forward ++ padring.m_east.forward ++
    padring.m_north.backward ++ padring.m_west.backward

/-- The order in which the walks of `main.cpp` meet the side items. -/
def walkTraversal (padring : PadringDB) : List LayoutItem :=
  padring.m_north.forward ++ padring.m_south.forward ++
    padring.m_west.forward ++ padring.m_east.forward

/-- A layout item of the given type with an instance name, all else as the
constructor leaves it. -/
def namedItem (ltype : LayoutItemType) (name : String) : LayoutItem :=
  { LayoutItem.new ltype with m_instance := name }

/-- A space item of the given type, size and start. -/
def spaceItem (ltype : LayoutItemType) (size pos : Rat) : LayoutItem :=
  { LayoutItem.new ltype with m_size := size, m_x := pos, m_y := pos }

/-- A side without corners holding the given items. -/
def sideOf (dir : direction_t) (side : side_t) (items : List LayoutItem) : Layout :=
  { m_insertFlexSpacer := true
    m_dieSize := 0
    m_dir := dir
    m_side := side
    m_edgePos := 0
    m_grid := 1 / 10
    m_items := items
    m_firstCorner := none
    m_lastCorner := none }

/-- A filler cell of the library with the given name and width. -/
def fillerCell (name : String) (width : Rat) : String × LEFCellInfo_t :=
  (name,
    { m_name := name
      m_foreign := ""
      m_sx := width
      m_sy := 1
      m_symmetry := ""
      m_isFiller := true
      m_pins := [] })

/-- A 100 by 100 padring on a 0.1 grid with the given library, initial filler name
list and side items (north, south, east, west). -/
def padringOf (cells : List (String × LEFCellInfo_t)) (fillers : List String)
    (north south east west : List LayoutItem) : PadringDB :=
  { m_lefreader := { m_cells := cells, m_lefDatabaseUnits := 1000 }
    m_fillers := fillers
    m_dieWidth := 100
    m_dieHeight := 100
    m_grid := 1 / 10
    m_designName := "top"
    m_north := sideOf DIR_HORIZONTAL SIDE_NORTH north
    m_south := sideOf DIR_HORIZONTAL SIDE_SOUTH south
    m_east := sideOf DIR_VERTICAL SIDE_EAST east
    m_west := sideOf DIR_VERTICAL SIDE_WEST west }

/-! ## Predicates used in the statements -/

/-- What `setEdgePos` leaves of an item: every member but the coordinate
perpendicular to the layout axis. -/
def keptBySetEdgePos (l : Layout) (a b : LayoutItem) : Prop :=
  l.getItemPos b = l.getItemPos a ∧ b.m_size = a.m_size ∧ b.m_osize = a.m_osize ∧
  b.m_offset = a.m_offset ∧ b.m_ltype = a.m_ltype ∧ b.m_instance = a.m_instance ∧
  b.m_cellname = a.m_cellname ∧ b.m_location = a.m_location ∧ b.m_flipped = a.m_flipped ∧
  b.m_fillers = a.m_fillers ∧ b.m_lefinfo = a.m_lefinfo

/-- A run of `addItem` calls, in order. -/
def addItems (l : Layout) (items : List LayoutItem) : Layout :=
  items.foldl Layout.addItem l

/-- The item is a Cell or a Bond. -/
def isCellOrBond (it : LayoutItem) : Prop :=
  it.m_ltype = TYPE_CELL ∨ it.m_ltype = TYPE_BOND

/-- The item kinds the spacing invariant is stated for: Cell, Bond, FixedSpace and
FillerDeclaration. -/
def isConfigKind (it : LayoutItem) : Prop :=
  it.m_ltype = TYPE_CELL ∨ it.m_ltype = TYPE_BOND ∨ it.m_ltype = TYPE_FIXEDSPACE ∨
    it.m_ltype = TYPE_FILLERDECL

/-- No Cell, no Bond and no FixedSpace among the items. -/
def gapFree (mid : List LayoutItem) : Prop :=
  ∀ m ∈ mid, m.m_ltype ≠ TYPE_CELL ∧ m.m_ltype ≠ TYPE_BOND ∧ m.m_ltype ≠ TYPE_FIXEDSPACE

/-- The number of FlexSpace items among the items. -/
def countFlex (mid : List LayoutItem) : Nat :=
  mid.countP (fun m => m.m_ltype == TYPE_FLEXSPACE)

/-- The spacing invariant in the words of the specification: between any two
Cell-or-Bond items with no other Cell or Bond and no FixedSpace between them,
exactly one FlexSpace item is present. -/
def SpecSpacing (items : List LayoutItem) : Prop :=
  ∀ pre a mid b post, items = pre ++ a :: (mid ++ b :: post) →
    isCellOrBond a → isCellOrBond b → gapFree mid → countFlex mid = 1

/-- The spacing `addItem` enforces: a Cell that follows a Cell or Bond with no
other Cell or Bond and no FixedSpace between them has exactly one FlexSpace
before it, a Bond in that place has none. -/
def CodeSpacing (items : List LayoutItem) : Prop :=
  ∀ pre a mid b post, items = pre ++ a :: (mid ++ b :: post) →
    isCellOrBond a → gapFree mid →
    (b.m_ltype = TYPE_CELL → countFlex mid = 1) ∧ (b.m_ltype = TYPE_BOND → countFlex mid = 0)

/-- The state of the flag against the end of the sequence: after a Cell or Bond
followed by neither Cell, Bond nor FixedSpace the flag is set and no FlexSpace
was added. -/
def TailSpacing (items : List LayoutItem) (flag : Bool) : Prop :=
  ∀ pre a mid, items = pre ++ a :: mid → isCellOrBond a → gapFree mid →
    flag = true ∧ countFlex mid = 0

/-- An empty side with the given direction and automatic-spacer flag. -/
def emptySide (dir : direction_t) (side : side_t) (flag : Bool) : Layout :=
  { sideOf dir side [] with m_insertFlexSpacer := flag }

/-- The locals `space`, `pos` and `numfill` of a gap loop after `k` iterations that
each found a filler, when the loop gets that far: `none` when an earlier
iteration left the loop. -/
def gapState {H : Type} (ops : FillerOps H) (padring : PadringDB) (h : H) :
    Nat → Rat → Rat → Int → Option (Rat × Rat × Int)
  | 0, space, pos, numfill => some (space, pos, numfill)
  | k + 1, space, pos, numfill =>
    if space > 0 then
      let width := (ops.getFillerCell h space).1
      if width > 0 then
        let space1 := space - width
        let space2 := if space1 > 0 ∧ space1 < padring.m_grid then 0 else space1
        gapState ops padring h k space2 (pos + width) (numfill + 1)
      else none
    else none

/-- The widths of the fillers among the events. -/
def fillerWidths (events : List Event) : List Rat :=
  (fillersOf events).map (fun f => f.m_size)

/-- The item is a FixedSpace or a FlexSpace. -/
def isSpace (it : LayoutItem) : Prop :=
  it.m_ltype = TYPE_FIXEDSPACE ∨ it.m_ltype = TYPE_FLEXSPACE

/-- The library of the gap scenarios: fillers of width 5, 2, 1 and 0.3. -/
def scenarioCells : List (String × LEFCellInfo_t) :=
  [fillerCell "FILL5" 5, fillerCell "FILL2" 2, fillerCell "FILL1" 1, fillerCell "FILL03" (3 / 10)]

/-- A padring whose north side is one fixed space of width 7.3 starting at 10. -/
def scenarioPadring : PadringDB :=
  padringOf scenarioCells ["FILL"] [spaceItem TYPE_FIXEDSPACE (73 / 10) 10] [] [] []

/-- The registry `main.cpp` builds for `scenarioPadring`. -/
def scenarioHandler : FillerHandler :=
  specFillerOps.addFillers specFillerOps.fresh scenarioPadring.m_lefreader
    scenarioPadring.m_fillers

/-- A padring whose north side is one fixed space of width 4, with a single filler
of width 5 in the library. -/
def narrowPadring : PadringDB :=
  padringOf [fillerCell "FILL5" 5] ["FILL"] [spaceItem TYPE_FIXEDSPACE 4 10] [] [] []

/-- The registry `main.cpp` builds for `narrowPadring`. -/
def narrowHandler : FillerHandler :=
  specFillerOps.addFillers specFillerOps.fresh narrowPadring.m_lefreader narrowPadring.m_fillers

/-- The registry in use after the given items have been walked: each
FillerDeclaration met reloads it through `addFillers`. -/
def activeAfter {H : Type} (ops : FillerOps H) (padring : PadringDB) (h : H)
    (items : List LayoutItem) : H :=
  items.foldl (fun h1 it =>
    if it.m_ltype = TYPE_FILLERDECL then ops.addFillers h1 padring.m_lefreader it.m_fillers
    else h1) h

/-- The items of the given sides, side after side in insertion order. -/
def itemsOfSides (padring : PadringDB) (sides : List side_t) : List LayoutItem :=
  sides.flatMap (fun s => (walkLayout padring s).forward)

/-- A FillerDeclaration item with the given name list. -/
def declItem (names : List String) : LayoutItem :=
  { LayoutItem.new TYPE_FILLERDECL with m_fillers := names }

/-- A library with a filler `FA1` of width 1 and a filler `FB2` of width 2. -/
def twoFamilyCells : List (String × LEFCellInfo_t) :=
  [fillerCell "FA1" 1, fillerCell "FB2" 2]

/-- Initial filler list `FA`; the north side holds only a declaration of `FB`, the
south side only a fixed space of width 2. -/
def declPadring : PadringDB :=
  padringOf twoFamilyCells ["FA"] [declItem ["FB"]] [spaceItem TYPE_FIXEDSPACE 2 10] [] []

/-- The same padring without the declaration on the north side. -/
def plainPadring : PadringDB :=
  padringOf twoFamilyCells ["FA"] [] [spaceItem TYPE_FIXEDSPACE 2 10] [] []

/-- Surroundings in which the configuration parses to the given padring, the layout
pass leaves it as it is and every file opens. -/
def plainEnv (padring : PadringDB) : Env :=
  { parse := fun _ _ => (padring, true)
    doLayout := fun p => p
    openStream := fun _ => true
    gds2Open := fun _ _ => true }

/-- A command line with one LEF file, one configuration file and no output option. -/
def plainCmd : CmdLine :=
  { help := false
    lef := ["cells.lef"]
    positional := ["ring.cfg"]
    output := none
    svg := none
    defFile := none
    ver := none }

/-- The cell names of the fillers of a run, in the order emitted. -/
def fillerCells (run : List Event × Flow Int) : List String :=
  (fillersOf run.1).map (fun f => f.m_cellname)

/-- What the body of a walk forwards for an item: the item itself for a Cell or a
Bond, fillers only for a FixedSpace or FlexSpace, nothing for any other kind. -/
def ForwardedAs (item : LayoutItem) (seg : List LayoutItem) : Prop :=
  if item.m_ltype = TYPE_CELL ∨ item.m_ltype = TYPE_BOND then seg = [item]
  else if item.m_ltype = TYPE_FIXEDSPACE ∨ item.m_ltype = TYPE_FLEXSPACE then
    ∀ f ∈ seg, f.m_ltype = TYPE_FILLER
  else seg = []

/-- The stream of a writer over a walk of `items`: the items visited are a
beginning of `items`, all of them when the walk falls through, and the stream
is what each visited item forwards, item after item. -/
def WalkStream {α : Type} (w : Writer) (items : List LayoutItem) (r : List Event × Flow α) :
    Prop :=
  ∃ (visited : List LayoutItem) (segs : List (List LayoutItem)),
    visited <+: items ∧ List.Forall₂ ForwardedAs visited segs ∧
    streamOf w r.1 = segs.flatten.map some ∧
    (∀ a, r.2 = Flow.next a → visited = items)

/-- A padring with the cells `N1`, `N2` on the north side, in that insertion order,
and the cell `S1` on the south side. -/
def orderPadring : PadringDB :=
  padringOf scenarioCells ["FILL"]
    [namedItem TYPE_CELL "N1", namedItem TYPE_CELL "N2"] [namedItem TYPE_CELL "S1"] [] []

/-- The Cell items of a list, each with the tag of its side. -/
def taggedCells (tag : String) (items : List LayoutItem) : List (String × LayoutItem) :=
  (items.filter (fun it => it.m_ltype == TYPE_CELL)).map (fun it => (tag, it))

/-- The Cell items in the enumeration order of the specification, each with the
tag of its side: south in insertion order, east in insertion order, north in
reverse insertion order, west in reverse insertion order. -/
def csvCells (padring : PadringDB) : List (String × LayoutItem) :=
  taggedCells "SOUTH" padring.m_south.m_items ++ taggedCells "EAST" padring.m_east.m_items ++
    taggedCells "NORTH" padring.m_north.m_items.reverse ++
    taggedCells "WEST" padring.m_west.m_items.reverse

/-- The rows for tagged cells numbered from `start`: the row of the cell at place
`k` (from 0) carries pin number `start + k`. -/
def numberedRows (start : Nat) (cells : List (String × LayoutItem)) : List String :=
  (List.enumFrom start cells).map (fun p => csvRow p.2.1 (p.1 : Int) p.2.2)

/-- The text of rows written one after the other. -/
def concatRows (rows : List String) : String :=
  rows.foldl (fun acc row => acc ++ row) ""

/-- A padring with cells and other items on all four sides. -/
def csvPadring : PadringDB :=
  padringOf scenarioCells ["FILL"]
    [namedItem TYPE_CELL "N1", namedItem TYPE_BOND "NB", namedItem TYPE_CELL "N2"]
    [namedItem TYPE_CELL "S1", spaceItem TYPE_FLEXSPACE 1 0, namedItem TYPE_CELL "S2"]
    [namedItem TYPE_CELL "E1"]
    [namedItem TYPE_CELL "W1", declItem ["FILL"], namedItem TYPE_CELL "W2"]

/-- The scenario padring with the die height set to 0. -/
def zeroDiePadring : PadringDB :=
  { scenarioPadring with m_dieHeight := 0 }

/-- The name of a side, as a failure report should give it. -/
def sideName : side_t → String
  | SIDE_NORTH => "north"
  | SIDE_SOUTH => "south"
  | SIDE_WEST => "west"
  | SIDE_EAST => "east"

/-- A padring whose west side is one fixed space of width 4, all other sides empty,
with a single filler of width 5 in the library. -/
def westNarrowPadring : PadringDB :=
  padringOf [fillerCell "FILL5" 5] ["FILL"] [] [] [] [spaceItem TYPE_FIXEDSPACE 4 10]

/-- A padring whose east side is one fixed space of width 4, all other sides empty,
with a single filler of width 5 in the library. -/
def eastNarrowPadring : PadringDB :=
  padringOf [fillerCell "FILL5" 5] ["FILL"] [] [] [spaceItem TYPE_FIXEDSPACE 4 10] []

/-- A padring on a 0.1 grid whose north side is one fixed space of width 0.05, with a
single filler of width 5 in the library. -/
def subGridPadring : PadringDB :=
  padringOf [fillerCell "FILL5" 5] ["FILL"] [spaceItem TYPE_FIXEDSPACE (1 / 20) 10] [] [] []

/-- A registry without any filler. -/
def emptyHandler : FillerHandler := { m_fillers := [] }

/-- The number of fillers a run of the gap loop emitted. -/
def fillerCount (r : List Event × Flow Int) : Nat := (fillersOf r.1).length

/-- The value of a decimal digit character. -/
def digitValue (c : Char) : Nat := c.toNat - 48

/-- The number a text of decimal digits stands for. -/
def decimalValue (s : String) : Nat :=
  s.data.foldl (fun acc c => acc * 10 + digitValue c) 0

/-- The instance names `FILLER_<start>`, `FILLER_<start+1>`, ..., `count` of them: what
`"FILLER_" + std::to_string(numfill)` gives while `numfill` counts up. -/
def fillerNames : Int → Nat → List String
  | _, 0 => []
  | start, count + 1 => ("FILLER_" ++ toString start) :: fillerNames (start + 1) count

/-- The item is of type Filler. -/
def isFillerItem (it : LayoutItem) : Bool := it.m_ltype == TYPE_FILLER

/-- The events of forwarding the given items one after the other. -/
def forwardAll (gds : Bool) (items : List LayoutItem) : List Event :=
  items.flatMap (forwardItem gds)

/-- The events of a piece of the walks, entered with the counter at `start`: the
forwarding of some items followed at most by error messages; the fillers among
the items carry the names `FILLER_<start>` onwards; when the piece falls
through there is no error message and the counter has advanced by the number
of fillers. -/
def WalkShape {α : Type} (gds : Bool) (start : Int) (final : α → Int)
    (r : List Event × Flow α) : Prop :=
  ∃ (items : List LayoutItem) (errs : List Event) (count : Nat),
    r.1 = forwardAll gds items ++ errs ∧
    (∀ e ∈ errs, ∃ msg, e = Event.logError msg) ∧
    (items.filter isFillerItem).map (fun f => f.m_instance) = fillerNames start count ∧
    (∀ a, r.2 = Flow.next a → errs = [] ∧ final a = start + (count : Int))

/-- The item is a Cell or a Bond, as a test. -/
def isCellOrBondItem (it : LayoutItem) : Bool :=
  it.m_ltype == TYPE_CELL || it.m_ltype == TYPE_BOND

/-- The configured items that are forwarded to the writers: the corners that are
set and the cells and bonds of the four sides. -/
def configuredItems (padring : PadringDB) : List LayoutItem :=
  [padring.m_north.m_firstCorner, padring.m_north.m_lastCorner,
    padring.m_south.m_firstCorner, padring.m_south.m_lastCorner].filterMap id ++
  (walkTraversal padring).filter isCellOrBondItem

/-- The items a writer received, null corners left out. -/
def forwardedItems (w : Writer) (events : List Event) : List LayoutItem :=
  (streamOf w events).filterMap id

/-- The text is a filler name: `FILLER_` followed by the decimal text of a natural
number. -/
def isFillerName (s : String) : Prop := ∃ k : Nat, s = "FILLER_" ++ toString k

/-- A padring whose north side holds a cell with the instance name `FILLER_0` and a
fixed space of width 5. -/
def clashPadring : PadringDB :=
  padringOf scenarioCells ["FILL"]
    [namedItem TYPE_CELL "FILLER_0", spaceItem TYPE_FIXEDSPACE 5 10] [] [] []

/-! ## verilogwriter.cpp -/

/-- The string streams and the design name of `VerilogWriter`. -/
structure VerilogWriter where
  m_ss_header : String
  m_ss_dirs : String
  m_ss_vars : String
  m_ss_body : String
  m_designName : String
  deriving DecidableEq, Repr

/-- What the loop over the pins in `VerilogWriter::writeCell` changes: the three
streams written and the local `first`. -/
structure PinLoop where
  dirs : String
  vars : String
  body : String
  first : Bool
  deriving DecidableEq, Repr

/-- The body of the loop `for(auto it: item->m_lefinfo->m_pins)` for one entry of the
pin map. -/
def VerilogWriter.writePin (instName : String) (st : PinLoop) (it : String × LEFPinInfo_t) :
    PinLoop :=
  if it.2.m_use ≠ 0 then st
  else
    let varName := instName ++ "_" ++ it.1
    let dirs := st.dirs ++ "  "
    let dirs := if it.2.m_dir = 0 then dirs ++ "input " else dirs
    let dirs := if it.2.m_dir = 1 then dirs ++ "output " else dirs
    let dirs := if it.2.m_dir = 2 then dirs ++ "inout " else dirs
    let dirs := dirs ++ varName ++ ";\n"
    let vars := st.vars ++ "  wire " ++ varName ++ ";\n"
    let body := if !st.first then st.body ++ ", " else st.body
    let body := body ++ "." ++ it.1 ++ "(" ++ varName ++ ")"
    { dirs := dirs, vars := vars, body := body, first := false }

/-- The method `VerilogWriter::writeCell`; `none` when `item->m_lefinfo` is null, which the
method dereferences. -/
def VerilogWriter.writeCell (w : VerilogWriter) (item : LayoutItem) : Option VerilogWriter :=
  match item.m_lefinfo with
  | none => none
  | some info =>
    let body := w.m_ss_body ++ "  " ++ item.m_cellname ++ " " ++ item.m_instance ++ "("
    let st := info.m_pins.foldl (VerilogWriter.writePin item.m_instance)
      { dirs := w.m_ss_dirs, vars := w.m_ss_vars, body := body, first := true }
    some { w with m_ss_dirs := st.dirs, m_ss_vars := st.vars, m_ss_body := st.body ++ ");\n" }

/-- The pins whose use is signal, in the order of the pin map. -/
def signalPins (info : LEFCellInfo_t) : List (String × LEFPinInfo_t) :=
  info.m_pins.filter (fun p => p.2.m_use == 0)

/-- The connection of pin `p` of an instance: `.p(<instance>_p)`. -/
def pinConnection (instName : String) (p : String × LEFPinInfo_t) : String :=
  "." ++ p.1 ++ "(" ++ (instName ++ "_" ++ p.1) ++ ")"

/-- The keyword of a direction declaration: `input` for 0, `output` for 1, `inout` for 2,
none for any other value. -/
def dirKeyword (dir : Int) : String :=
  if dir = 0 then "input " else if dir = 1 then "output " else if dir = 2 then "inout " else ""

/-- The direction declaration of pin `p` of an instance. -/
def dirDeclaration (instName : String) (p : String × LEFPinInfo_t) : String :=
  "  " ++ dirKeyword p.2.m_dir ++ (instName ++ "_" ++ p.1) ++ ";\n"

/-- The wire declaration of pin `p` of an instance. -/
def wireDeclaration (instName : String) (p : String × LEFPinInfo_t) : String :=
  "  wire " ++ (instName ++ "_" ++ p.1) ++ ";\n"

/-- The texts separated by `sep`. -/
def joinWith (sep : String) : List String → String
  | [] => ""
  | [a] => a
  | a :: b :: rest => a ++ sep ++ joinWith sep (b :: rest)

/-- A pad cell with a signal input `A`, a power pin `VDD`, a signal output `Y`, a ground
pin `VSS` and a signal inout `PAD`, in that order in the pin map. -/
def padCellInfo : LEFCellInfo_t :=
  { m_name := "PADIO"
    m_foreign := ""
    m_sx := 20
    m_sy := 100
    m_symmetry := ""
    m_isFiller := false
    m_pins :=
      [("A", { m_dir := 0, m_class := 0, m_use := 0 }),
        ("VDD", { m_dir := 2, m_class := 0, m_use := 1 }),
        ("Y", { m_dir := 1, m_class := 0, m_use := 0 }),
        ("VSS", { m_dir := 2, m_class := 0, m_use := 2 }),
        ("PAD", { m_dir := 2, m_class := 0, m_use := 0 })] }

/-- A cell `u1` of type `PADIO` with its library entry. -/
def padCellItem : LayoutItem :=
  { namedItem TYPE_CELL "u1" with m_cellname := "PADIO", m_lefinfo := some padCellInfo }

/-- A writer whose streams are still empty. -/
def emptyVerilogWriter : VerilogWriter :=
  { m_ss_header := "", m_ss_dirs := "", m_ss_vars := "", m_ss_body := "", m_designName := "top" }

/-! # Theorems -/

/-! ## Layout::addItem -/

/-- The spacer `addItem` synthesizes: a fresh flex space stamped with the edge
position of the side. -/
theorem setItemEdgePos_flex (l : Layout) :
    (l.setItemEdgePos (LayoutItem.new TYPE_FLEXSPACE)).m_ltype = TYPE_FLEXSPACE ∧
    (l.setItemEdgePos (LayoutItem.new TYPE_FLEXSPACE)).m_size = -1 ∧
    l.getItemEdgePos (l.setItemEdgePos (LayoutItem.new TYPE_FLEXSPACE)) = l.m_edgePos := by
  unfold Layout.setItemEdgePos Layout.getItemEdgePos LayoutItem.new
  by_cases hd : l.m_dir = DIR_HORIZONTAL <;> simp [hd]

/-- The item sequence after `addItem`, as an equation. -/
theorem addItem_items_eq (l : Layout) (it : LayoutItem) :
    (l.addItem it).m_items =
      if l.m_insertFlexSpacer = true ∧ it.m_ltype = TYPE_CELL then
        l.m_items ++ [l.setItemEdgePos (LayoutItem.new TYPE_FLEXSPACE), it]
      else l.m_items ++ [it] := by
  unfold Layout.addItem
  cases hf : l.m_insertFlexSpacer <;> cases ht : it.m_ltype <;> simp [LayoutItem.new]

/-- The flag after `addItem`, as an equation. -/
theorem addItem_flag_eq (l : Layout) (it : LayoutItem) :
    (l.addItem it).m_insertFlexSpacer =
      if it.m_ltype = TYPE_CELL ∨ it.m_ltype = TYPE_BOND then true
      else if it.m_ltype = TYPE_FILLERDECL then l.m_insertFlexSpacer
      else false := by
  unfold Layout.addItem
  cases hf : l.m_insertFlexSpacer <;> cases ht : it.m_ltype <;> simp [hf]

/-- `addItem` leaves the direction and the edge position of the side alone. -/
theorem addItem_dir_edgePos (l : Layout) (it : LayoutItem) :
    (l.addItem it).m_dir = l.m_dir ∧ (l.addItem it).m_edgePos = l.m_edgePos := by
  unfold Layout.addItem
  cases hf : l.m_insertFlexSpacer <;> cases ht : it.m_ltype <;> simp

/-- C3. `Layout::addItem` result sequence: when the automatic-spacer flag is set and
the item is a Cell, the sequence becomes `L ++ [flex, it]` with `flex` a new
FlexSpace of size -1 whose perpendicular coordinate is the edge position of the
side; in every other case it becomes `L ++ [it]`. The items of `L` and the item
`it` are unchanged. -/
theorem addItem_result_sequence (l : Layout) (it : LayoutItem) :
    if l.m_insertFlexSpacer = true ∧ it.m_ltype = TYPE_CELL then
      ∃ flex : LayoutItem,
        flex = l.setItemEdgePos (LayoutItem.new TYPE_FLEXSPACE) ∧
        flex.m_ltype = TYPE_FLEXSPACE ∧ flex.m_size = -1 ∧
        l.getItemEdgePos flex = l.m_edgePos ∧
        (l.addItem it).m_items = l.m_items ++ [flex, it]
    else (l.addItem it).m_items = l.m_items ++ [it] := by
  have h := addItem_items_eq l it
  have hflex := setItemEdgePos_flex l
  split
  · next hc =>
    rw [if_pos hc] at h
    exact ⟨_, rfl, hflex.1, hflex.2.1, hflex.2.2, h⟩
  · next hc =>
    rw [if_neg hc] at h
    exact h

/-- C4. `Layout::addItem` flag update: after `addItem(item)` the automatic-spacer flag
is true for a Cell or a Bond, keeps its prior value for a FillerDeclaration and
is false for Corner, FixedSpace, FlexSpace and Filler. -/
theorem addItem_flag_update (l : Layout) (it : LayoutItem) :
    (l.addItem it).m_insertFlexSpacer =
      match it.m_ltype with
      | TYPE_CELL => true
      | TYPE_BOND => true
      | TYPE_FILLERDECL => l.m_insertFlexSpacer
      | TYPE_CORNER => false
      | TYPE_FIXEDSPACE => false
      | TYPE_FLEXSPACE => false
      | TYPE_FILLER => false := by
  rw [addItem_flag_eq]
  cases ht : it.m_ltype <;> simp

/-! ## The spacing invariant -/

/-- A list ending in `y` that is split at an element `a`: either `a` is that last
element, or the part after `a` ends in `y`. -/
theorem snoc_eq_append_cons {α : Type} (items pre mid : List α) (y a : α)
    (h : items ++ [y] = pre ++ a :: mid) :
    (mid = [] ∧ a = y ∧ items = pre) ∨ (∃ mid1, mid = mid1 ++ [y] ∧ items = pre ++ a :: mid1) := by
  rcases List.eq_nil_or_concat mid with hm | ⟨mid1, z, hm⟩
  · subst hm
    have h2 := List.append_inj' h (by simp)
    simp at h2
    exact Or.inl ⟨rfl, h2.2.symm, h2.1⟩
  · subst hm
    have h3 : items ++ [y] = (pre ++ a :: mid1) ++ [z] := by simpa using h
    have h2 := List.append_inj' h3 (by simp)
    simp at h2
    exact Or.inr ⟨mid1, by rw [h2.2, List.concat_eq_append], h2.1⟩

theorem gapFree_append (xs ys : List LayoutItem) :
    gapFree (xs ++ ys) ↔ gapFree xs ∧ gapFree ys := by
  unfold gapFree
  simp only [List.mem_append]
  constructor
  · intro h
    exact ⟨fun m hm => h m (Or.inl hm), fun m hm => h m (Or.inr hm)⟩
  · rintro ⟨h1, h2⟩ m (hm | hm)
    · exact h1 m hm
    · exact h2 m hm

theorem gapFree_single (y : LayoutItem) :
    gapFree [y] ↔
      (y.m_ltype ≠ TYPE_CELL ∧ y.m_ltype ≠ TYPE_BOND ∧ y.m_ltype ≠ TYPE_FIXEDSPACE) := by
  simp [gapFree]

theorem countFlex_snoc (xs : List LayoutItem) (y : LayoutItem) :
    countFlex (xs ++ [y]) = countFlex xs + (if y.m_ltype = TYPE_FLEXSPACE then 1 else 0) := by
  unfold countFlex
  rw [List.countP_append]
  by_cases hy : y.m_ltype = TYPE_FLEXSPACE <;> simp [List.countP_cons, hy]

/-- Appending one item keeps `CodeSpacing` when the new item is spaced against
every Cell or Bond that reaches the end of the sequence. -/
theorem codeSpacing_snoc (items : List LayoutItem) (y : LayoutItem)
    (hs : CodeSpacing items)
    (hy : ∀ pre a mid, items = pre ++ a :: mid → isCellOrBond a → gapFree mid →
      (y.m_ltype = TYPE_CELL → countFlex mid = 1) ∧ (y.m_ltype = TYPE_BOND → countFlex mid = 0)) :
    CodeSpacing (items ++ [y]) := by
  intro pre a mid b post heq ha hfree
  rcases snoc_eq_append_cons items pre (mid ++ b :: post) y a heq with ⟨hnil, _, _⟩ | ⟨m1, hm1, hit⟩
  · simp at hnil
  · rcases snoc_eq_append_cons m1 mid post y b hm1.symm with ⟨_, hb, hm⟩ | ⟨post1, _, hm⟩
    · subst hb
      subst hm
      exact hy pre a m1 hit ha hfree
    · subst hm
      exact hs pre a mid b post1 hit ha hfree

/-- Appending one item and setting the flag: the tail property of the longer
sequence. -/
theorem tailSpacing_snoc (items : List LayoutItem) (y : LayoutItem) (flag flag1 : Bool)
    (ht : TailSpacing items flag)
    (hcb : isCellOrBond y → flag1 = true)
    (hfree : y.m_ltype ≠ TYPE_CELL → y.m_ltype ≠ TYPE_BOND → y.m_ltype ≠ TYPE_FIXEDSPACE →
      y.m_ltype ≠ TYPE_FLEXSPACE ∧ flag1 = flag) :
    TailSpacing (items ++ [y]) flag1 := by
  intro pre a mid heq ha hfr
  rcases snoc_eq_append_cons items pre mid y a heq with ⟨hnil, hay, _⟩ | ⟨m1, hm1, hit⟩
  · subst hnil
    subst hay
    exact ⟨hcb ha, by simp [countFlex]⟩
  · subst hm1
    rw [gapFree_append, gapFree_single] at hfr
    obtain ⟨hf1, hf2⟩ := ht pre a m1 hit ha hfr.1
    obtain ⟨hne, hfl⟩ := hfree hfr.2.1 hfr.2.2.1 hfr.2.2.2
    rw [countFlex_snoc]
    simp [hne, hf2, hfl, hf1]

/-- One `addItem` call with an item of a configuration kind keeps `CodeSpacing` and
the tail property. -/
theorem addItem_keeps_spacing (l : Layout) (x : LayoutItem) (hx : isConfigKind x)
    (hs : CodeSpacing l.m_items) (ht : TailSpacing l.m_items l.m_insertFlexSpacer) :
    CodeSpacing (l.addItem x).m_items ∧
      TailSpacing (l.addItem x).m_items (l.addItem x).m_insertFlexSpacer := by
  rw [addItem_items_eq, addItem_flag_eq]
  have hflex := (setItemEdgePos_flex l).1
  by_cases hc : x.m_ltype = TYPE_CELL
  · by_cases hf : l.m_insertFlexSpacer = true
    · -- a spacer and the cell are appended
      rw [if_pos ⟨hf, hc⟩, if_pos (Or.inl hc)]
      have e : l.m_items ++ [l.setItemEdgePos (LayoutItem.new TYPE_FLEXSPACE), x] =
          (l.m_items ++ [l.setItemEdgePos (LayoutItem.new TYPE_FLEXSPACE)]) ++ [x] := by simp
      rw [e]
      have hs1 : CodeSpacing (l.m_items ++ [l.setItemEdgePos (LayoutItem.new TYPE_FLEXSPACE)]) := by
        apply codeSpacing_snoc _ _ hs
        intro pre a mid _ _ _
        constructor <;> intro h <;> rw [hflex] at h <;> cases h
      have ht1 : ∀ pre a mid,
          l.m_items ++ [l.setItemEdgePos (LayoutItem.new TYPE_FLEXSPACE)] = pre ++ a :: mid →
          isCellOrBond a → gapFree mid → countFlex mid = 1 := by
        intro pre a mid heq ha hfr
        rcases snoc_eq_append_cons _ pre mid _ a heq with ⟨_, hay, _⟩ | ⟨m1, hm1, hit⟩
        · subst hay
          rcases ha with ha | ha <;> rw [hflex] at ha <;> cases ha
        · subst hm1
          rw [gapFree_append] at hfr
          rw [countFlex_snoc, (ht pre a m1 hit ha hfr.1).2]
          simp [hflex]
      constructor
      · apply codeSpacing_snoc _ _ hs1
        intro pre a mid heq ha hfr
        refine ⟨fun _ => ht1 pre a mid heq ha hfr, fun hb => ?_⟩
        rw [hc] at hb
        cases hb
      · intro pre a mid heq ha hfr
        rcases snoc_eq_append_cons _ pre mid x a heq with ⟨hnil, _, _⟩ | ⟨m1, hm1, _⟩
        · subst hnil
          exact ⟨rfl, by simp [countFlex]⟩
        · subst hm1
          rw [gapFree_append, gapFree_single] at hfr
          exact absurd hc hfr.2.1
    · -- the flag is clear: the cell alone is appended
      have hf0 : ¬ (l.m_insertFlexSpacer = true ∧ x.m_ltype = TYPE_CELL) := fun h => hf h.1
      rw [if_neg hf0, if_pos (Or.inl hc)]
      constructor
      · apply codeSpacing_snoc _ _ hs
        intro pre a mid heq ha hfr
        exact absurd (ht pre a mid heq ha hfr).1 hf
      · apply tailSpacing_snoc _ _ _ _ ht (fun _ => rfl)
        intro h
        exact absurd hc h
  · have hf0 : ¬ (l.m_insertFlexSpacer = true ∧ x.m_ltype = TYPE_CELL) := fun h => hc h.2
    rw [if_neg hf0]
    constructor
    · apply codeSpacing_snoc _ _ hs
      intro pre a mid heq ha hfr
      exact ⟨fun h => absurd h hc, fun _ => (ht pre a mid heq ha hfr).2⟩
    · rcases hx with hx | hx | hx | hx
      · exact absurd hx hc
      · rw [if_pos (Or.inr hx)]
        apply tailSpacing_snoc _ _ _ _ ht (fun _ => rfl)
        intro _ h
        exact absurd hx h
      · have h1 : ¬ (x.m_ltype = TYPE_CELL ∨ x.m_ltype = TYPE_BOND) := by simp [hx]
        have h2 : ¬ x.m_ltype = TYPE_FILLERDECL := by simp [hx]
        rw [if_neg h1, if_neg h2]
        apply tailSpacing_snoc _ _ _ _ ht
        · intro h
          exact absurd h h1
        · intro _ _ h
          exact absurd hx h
      · have h1 : ¬ (x.m_ltype = TYPE_CELL ∨ x.m_ltype = TYPE_BOND) := by simp [hx]
        rw [if_neg h1, if_pos hx]
        apply tailSpacing_snoc _ _ _ _ ht
        · intro h
          exact absurd h h1
        · intro _ _ _
          exact ⟨by simp [hx], rfl⟩

/-- A run of `addItem` calls with items of configuration kinds keeps `CodeSpacing`
and the tail property. -/
theorem addItems_keeps_spacing (items : List LayoutItem) :
    ∀ l : Layout, (∀ x ∈ items, isConfigKind x) → CodeSpacing l.m_items →
      TailSpacing l.m_items l.m_insertFlexSpacer →
      CodeSpacing (addItems l items).m_items ∧
        TailSpacing (addItems l items).m_items (addItems l items).m_insertFlexSpacer := by
  induction items with
  | nil =>
    intro l _ hs ht
    exact ⟨hs, ht⟩
  | cons x rest ih =>
    intro l hk hs ht
    have h1 := addItem_keeps_spacing l x (hk x (List.mem_cons_self _ _)) hs ht
    exact ih (l.addItem x) (fun y hy => hk y (List.mem_cons_of_mem _ hy)) h1.1 h1.2

/-- C5 (as stated, refuted). Adding a Cell and then a Bond to an empty side gives a
sequence in which the Cell and the Bond are adjacent, with no FlexSpace between
them: the spacing invariant in the words of the specification fails. -/
theorem spacing_bond_after_cell_counterexample :
    (addItems (emptySide DIR_HORIZONTAL SIDE_NORTH true)
        [namedItem TYPE_CELL "A", namedItem TYPE_BOND "B"]).m_items =
      [(emptySide DIR_HORIZONTAL SIDE_NORTH true).setItemEdgePos (LayoutItem.new TYPE_FLEXSPACE),
        namedItem TYPE_CELL "A", namedItem TYPE_BOND "B"] ∧
    ¬ SpecSpacing (addItems (emptySide DIR_HORIZONTAL SIDE_NORTH true)
        [namedItem TYPE_CELL "A", namedItem TYPE_BOND "B"]).m_items := by
  have e : (addItems (emptySide DIR_HORIZONTAL SIDE_NORTH true)
        [namedItem TYPE_CELL "A", namedItem TYPE_BOND "B"]).m_items =
      [(emptySide DIR_HORIZONTAL SIDE_NORTH true).setItemEdgePos (LayoutItem.new TYPE_FLEXSPACE),
        namedItem TYPE_CELL "A", namedItem TYPE_BOND "B"] := by
    simp [addItems, addItem_items_eq, addItem_flag_eq, emptySide, sideOf, namedItem,
      LayoutItem.new, Layout.setItemEdgePos]
  refine ⟨e, fun h => ?_⟩
  rw [e] at h
  have h1 := h [(emptySide DIR_HORIZONTAL SIDE_NORTH true).setItemEdgePos
      (LayoutItem.new TYPE_FLEXSPACE)] (namedItem TYPE_CELL "A") [] (namedItem TYPE_BOND "B") []
    rfl (Or.inl rfl) (Or.inr rfl) (by simp [gapFree])
  simp [countFlex] at h1

/-- C5 (amended). For every sequence of `addItem` calls on an empty side using items of
kind Cell, Bond, FixedSpace and FillerDeclaration, and any Cell-or-Bond item `a`
of the resulting sequence followed, with no other Cell or Bond and no
FixedSpace between them, by an item `b`: when `b` is a Cell exactly one
FlexSpace lies between them, and when `b` is a Bond none does. -/
theorem addItem_spacing_invariant (l : Layout) (items : List LayoutItem)
    (hempty : l.m_items = []) (hk : ∀ x ∈ items, isConfigKind x)
    (pre : List LayoutItem) (a : LayoutItem) (mid : List LayoutItem) (b : LayoutItem)
    (post : List LayoutItem)
    (hsplit : (addItems l items).m_items = pre ++ a :: (mid ++ b :: post))
    (ha : isCellOrBond a) (hfree : gapFree mid) :
    (b.m_ltype = TYPE_CELL → countFlex mid = 1) ∧ (b.m_ltype = TYPE_BOND → countFlex mid = 0) := by
  have hs : CodeSpacing l.m_items := by
    intro pre a mid b post heq
    rw [hempty] at heq
    simp at heq
  have ht : TailSpacing l.m_items l.m_insertFlexSpacer := by
    intro pre a mid heq
    rw [hempty] at heq
    simp at heq
  exact (addItems_keeps_spacing items l hk hs ht).1 pre a mid b post hsplit ha hfree

/-- Witness of C5 (amended): Cell `A`, Bond `B`, Cell `C` added to an empty side; between
the Bond and the Cell `C` lies the one spacer synthesized before `C`. -/
theorem addItem_spacing_invariant_witness :
    (addItems (emptySide DIR_HORIZONTAL SIDE_NORTH false)
        [namedItem TYPE_CELL "A", namedItem TYPE_BOND "B", namedItem TYPE_CELL "C"]).m_items =
      [namedItem TYPE_CELL "A", namedItem TYPE_BOND "B",
        (emptySide DIR_HORIZONTAL SIDE_NORTH false).setItemEdgePos (LayoutItem.new TYPE_FLEXSPACE),
        namedItem TYPE_CELL "C"] ∧
    countFlex [(emptySide DIR_HORIZONTAL SIDE_NORTH false).setItemEdgePos
        (LayoutItem.new TYPE_FLEXSPACE)] = 1 :=
  have h := addItem_spacing_invariant (emptySide DIR_HORIZONTAL SIDE_NORTH false)
    [namedItem TYPE_CELL "A", namedItem TYPE_BOND "B", namedItem TYPE_CELL "C"]
    rfl
    (by
      intro x hx
      simp at hx
      rcases hx with hx | hx | hx <;> subst hx <;> simp [isConfigKind, namedItem, LayoutItem.new])
    [namedItem TYPE_CELL "A"] (namedItem TYPE_BOND "B")
    [(emptySide DIR_HORIZONTAL SIDE_NORTH false).setItemEdgePos (LayoutItem.new TYPE_FLEXSPACE)]
    (namedItem TYPE_CELL "C") []
    (by
      simp [addItems, addItem_items_eq, addItem_flag_eq, addItem_dir_edgePos, emptySide, sideOf,
        namedItem, LayoutItem.new, Layout.setItemEdgePos])
    (Or.inr rfl)
    (by simp [gapFree, Layout.setItemEdgePos, emptySide, sideOf, LayoutItem.new])
  ⟨by decide!, h.1 rfl⟩

/-! ## Layout::setEdgePos -/

/-- Stamping twice on sides of the same direction is stamping once with the
second side. -/
theorem setItemEdgePos_twice (l1 l2 : Layout) (hd : l1.m_dir = l2.m_dir) (it : LayoutItem) :
    l2.setItemEdgePos (l1.setItemEdgePos it) = l2.setItemEdgePos it := by
  unfold Layout.setItemEdgePos
  rw [hd]
  by_cases h : l2.m_dir = DIR_HORIZONTAL <;> simp [h]

theorem setItemEdgePosPtr_twice (l1 l2 : Layout) (hd : l1.m_dir = l2.m_dir)
    (c : Option LayoutItem) :
    l2.setItemEdgePosPtr (l1.setItemEdgePosPtr c) = l2.setItemEdgePosPtr c := by
  cases c with
  | none => rfl
  | some it => simp [Layout.setItemEdgePosPtr, setItemEdgePos_twice l1 l2 hd]

/-- The state after `setEdgePos`, member by member. -/
theorem setEdgePos_eq (l : Layout) (pos : Rat) :
    l.setEdgePos pos =
      { l with
        m_edgePos := pos
        m_items := l.m_items.map ({ l with m_edgePos := pos } : Layout).setItemEdgePos
        m_firstCorner := ({ l with m_edgePos := pos } : Layout).setItemEdgePosPtr l.m_firstCorner
        m_lastCorner := ({ l with m_edgePos := pos } : Layout).setItemEdgePosPtr l.m_lastCorner } := by
  unfold Layout.setEdgePos
  cases hf : l.m_firstCorner <;> cases hl : l.m_lastCorner <;>
    simp [Layout.setItemEdgePosPtr, Layout.setItemEdgePos]

/-- Two `setEdgePos` calls in a row are the second one alone. -/
theorem setEdgePos_setEdgePos (l : Layout) (p q : Rat) :
    (l.setEdgePos p).setEdgePos q = l.setEdgePos q := by
  rw [setEdgePos_eq (l.setEdgePos p) q, setEdgePos_eq l p, setEdgePos_eq l q]
  simp only [List.map_map]
  congr 1
  · apply List.map_congr_left
    intro it _
    rw [Function.comp_apply]
    apply setItemEdgePos_twice
    rfl
  · apply setItemEdgePosPtr_twice
    rfl
  · apply setItemEdgePosPtr_twice
    rfl

/-- An item stamped by `setItemEdgePos` carries the edge position and keeps the
rest. -/
theorem setItemEdgePos_kept (l : Layout) (it : LayoutItem) :
    l.getItemEdgePos (l.setItemEdgePos it) = l.m_edgePos ∧
      keptBySetEdgePos l it (l.setItemEdgePos it) := by
  unfold Layout.getItemEdgePos Layout.setItemEdgePos keptBySetEdgePos Layout.getItemPos
  by_cases h : l.m_dir = DIR_HORIZONTAL <;> simp [h]

/-- C6. `Layout::setEdgePos`: after `setEdgePos(pos)` the edge position of the side is
`pos`; the perpendicular coordinate of every contained item and of the first
and last corner (when set) is `pos`; the items are the same in number and
order, each with its along-axis coordinate, size, offset and kind (and every
other member) unchanged; `setEdgePos(pos)` applied twice gives the state it
gives applied once, and `setEdgePos(p)` followed by `setEdgePos(q)` gives the
state of `setEdgePos(q)` alone. -/
theorem setEdgePos_restamps (l : Layout) (pos p q : Rat) :
    (l.setEdgePos pos).m_edgePos = pos ∧
    (l.setEdgePos pos).m_dir = l.m_dir ∧
    (∀ it ∈ (l.setEdgePos pos).m_items, l.getItemEdgePos it = pos) ∧
    (∀ c, (l.setEdgePos pos).m_firstCorner = some c → l.getItemEdgePos c = pos) ∧
    (∀ c, (l.setEdgePos pos).m_lastCorner = some c → l.getItemEdgePos c = pos) ∧
    ((l.setEdgePos pos).m_firstCorner.isSome = l.m_firstCorner.isSome) ∧
    ((l.setEdgePos pos).m_lastCorner.isSome = l.m_lastCorner.isSome) ∧
    List.Forall₂ (keptBySetEdgePos l) l.m_items (l.setEdgePos pos).m_items ∧
    (l.setEdgePos pos).setEdgePos pos = l.setEdgePos pos ∧
    (l.setEdgePos p).setEdgePos q = l.setEdgePos q := by
  have hk : ∀ it : LayoutItem,
      l.getItemEdgePos (({ l with m_edgePos := pos } : Layout).setItemEdgePos it) = pos ∧
        keptBySetEdgePos l it (({ l with m_edgePos := pos } : Layout).setItemEdgePos it) :=
    fun it => setItemEdgePos_kept ({ l with m_edgePos := pos } : Layout) it
  refine ⟨?_, ?_, ?_, ?_, ?_, ?_, ?_, ?_, setEdgePos_setEdgePos l pos pos,
    setEdgePos_setEdgePos l p q⟩
  · rw [setEdgePos_eq]
  · rw [setEdgePos_eq]
  · rw [setEdgePos_eq]
    intro it hit
    simp only [List.mem_map] at hit
    obtain ⟨a, _, rfl⟩ := hit
    exact (hk a).1
  · rw [setEdgePos_eq]
    intro c hc
    cases hf : l.m_firstCorner with
    | none => simp [hf, Layout.setItemEdgePosPtr] at hc
    | some a =>
      simp only [hf, Layout.setItemEdgePosPtr, Option.some.injEq] at hc
      rw [← hc]
      exact (hk a).1
  · rw [setEdgePos_eq]
    intro c hc
    cases hf : l.m_lastCorner with
    | none => simp [hf, Layout.setItemEdgePosPtr] at hc
    | some a =>
      simp only [hf, Layout.setItemEdgePosPtr, Option.some.injEq] at hc
      rw [← hc]
      exact (hk a).1
  · rw [setEdgePos_eq]
    cases hf : l.m_firstCorner <;> simp [Layout.setItemEdgePosPtr]
  · rw [setEdgePos_eq]
    cases hf : l.m_lastCorner <;> simp [Layout.setItemEdgePosPtr]
  · rw [setEdgePos_eq]
    simp only [List.forall₂_map_right_iff]
    exact List.forall₂_same.mpr (fun a _ => (hk a).2)

/-! ## The gap loop -/

theorem streamOf_append (w : Writer) (xs ys : List Event) :
    streamOf w (xs ++ ys) = streamOf w xs ++ streamOf w ys := by
  simp [streamOf, List.filterMap_append]

theorem streamOf_forwardItem_svg (gds : Bool) (item : LayoutItem) :
    streamOf Writer.SVGWriter (forwardItem gds item) = [some item] := by
  cases gds <;> simp [streamOf, forwardItem, List.filterMap_cons]

theorem fillersOf_append (xs ys : List Event) :
    fillersOf (xs ++ ys) = fillersOf xs ++ fillersOf ys := by
  simp [fillersOf, streamOf_append, List.filterMap_append]

theorem makeFiller_fields (padring : PadringDB) (side : side_t) (cellName : String)
    (numfill : Int) (pos width : Rat) :
    (makeFiller padring side cellName numfill pos width).m_ltype = TYPE_FILLER ∧
    (makeFiller padring side cellName numfill pos width).m_size = width ∧
    (makeFiller padring side cellName numfill pos width).m_instance =
      "FILLER_" ++ toString numfill ∧
    (makeFiller padring side cellName numfill pos width).m_cellname = cellName ∧
    (makeFiller padring side cellName numfill pos width).m_location = walkLocation side := by
  cases side <;> simp [makeFiller, LayoutItem.new]

theorem fillersOf_forward_filler (gds : Bool) (padring : PadringDB) (side : side_t)
    (cellName : String) (numfill : Int) (pos width : Rat) :
    fillersOf (forwardItem gds (makeFiller padring side cellName numfill pos width)) =
      [makeFiller padring side cellName numfill pos width] := by
  simp [fillersOf, streamOf_forwardItem_svg, (makeFiller_fields padring side cellName numfill pos width).1]

/-- The loop does nothing when entered with `space <= 0`. -/
theorem fillGap_of_nonpos {H : Type} (ops : FillerOps H) (padring : PadringDB) (gds : Bool)
    (side : side_t) (ltype : LayoutItemType) (h : H) (fuel : Nat) (space pos : Rat)
    (numfill : Int) (hs : space ≤ 0) :
    fillGap ops padring gds side ltype h fuel space pos numfill = ([], Flow.next numfill) := by
  cases fuel <;> simp [fillGap, not_lt.mpr hs]

/-- One iteration that finds a filler: the filler is forwarded and the loop goes
on with the reduced space. -/
theorem fillGap_step {H : Type} (ops : FillerOps H) (padring : PadringDB) (gds : Bool)
    (side : side_t) (ltype : LayoutItemType) (h : H) (fuel : Nat) (space pos : Rat)
    (numfill : Int) (hs : 0 < space) (hw : 0 < (ops.getFillerCell h space).1) :
    fillGap ops padring gds side ltype h (fuel + 1) space pos numfill =
      (forwardItem gds (makeFiller padring side (ops.getFillerCell h space).2 numfill pos
          (ops.getFillerCell h space).1) ++
        (fillGap ops padring gds side ltype h fuel
          (if space - (ops.getFillerCell h space).1 > 0 ∧
              space - (ops.getFillerCell h space).1 < padring.m_grid then 0
            else space - (ops.getFillerCell h space).1)
          (pos + (ops.getFillerCell h space).1) (numfill + 1)).1,
       (fillGap ops padring gds side ltype h fuel
          (if space - (ops.getFillerCell h space).1 > 0 ∧
              space - (ops.getFillerCell h space).1 < padring.m_grid then 0
            else space - (ops.getFillerCell h space).1)
          (pos + (ops.getFillerCell h space).1) (numfill + 1)).2) := by
  simp only [fillGap, gt_iff_lt, hs, hw, if_true]

/-- One iteration that finds no filler: the failure branch. -/
theorem fillGap_fail {H : Type} (ops : FillerOps H) (padring : PadringDB) (gds : Bool)
    (side : side_t) (ltype : LayoutItemType) (h : H) (fuel : Nat) (space pos : Rat)
    (numfill : Int) (hs : 0 < space) (hw : (ops.getFillerCell h space).1 ≤ 0) :
    fillGap ops padring gds side ltype h (fuel + 1) space pos numfill =
      ([Event.logError (ErrorMsg.noFillerFits (walkLabel side) space ltype)], Flow.exit 1) := by
  simp only [fillGap, gt_iff_lt, hs, not_lt.mpr hw, if_true, if_false]

/-- Gap closure for a loop entered with `space >= 0`. -/
theorem fillGap_sum_bounds {H : Type} (ops : FillerOps H) (padring : PadringDB) (gds : Bool)
    (side : side_t) (ltype : LayoutItemType) (h : H) (hgrid : 0 < padring.m_grid)
    (hlookup : ∀ r : Rat, 0 < (ops.getFillerCell h r).1 → (ops.getFillerCell h r).1 ≤ r) :
    ∀ (fuel : Nat) (space pos : Rat) (numfill numfill1 : Int), 0 ≤ space →
      (fillGap ops padring gds side ltype h fuel space pos numfill).2 = Flow.next numfill1 →
      (fillerWidths (fillGap ops padring gds side ltype h fuel space pos numfill).1).sum ≤ space ∧
      space - (fillerWidths (fillGap ops padring gds side ltype h fuel space pos numfill).1).sum
        < padring.m_grid := by
  intro fuel
  induction fuel with
  | zero =>
    intro space pos numfill numfill1 hs hdone
    by_cases hpos : 0 < space
    · simp [fillGap, hpos] at hdone
    · have hz : space = 0 := le_antisymm (not_lt.mp hpos) hs
      subst hz
      simp [fillGap, fillerWidths, fillersOf, streamOf, hgrid]
  | succ fuel ih =>
    intro space pos numfill numfill1 hs hdone
    by_cases hpos : 0 < space
    · by_cases hw : 0 < (ops.getFillerCell h space).1
      · rw [fillGap_step ops padring gds side ltype h fuel space pos numfill hpos hw] at hdone ⊢
        simp only at hdone
        simp only [fillerWidths, fillersOf_append, fillersOf_forward_filler, List.map_append,
          List.map_cons, List.map_nil, List.sum_append, List.sum_cons, List.sum_nil,
          (makeFiller_fields _ _ _ _ _ _).2.1, add_zero]
        have hle := hlookup space hw
        by_cases hsnap : space - (ops.getFillerCell h space).1 > 0 ∧
            space - (ops.getFillerCell h space).1 < padring.m_grid
        · rw [if_pos hsnap] at hdone ⊢
          rw [fillGap_of_nonpos ops padring gds side ltype h fuel 0 _ _ (le_refl 0)]
          simp only [fillersOf, streamOf, List.filterMap_nil, List.map_nil, List.sum_nil, add_zero]
          exact ⟨hle, hsnap.2⟩
        · rw [if_neg hsnap] at hdone ⊢
          have h0 : 0 ≤ space - (ops.getFillerCell h space).1 := by linarith
          have := ih _ _ _ numfill1 h0 hdone
          simp only [fillerWidths] at this
          constructor
          · linarith [this.1]
          · linarith [this.2]
      · rw [fillGap_fail ops padring gds side ltype h fuel space pos numfill hpos
          (not_lt.mp hw)] at hdone
        simp at hdone
    · have hz : space = 0 := le_antisymm (not_lt.mp hpos) hs
      subst hz
      rw [fillGap_of_nonpos ops padring gds side ltype h (fuel + 1) 0 pos numfill (le_refl 0)]
      simp [fillerWidths, fillersOf, streamOf, hgrid]

/-- The fold of `bestFit` returns its start value or one of the entries. -/
theorem bestFit_fold_mem (l : List (String × Rat)) :
    ∀ (start : Option (String × Rat)) (e : String × Rat),
      l.foldl (fun best e =>
          match best with
          | none => some e
          | some b => if b.2 < e.2 then some e else some b) start = some e →
      start = some e ∨ e ∈ l := by
  induction l with
  | nil =>
    intro start e h
    exact Or.inl h
  | cons x rest ih =>
    intro start e h
    rw [List.foldl_cons] at h
    rcases ih _ e h with h1 | h1
    · cases start with
      | none =>
        simp only [Option.some.injEq] at h1
        exact Or.inr (by simp [h1])
      | some b =>
        by_cases hb : b.2 < x.2
        · simp only [hb, if_true, Option.some.injEq] at h1
          exact Or.inr (by simp [h1])
        · simp only [hb, if_false] at h1
          exact Or.inl h1
    · exact Or.inr (List.mem_cons_of_mem _ h1)

/-- The best fit is a registered filler no wider than asked for. -/
theorem bestFit_mem (h : FillerHandler) (maxWidth : Rat) (e : String × Rat)
    (he : h.bestFit maxWidth = some e) : e ∈ h.m_fillers ∧ e.2 ≤ maxWidth := by
  unfold FillerHandler.bestFit at he
  rcases bestFit_fold_mem _ none e he with h1 | h1
  · cases h1
  · simpa using h1

/-- The lookup of the registry modelled from the spec returns no match or a width
that fits. -/
theorem specFillerOps_lookup (h : FillerHandler) (r : Rat) :
    (specFillerOps.getFillerCell h r).1 ≤ 0 ∨
      (0 < (specFillerOps.getFillerCell h r).1 ∧ (specFillerOps.getFillerCell h r).1 ≤ r) := by
  show (FillerHandler.getFillerCell h r).1 ≤ 0 ∨
    (0 < (FillerHandler.getFillerCell h r).1 ∧ (FillerHandler.getFillerCell h r).1 ≤ r)
  unfold FillerHandler.getFillerCell
  cases hb : h.bestFit r with
  | none => exact Or.inl (le_refl 0)
  | some e =>
    by_cases hpos : 0 < e.2
    · exact Or.inr ⟨hpos, (bestFit_mem h r e hb).2⟩
    · exact Or.inl (not_lt.mp hpos)

/-- C1. Gap closure: on every side, for every FixedSpace or FlexSpace item of width
`space > 0` and every `grid > 0`, if every filler lookup returns no match (a
width `<= 0`) or a width `w` with `0 < w <= remaining`, and the gap-filling loop
of the item finishes without the NoFillerFits failure, then the emitted filler
widths sum to at most the gap width, and the gap width minus that sum is
strictly less than the grid. -/
theorem gap_closure {H : Type} (ops : FillerOps H) (padring : PadringDB) (gds : Bool)
    (fuel : Nat) (side : side_t) (st st1 : H × Int) (item : LayoutItem)
    (hitem : isSpace item) (hspace : 0 < item.m_size) (hgrid : 0 < padring.m_grid)
    (hlookup : ∀ r : Rat, (ops.getFillerCell st.1 r).1 ≤ 0 ∨
      (0 < (ops.getFillerCell st.1 r).1 ∧ (ops.getFillerCell st.1 r).1 ≤ r))
    (hdone : (walkItem ops padring gds fuel side st item).2 = Flow.next st1) :
    (fillerWidths (walkItem ops padring gds fuel side st item).1).sum ≤ item.m_size ∧
    item.m_size - (fillerWidths (walkItem ops padring gds fuel side st item).1).sum
      < padring.m_grid := by
  have hl : ∀ r : Rat, 0 < (ops.getFillerCell st.1 r).1 → (ops.getFillerCell st.1 r).1 ≤ r := by
    intro r hr
    rcases hlookup r with h1 | h1
    · exact absurd hr (not_lt.mpr h1)
    · exact h1.2
  have hc : item.m_ltype ≠ TYPE_CELL := by rcases hitem with h1 | h1 <;> simp [h1]
  have hb : item.m_ltype ≠ TYPE_BOND := by rcases hitem with h1 | h1 <;> simp [h1]
  have hd : item.m_ltype ≠ TYPE_FILLERDECL := by rcases hitem with h1 | h1 <;> simp [h1]
  have hsp : item.m_ltype = TYPE_FIXEDSPACE ∨ item.m_ltype = TYPE_FLEXSPACE := hitem
  unfold walkItem at hdone ⊢
  simp only [hc, hb, hd, hsp, if_true, if_false] at hdone ⊢
  cases hr : (fillGap ops padring gds side item.m_ltype st.1 fuel item.m_size
      (gapStart side item) st.2).2 with
  | next n =>
    have := fillGap_sum_bounds ops padring gds side item.m_ltype st.1 hgrid hl fuel item.m_size
      (gapStart side item) st.2 n (le_of_lt hspace) hr
    simp only [hr]
    exact this
  | exit c => simp [hr] at hdone
  | running => simp [hr] at hdone

/-- Witness of C1: a gap of 7.3 on a 0.1 grid, best fit over the widths 5, 2, 1 and 0.3,
emits the widths 5, 2, 0.3 in that order and leaves no residue. -/
theorem gap_closure_witness :
    fillerWidths (walkItem specFillerOps scenarioPadring false 4 SIDE_NORTH (scenarioHandler, 0)
      (spaceItem TYPE_FIXEDSPACE (73 / 10) 10)).1 = [5, 2, 3 / 10] ∧
    (fillerWidths (walkItem specFillerOps scenarioPadring false 4 SIDE_NORTH (scenarioHandler, 0)
      (spaceItem TYPE_FIXEDSPACE (73 / 10) 10)).1).sum ≤ 73 / 10 ∧
    73 / 10 - (fillerWidths (walkItem specFillerOps scenarioPadring false 4 SIDE_NORTH
      (scenarioHandler, 0) (spaceItem TYPE_FIXEDSPACE (73 / 10) 10)).1).sum < 1 / 10 :=
  ⟨by decide!,
    gap_closure specFillerOps scenarioPadring false 4 SIDE_NORTH (scenarioHandler, 0)
      (scenarioHandler, 3) (spaceItem TYPE_FIXEDSPACE (73 / 10) 10)
      (Or.inl rfl) (by decide!) (by decide!)
      (fun r => specFillerOps_lookup scenarioHandler r) (by decide!)⟩

/-! ## Sequencing of the walks -/

/-- Items walked after a part that fell through start from the state that part
left. -/
theorem walkItems_append {H : Type} (ops : FillerOps H) (padring : PadringDB) (gds : Bool)
    (fuel : Nat) (side : side_t) (xs ys : List LayoutItem) :
    ∀ (st st1 : H × Int) (e : List Event),
      walkItems ops padring gds fuel side st xs = (e, Flow.next st1) →
      walkItems ops padring gds fuel side st (xs ++ ys) =
        (e ++ (walkItems ops padring gds fuel side st1 ys).1,
          (walkItems ops padring gds fuel side st1 ys).2) := by
  induction xs with
  | nil =>
    intro st st1 e h
    simp only [walkItems, Prod.mk.injEq, Flow.next.injEq] at h
    obtain ⟨rfl, rfl⟩ := h
    simp
  | cons x rest ih =>
    intro st st1 e h
    rw [List.cons_append]
    simp only [walkItems] at h ⊢
    cases hx : (walkItem ops padring gds fuel side st x).2 with
    | next s2 =>
      simp only [hx, Prod.mk.injEq] at h ⊢
      obtain ⟨he, hf⟩ := h
      have hrest : walkItems ops padring gds fuel side s2 rest =
          ((walkItems ops padring gds fuel side s2 rest).1, Flow.next st1) := by
        rw [← hf]
      rw [ih s2 st1 _ hrest, ← he]
      simp
    | exit c => simp [hx] at h
    | running => simp [hx] at h

/-- An item whose body exits ends the walk: the items after it are not visited. -/
theorem walkItems_exit {H : Type} (ops : FillerOps H) (padring : PadringDB) (gds : Bool)
    (fuel : Nat) (side : side_t) (st : H × Int) (x : LayoutItem) (rest : List LayoutItem)
    (e : List Event) (c : Int) (h : walkItem ops padring gds fuel side st x = (e, Flow.exit c)) :
    walkItems ops padring gds fuel side st (x :: rest) = (e, Flow.exit c) := by
  simp [walkItems, h]

/-- Sides walked after a part that fell through start from the state that part
left. -/
theorem walkSides_append {H : Type} (ops : FillerOps H) (padring : PadringDB) (gds : Bool)
    (fuel : Nat) (xs ys : List side_t) :
    ∀ (st st1 : H × Int) (e : List Event),
      walkSides ops padring gds fuel st xs = (e, Flow.next st1) →
      walkSides ops padring gds fuel st (xs ++ ys) =
        (e ++ (walkSides ops padring gds fuel st1 ys).1,
          (walkSides ops padring gds fuel st1 ys).2) := by
  induction xs with
  | nil =>
    intro st st1 e h
    simp only [walkSides, Prod.mk.injEq, Flow.next.injEq] at h
    obtain ⟨rfl, rfl⟩ := h
    simp
  | cons x rest ih =>
    intro st st1 e h
    rw [List.cons_append]
    simp only [walkSides] at h ⊢
    cases hx : (walkSide ops padring gds fuel x st).2 with
    | next s2 =>
      simp only [hx, Prod.mk.injEq] at h ⊢
      obtain ⟨he, hf⟩ := h
      have hrest : walkSides ops padring gds fuel s2 rest =
          ((walkSides ops padring gds fuel s2 rest).1, Flow.next st1) := by
        rw [← hf]
      rw [ih s2 st1 _ hrest, ← he]
      simp
    | exit c => simp [hx] at h
    | running => simp [hx] at h

/-- A side whose walk exits ends the walks: the sides after it are not visited. -/
theorem walkSides_exit {H : Type} (ops : FillerOps H) (padring : PadringDB) (gds : Bool)
    (fuel : Nat) (st : H × Int) (x : side_t) (rest : List side_t)
    (e : List Event) (c : Int) (h : walkSide ops padring gds fuel x st = (e, Flow.exit c)) :
    walkSides ops padring gds fuel st (x :: rest) = (e, Flow.exit c) := by
  simp [walkSides, h]

/-- The body of a walk on a space item is the gap loop. -/
theorem walkItem_space {H : Type} (ops : FillerOps H) (padring : PadringDB) (gds : Bool)
    (fuel : Nat) (side : side_t) (st : H × Int) (item : LayoutItem) (hitem : isSpace item) :
    walkItem ops padring gds fuel side st item =
      ((fillGap ops padring gds side item.m_ltype st.1 fuel item.m_size
          (gapStart side item) st.2).1,
        match (fillGap ops padring gds side item.m_ltype st.1 fuel item.m_size
          (gapStart side item) st.2).2 with
        | Flow.next numfill => Flow.next (st.1, numfill)
        | Flow.exit code => Flow.exit code
        | Flow.running => Flow.running) := by
  have hc : item.m_ltype ≠ TYPE_CELL := by rcases hitem with h1 | h1 <;> simp [h1]
  have hb : item.m_ltype ≠ TYPE_BOND := by rcases hitem with h1 | h1 <;> simp [h1]
  have hd : item.m_ltype ≠ TYPE_FILLERDECL := by rcases hitem with h1 | h1 <;> simp [h1]
  have hsp : item.m_ltype = TYPE_FIXEDSPACE ∨ item.m_ltype = TYPE_FLEXSPACE := hitem
  unfold walkItem
  simp only [hc, hb, hd, hsp, if_true, if_false]
  cases (fillGap ops padring gds side item.m_ltype st.1 fuel item.m_size
    (gapStart side item) st.2).2 <;> rfl

/-- A gap loop that gets through `k` iterations forwards `k` fillers and then goes
on from the state reached, whatever that does. -/
theorem fillGap_reach {H : Type} (ops : FillerOps H) (padring : PadringDB) (gds : Bool)
    (side : side_t) (ltype : LayoutItemType) (h : H) :
    ∀ (k : Nat) (space pos : Rat) (numfill : Int) (s p : Rat) (n : Int),
      gapState ops padring h k space pos numfill = some (s, p, n) →
      ∃ fillers : List LayoutItem, fillers.length = k ∧
        (∀ f ∈ fillers, f.m_ltype = TYPE_FILLER) ∧
        ∀ fuel : Nat, fillGap ops padring gds side ltype h (k + fuel) space pos numfill =
          (fillers.flatMap (forwardItem gds) ++
              (fillGap ops padring gds side ltype h fuel s p n).1,
            (fillGap ops padring gds side ltype h fuel s p n).2) := by
  intro k
  induction k with
  | zero =>
    intro space pos numfill s p n hst
    simp only [gapState, Option.some.injEq, Prod.mk.injEq] at hst
    obtain ⟨rfl, rfl, rfl⟩ := hst
    exact ⟨[], rfl, by simp, by simp⟩
  | succ k ih =>
    intro space pos numfill s p n hst
    by_cases hpos : 0 < space
    · by_cases hw : 0 < (ops.getFillerCell h space).1
      · simp only [gapState, gt_iff_lt, hpos, hw, if_true] at hst
        obtain ⟨fs, hlen, hty, hrun⟩ := ih _ _ _ s p n hst
        refine ⟨makeFiller padring side (ops.getFillerCell h space).2 numfill pos
          (ops.getFillerCell h space).1 :: fs, by simp [hlen], ?_, ?_⟩
        · intro f hf
          rcases List.mem_cons.mp hf with hf | hf
          · rw [hf]
            exact (makeFiller_fields _ _ _ _ _ _).1
          · exact hty f hf
        · intro fuel
          have e : k + 1 + fuel = (k + fuel) + 1 := by omega
          rw [e, fillGap_step ops padring gds side ltype h (k + fuel) space pos numfill hpos hw,
            hrun fuel]
          simp
      · simp [gapState, hpos, hw] at hst
    · simp [gapState, hpos] at hst

/-- C2. NoFillerFits: on every side and for every space item, whenever the gap loop of
the item has run `k` iterations, the remaining width `s` is `> 0` and the
lookup returns a width `<= 0`, the run ends with exit status 1; its events are
those up to that moment (the corners, the earlier sides and items, the `k`
fillers already emitted for the gap) followed by the failure message alone: no
further filler is emitted for the gap and no later item is visited. -/
theorem noFillerFits_aborts {H : Type} (ops : FillerOps H) (padring : PadringDB) (gds : Bool)
    (fuel : Nat) (fillerHandler : H)
    (sidesBefore : List side_t) (side : side_t) (sidesAfter : List side_t)
    (itemsBefore : List LayoutItem) (item : LayoutItem) (itemsAfter : List LayoutItem)
    (e1 e2 : List Event) (st1 st2 : H × Int) (k : Nat) (s p : Rat) (n : Int)
    (horder : walkOrder = sidesBefore ++ side :: sidesAfter)
    (hitems : (walkLayout padring side).forward = itemsBefore ++ item :: itemsAfter)
    (h1 : walkSides ops padring gds fuel (fillerHandler, 0) sidesBefore = (e1, Flow.next st1))
    (h2 : walkItems ops padring gds fuel side st1 itemsBefore = (e2, Flow.next st2))
    (hitem : isSpace item)
    (hreach : gapState ops padring st2.1 k item.m_size (gapStart side item) st2.2 = some (s, p, n))
    (hk : k < fuel) (hs : 0 < s) (hw : (ops.getFillerCell st2.1 s).1 ≤ 0) :
    ∃ fillers : List LayoutItem, fillers.length = k ∧
      (∀ f ∈ fillers, f.m_ltype = TYPE_FILLER) ∧
      mainOutput ops padring gds fuel fillerHandler =
        (writeCorners gds [padring.m_north.m_firstCorner, padring.m_north.m_lastCorner,
            padring.m_south.m_firstCorner, padring.m_south.m_lastCorner] ++
          (e1 ++ (e2 ++ (fillers.flatMap (forwardItem gds) ++
            [Event.logError (ErrorMsg.noFillerFits (walkLabel side) s item.m_ltype)]))),
          Flow.exit 1) := by
  obtain ⟨fillers, hlen, hty, hrun⟩ :=
    fillGap_reach ops padring gds side item.m_ltype st2.1 k item.m_size (gapStart side item)
      st2.2 s p n hreach
  refine ⟨fillers, hlen, hty, ?_⟩
  obtain ⟨m, hm⟩ : ∃ m, fuel = k + (m + 1) := ⟨fuel - k - 1, by omega⟩
  have hgap := hrun (m + 1)
  rw [fillGap_fail ops padring gds side item.m_ltype st2.1 m s p n hs hw, ← hm] at hgap
  have hitem1 : walkItem ops padring gds fuel side st2 item =
      (fillers.flatMap (forwardItem gds) ++
        [Event.logError (ErrorMsg.noFillerFits (walkLabel side) s item.m_ltype)], Flow.exit 1) := by
    rw [walkItem_space ops padring gds fuel side st2 item hitem, hgap]
  have hrest := walkItems_exit ops padring gds fuel side st2 item itemsAfter _ _ hitem1
  have hwalk := walkItems_append ops padring gds fuel side itemsBefore (item :: itemsAfter)
    st1 st2 e2 h2
  rw [hrest] at hwalk
  have hside : walkSide ops padring gds fuel side st1 =
      (e2 ++ (fillers.flatMap (forwardItem gds) ++
        [Event.logError (ErrorMsg.noFillerFits (walkLabel side) s item.m_ltype)]),
        Flow.exit 1) := by
    unfold walkSide
    rw [hitems]
    exact hwalk
  have hsides := walkSides_exit ops padring gds fuel st1 side sidesAfter _ _ hside
  have hall := walkSides_append ops padring gds fuel sidesBefore (side :: sidesAfter)
    (fillerHandler, 0) st1 e1 h1
  rw [hsides, ← horder] at hall
  unfold mainOutput
  simp only [hall]

/-- Witness of C2: a gap of width 4 with only a filler of width 5 registered fails at
once, without emitting any filler. -/
theorem noFillerFits_aborts_witness :
    fillersOf (mainOutput specFillerOps narrowPadring false 1 narrowHandler).1 = [] ∧
    ∃ fillers : List LayoutItem, fillers.length = 0 ∧
      (∀ f ∈ fillers, f.m_ltype = TYPE_FILLER) ∧
      mainOutput specFillerOps narrowPadring false 1 narrowHandler =
        (writeCorners false [none, none, none, none] ++
          ([] ++ ([] ++ (fillers.flatMap (forwardItem false) ++
            [Event.logError (ErrorMsg.noFillerFits "north" 4 TYPE_FIXEDSPACE)]))),
          Flow.exit 1) :=
  ⟨by decide!,
    noFillerFits_aborts specFillerOps narrowPadring false 1 narrowHandler
      [] SIDE_NORTH [SIDE_SOUTH, SIDE_WEST, SIDE_EAST]
      [] (spaceItem TYPE_FIXEDSPACE 4 10) []
      [] [] (narrowHandler, 0) (narrowHandler, 0) 0 4 10 0
      rfl rfl rfl rfl (Or.inl rfl) (by decide!) (by decide) (by decide!) (by decide!)⟩

/-! ## Scope of a filler declaration -/

/-- The handler after the body of a walk on one item: reloaded by a
FillerDeclaration, untouched by every other item. -/
theorem walkItem_handler {H : Type} (ops : FillerOps H) (padring : PadringDB) (gds : Bool)
    (fuel : Nat) (side : side_t) (st st1 : H × Int) (item : LayoutItem)
    (h : (walkItem ops padring gds fuel side st item).2 = Flow.next st1) :
    st1.1 = activeAfter ops padring st.1 [item] := by
  unfold walkItem at h
  simp only [activeAfter, List.foldl_cons, List.foldl_nil]
  by_cases hc : item.m_ltype = TYPE_CELL
  · rw [if_pos hc] at h
    simp only [Flow.next.injEq] at h
    simp [← h, hc]
  · rw [if_neg hc] at h
    by_cases hb : item.m_ltype = TYPE_BOND
    · rw [if_pos hb] at h
      simp only [Flow.next.injEq] at h
      simp [← h, hb]
    · rw [if_neg hb] at h
      by_cases hd : item.m_ltype = TYPE_FILLERDECL
      · rw [if_pos hd] at h
        simp only [Flow.next.injEq] at h
        simp [← h, hd]
      · rw [if_neg hd] at h
        by_cases hsp : item.m_ltype = TYPE_FIXEDSPACE ∨ item.m_ltype = TYPE_FLEXSPACE
        · rw [if_pos hsp] at h
          cases hr : (fillGap ops padring gds side item.m_ltype st.1 fuel item.m_size
              (gapStart side item) st.2).2 with
          | next numfill =>
            simp only [hr, Flow.next.injEq] at h
            simp [← h, hd]
          | exit c => simp [hr] at h
          | running => simp [hr] at h
        · rw [if_neg hsp] at h
          simp only [Flow.next.injEq] at h
          simp [← h, hd]

theorem activeAfter_append {H : Type} (ops : FillerOps H) (padring : PadringDB) (h : H)
    (xs ys : List LayoutItem) :
    activeAfter ops padring h (xs ++ ys) =
      activeAfter ops padring (activeAfter ops padring h xs) ys := by
  simp [activeAfter, List.foldl_append]

/-- The handler at the end of a walk over items that fell through. -/
theorem walkItems_handler {H : Type} (ops : FillerOps H) (padring : PadringDB) (gds : Bool)
    (fuel : Nat) (side : side_t) (xs : List LayoutItem) :
    ∀ (st st1 : H × Int) (e : List Event),
      walkItems ops padring gds fuel side st xs = (e, Flow.next st1) →
      st1.1 = activeAfter ops padring st.1 xs := by
  induction xs with
  | nil =>
    intro st st1 e h
    simp only [walkItems, Prod.mk.injEq, Flow.next.injEq] at h
    rw [← h.2]
    rfl
  | cons x rest ih =>
    intro st st1 e h
    simp only [walkItems] at h
    cases hx : (walkItem ops padring gds fuel side st x).2 with
    | next s2 =>
      simp only [hx, Prod.mk.injEq] at h
      have hrest : walkItems ops padring gds fuel side s2 rest =
          ((walkItems ops padring gds fuel side s2 rest).1, Flow.next st1) := by
        rw [← h.2]
      have e1 : x :: rest = [x] ++ rest := rfl
      rw [ih s2 st1 _ hrest, walkItem_handler ops padring gds fuel side st s2 x hx, e1,
        activeAfter_append]
    | exit c => simp [hx] at h
    | running => simp [hx] at h

/-- The handler at the end of walks over sides that fell through. -/
theorem walkSides_handler {H : Type} (ops : FillerOps H) (padring : PadringDB) (gds : Bool)
    (fuel : Nat) (sides : List side_t) :
    ∀ (st st1 : H × Int) (e : List Event),
      walkSides ops padring gds fuel st sides = (e, Flow.next st1) →
      st1.1 = activeAfter ops padring st.1 (itemsOfSides padring sides) := by
  induction sides with
  | nil =>
    intro st st1 e h
    simp only [walkSides, Prod.mk.injEq, Flow.next.injEq] at h
    rw [← h.2]
    rfl
  | cons x rest ih =>
    intro st st1 e h
    simp only [walkSides] at h
    cases hx : (walkSide ops padring gds fuel x st).2 with
    | next s2 =>
      simp only [hx, Prod.mk.injEq] at h
      have hrest : walkSides ops padring gds fuel s2 rest =
          ((walkSides ops padring gds fuel s2 rest).1, Flow.next st1) := by
        rw [← h.2]
      have hside : walkItems ops padring gds fuel x st (walkLayout padring x).forward =
          ((walkSide ops padring gds fuel x st).1, Flow.next s2) := by
        rw [← hx]
        rfl
      rw [ih s2 st1 _ hrest, walkItems_handler ops padring gds fuel x _ st s2 _ hside]
      simp [itemsOfSides, activeAfter_append]
    | exit c => simp [hx] at h
    | running => simp [hx] at h

/-- C7 (as stated, refuted). Two runs with the same library, the same initial filler
list and the same south side, a fixed space of width 2: with a declaration of
`FB` on the north side the south gap is filled with one `FB2`, without it with
two `FA1`. The fillers chosen for the south side depend on a declaration
placed on the north side. -/
theorem fillerDecl_crosses_sides_counterexample :
    declPadring.m_south = plainPadring.m_south ∧
    declPadring.m_fillers = plainPadring.m_fillers ∧
    declPadring.m_lefreader = plainPadring.m_lefreader ∧
    (main specFillerOps (plainEnv declPadring) plainCmd 4).2 = Flow.exit 0 ∧
    (main specFillerOps (plainEnv plainPadring) plainCmd 4).2 = Flow.exit 0 ∧
    fillerCells (main specFillerOps (plainEnv declPadring) plainCmd 4) = ["FB2"] ∧
    fillerCells (main specFillerOps (plainEnv plainPadring) plainCmd 4) = ["FA1", "FA1"] := by
  refine ⟨rfl, rfl, rfl, ?_, ?_, ?_, ?_⟩ <;> decide!

/-- C7 (amended). A FillerDeclaration rebinds the registry for every later gap of the run,
on its own side and on the sides walked after it: when the walks (north, south,
west, east) reach an item, the registry in use is the initial one reloaded, in
turn, by every FillerDeclaration of the sides walked before and of the earlier
items of the same side, and the item and all that follows are walked with that
registry. -/
theorem fillerDecl_scope {H : Type} (ops : FillerOps H) (padring : PadringDB) (gds : Bool)
    (fuel : Nat) (fillerHandler : H)
    (sidesBefore : List side_t) (side : side_t) (sidesAfter : List side_t)
    (itemsBefore : List LayoutItem) (item : LayoutItem) (itemsAfter : List LayoutItem)
    (e1 e2 : List Event) (st1 st2 : H × Int)
    (horder : walkOrder = sidesBefore ++ side :: sidesAfter)
    (hitems : (walkLayout padring side).forward = itemsBefore ++ item :: itemsAfter)
    (h1 : walkSides ops padring gds fuel (fillerHandler, 0) sidesBefore = (e1, Flow.next st1))
    (h2 : walkItems ops padring gds fuel side st1 itemsBefore = (e2, Flow.next st2)) :
    st2.1 = activeAfter ops padring fillerHandler
      (itemsOfSides padring sidesBefore ++ itemsBefore) ∧
    walkSide ops padring gds fuel side st1 =
      (e2 ++ (walkItems ops padring gds fuel side
          (activeAfter ops padring fillerHandler (itemsOfSides padring sidesBefore ++ itemsBefore),
            st2.2) (item :: itemsAfter)).1,
        (walkItems ops padring gds fuel side
          (activeAfter ops padring fillerHandler (itemsOfSides padring sidesBefore ++ itemsBefore),
            st2.2) (item :: itemsAfter)).2) ∧
    walkSides ops padring gds fuel (fillerHandler, 0) walkOrder =
      (e1 ++ (walkSides ops padring gds fuel st1 (side :: sidesAfter)).1,
        (walkSides ops padring gds fuel st1 (side :: sidesAfter)).2) := by
  have hs1 := walkSides_handler ops padring gds fuel sidesBefore (fillerHandler, 0) st1 e1 h1
  have hs2 := walkItems_handler ops padring gds fuel side itemsBefore st1 st2 e2 h2
  have hst : st2.1 = activeAfter ops padring fillerHandler
      (itemsOfSides padring sidesBefore ++ itemsBefore) := by
    rw [hs2, hs1, activeAfter_append]
  refine ⟨hst, ?_, ?_⟩
  · rw [← hst]
    unfold walkSide
    rw [hitems]
    exact walkItems_append ops padring gds fuel side itemsBefore (item :: itemsAfter) st1 st2 e2 h2
  · rw [horder]
    exact walkSides_append ops padring gds fuel sidesBefore (side :: sidesAfter)
      (fillerHandler, 0) st1 e1 h1

/-- Witness of C7 (amended): in `declPadring` the south gap is reached with the registry
reloaded by the declaration on the north side, which holds `FB2` alone. -/
theorem fillerDecl_scope_witness :
    activeAfter specFillerOps declPadring
        (specFillerOps.addFillers specFillerOps.fresh declPadring.m_lefreader
          declPadring.m_fillers)
        (itemsOfSides declPadring [SIDE_NORTH] ++ []) = { m_fillers := [("FB2", 2)] } ∧
    ({ m_fillers := [("FB2", 2)] } : FillerHandler) =
      activeAfter specFillerOps declPadring
        (specFillerOps.addFillers specFillerOps.fresh declPadring.m_lefreader
          declPadring.m_fillers)
        (itemsOfSides declPadring [SIDE_NORTH] ++ []) :=
  ⟨by decide!,
    (fillerDecl_scope specFillerOps declPadring false 4
      (specFillerOps.addFillers specFillerOps.fresh declPadring.m_lefreader declPadring.m_fillers)
      [SIDE_NORTH] SIDE_SOUTH [SIDE_WEST, SIDE_EAST]
      [] (spaceItem TYPE_FIXEDSPACE 2 10) []
      [] [] ({ m_fillers := [("FB2", 2)] }, 0) ({ m_fillers := [("FB2", 2)] }, 0)
      rfl rfl (by decide!) rfl).1⟩

/-! ## Order of the stream the writers receive -/

theorem streamOf_forwardItem (gds : Bool) (w : Writer) (hw : w = Writer.GDS2Writer → gds = true)
    (item : LayoutItem) : streamOf w (forwardItem gds item) = [some item] := by
  cases w <;> cases gds <;> simp [streamOf, forwardItem, List.filterMap_cons] at hw ⊢

theorem filterMap_const_none {α β : Type} (l : List α) :
    l.filterMap (fun _ => (none : Option β)) = [] := by
  induction l with
  | nil => rfl
  | cons x rest ih => simp [List.filterMap_cons, ih]

theorem streamOf_writeCorners (gds : Bool) (w : Writer) (hw : w = Writer.GDS2Writer → gds = true)
    (corners : List (Option LayoutItem)) : streamOf w (writeCorners gds corners) = corners := by
  cases w <;> cases gds <;>
    simp [streamOf, writeCorners, List.filterMap_append, List.filterMap_map, Function.comp_def,
      filterMap_const_none] at hw ⊢

/-- A gap loop forwards fillers only. -/
theorem fillGap_stream {H : Type} (ops : FillerOps H) (padring : PadringDB) (gds : Bool)
    (side : side_t) (ltype : LayoutItemType) (h : H) (w : Writer)
    (hw : w = Writer.GDS2Writer → gds = true) :
    ∀ (fuel : Nat) (space pos : Rat) (numfill : Int),
      ∃ fs : List LayoutItem, (∀ f ∈ fs, f.m_ltype = TYPE_FILLER) ∧
        streamOf w (fillGap ops padring gds side ltype h fuel space pos numfill).1 =
          fs.map some := by
  intro fuel
  induction fuel with
  | zero =>
    intro space pos numfill
    refine ⟨[], by simp, ?_⟩
    by_cases hpos : 0 < space <;> simp [fillGap, hpos, streamOf]
  | succ fuel ih =>
    intro space pos numfill
    by_cases hpos : 0 < space
    · by_cases hwd : 0 < (ops.getFillerCell h space).1
      · rw [fillGap_step ops padring gds side ltype h fuel space pos numfill hpos hwd]
        obtain ⟨fs, hty, hst⟩ := ih
          (if space - (ops.getFillerCell h space).1 > 0 ∧
              space - (ops.getFillerCell h space).1 < padring.m_grid then 0
            else space - (ops.getFillerCell h space).1)
          (pos + (ops.getFillerCell h space).1) (numfill + 1)
        refine ⟨makeFiller padring side (ops.getFillerCell h space).2 numfill pos
          (ops.getFillerCell h space).1 :: fs, ?_, ?_⟩
        · intro f hf
          rcases List.mem_cons.mp hf with hf | hf
          · rw [hf]
            exact (makeFiller_fields _ _ _ _ _ _).1
          · exact hty f hf
        · simp only [streamOf_append, streamOf_forwardItem gds w hw, hst, List.map_cons,
            List.singleton_append]
      · rw [fillGap_fail ops padring gds side ltype h fuel space pos numfill hpos
          (not_lt.mp hwd)]
        exact ⟨[], by simp, by simp [streamOf]⟩
    · rw [fillGap_of_nonpos ops padring gds side ltype h (fuel + 1) space pos numfill
        (not_lt.mp hpos)]
      exact ⟨[], by simp, by simp [streamOf]⟩

/-- What a writer receives from the body of a walk on one item. -/
theorem walkItem_stream {H : Type} (ops : FillerOps H) (padring : PadringDB) (gds : Bool)
    (fuel : Nat) (side : side_t) (w : Writer) (hw : w = Writer.GDS2Writer → gds = true)
    (st : H × Int) (item : LayoutItem) :
    ∃ seg : List LayoutItem, ForwardedAs item seg ∧
      streamOf w (walkItem ops padring gds fuel side st item).1 = seg.map some := by
  unfold ForwardedAs
  by_cases hc : item.m_ltype = TYPE_CELL
  · refine ⟨[item], by simp [hc], ?_⟩
    simp [walkItem, hc, streamOf_forwardItem gds w hw]
  · by_cases hb : item.m_ltype = TYPE_BOND
    · refine ⟨[item], by simp [hb], ?_⟩
      simp [walkItem, hb, streamOf_forwardItem gds w hw]
    · have hcb : ¬ (item.m_ltype = TYPE_CELL ∨ item.m_ltype = TYPE_BOND) := by simp [hc, hb]
      by_cases hsp : item.m_ltype = TYPE_FIXEDSPACE ∨ item.m_ltype = TYPE_FLEXSPACE
      · obtain ⟨fs, hty, hst⟩ := fillGap_stream ops padring gds side item.m_ltype st.1 w hw fuel
          item.m_size (gapStart side item) st.2
        refine ⟨fs, by rw [if_neg hcb, if_pos hsp]; exact hty, ?_⟩
        rw [walkItem_space ops padring gds fuel side st item hsp]
        exact hst
      · refine ⟨[], by rw [if_neg hcb, if_neg hsp], ?_⟩
        by_cases hd : item.m_ltype = TYPE_FILLERDECL
        · simp [walkItem, hd, streamOf]
        · simp [walkItem, hc, hb, hd, hsp, streamOf]

/-- What a writer receives from a walk over items. -/
theorem walkItems_stream {H : Type} (ops : FillerOps H) (padring : PadringDB) (gds : Bool)
    (fuel : Nat) (side : side_t) (w : Writer) (hw : w = Writer.GDS2Writer → gds = true)
    (items : List LayoutItem) :
    ∀ st : H × Int, WalkStream w items (walkItems ops padring gds fuel side st items) := by
  induction items with
  | nil =>
    intro st
    exact ⟨[], [], List.prefix_refl _, List.Forall₂.nil, by simp [walkItems, streamOf],
      fun _ _ => rfl⟩
  | cons x rest ih =>
    intro st
    obtain ⟨seg, hseg, hstream⟩ := walkItem_stream ops padring gds fuel side w hw st x
    simp only [walkItems]
    cases hx : (walkItem ops padring gds fuel side st x).2 with
    | next s2 =>
      obtain ⟨visited, segs, hpre, hall, hst, hfull⟩ := ih s2
      refine ⟨x :: visited, seg :: segs, (List.prefix_cons_inj x).mpr hpre,
        List.Forall₂.cons hseg hall, ?_, ?_⟩
      · simp only [streamOf_append, hstream, hst, List.flatten_cons, List.map_append]
      · intro a ha
        rw [hfull a ha]
    | exit c =>
      refine ⟨[x], [seg], ?_, List.Forall₂.cons hseg List.Forall₂.nil, ?_, ?_⟩
      · exact (List.prefix_cons_inj x).mpr (List.nil_prefix)
      · simp [hstream]
      · intro a ha
        cases ha
    | running =>
      refine ⟨[x], [seg], ?_, List.Forall₂.cons hseg List.Forall₂.nil, ?_, ?_⟩
      · exact (List.prefix_cons_inj x).mpr (List.nil_prefix)
      · simp [hstream]
      · intro a ha
        cases ha

/-- What a writer receives from the walks over sides. -/
theorem walkSides_stream {H : Type} (ops : FillerOps H) (padring : PadringDB) (gds : Bool)
    (fuel : Nat) (w : Writer) (hw : w = Writer.GDS2Writer → gds = true) (sides : List side_t) :
    ∀ st : H × Int,
      WalkStream w (itemsOfSides padring sides) (walkSides ops padring gds fuel st sides) := by
  induction sides with
  | nil =>
    intro st
    exact ⟨[], [], List.prefix_refl _, List.Forall₂.nil, by simp [walkSides, streamOf],
      fun _ _ => rfl⟩
  | cons x rest ih =>
    intro st
    obtain ⟨v1, s1, hpre1, hall1, hst1, hfull1⟩ :=
      walkItems_stream ops padring gds fuel x w hw (walkLayout padring x).forward st
    have hitems : itemsOfSides padring (x :: rest) =
        (walkLayout padring x).forward ++ itemsOfSides padring rest := by
      simp [itemsOfSides]
    rw [hitems]
    simp only [walkSides]
    cases hx : (walkSide ops padring gds fuel x st).2 with
    | next s2 =>
      obtain ⟨v2, sg2, hpre2, hall2, hst2, hfull2⟩ := ih s2
      have hv1 : v1 = (walkLayout padring x).forward := hfull1 s2 hx
      refine ⟨v1 ++ v2, s1 ++ sg2, ?_, List.rel_append hall1 hall2, ?_, ?_⟩
      · rw [hv1]
        exact (List.prefix_append_right_inj _).mpr hpre2
      · have hst1a : streamOf w (walkSide ops padring gds fuel x st).1 =
            List.map some s1.flatten := hst1
        simp only [streamOf_append, hst1a, hst2, List.flatten_append, List.map_append]
      · intro a ha
        rw [hv1, hfull2 a ha]
    | exit c =>
      refine ⟨v1, s1, hpre1.trans (List.prefix_append _ _), hall1, hst1, ?_⟩
      intro a ha
      cases ha
    | running =>
      refine ⟨v1, s1, hpre1.trans (List.prefix_append _ _), hall1, hst1, ?_⟩
      intro a ha
      cases ha

/-- A gap loop exits with status 1 only. -/
theorem fillGap_exit_code {H : Type} (ops : FillerOps H) (padring : PadringDB) (gds : Bool)
    (side : side_t) (ltype : LayoutItemType) (h : H) :
    ∀ (fuel : Nat) (space pos : Rat) (numfill : Int) (c : Int),
      (fillGap ops padring gds side ltype h fuel space pos numfill).2 = Flow.exit c → c = 1 := by
  intro fuel
  induction fuel with
  | zero =>
    intro space pos numfill c hc
    by_cases hpos : 0 < space <;> simp [fillGap, hpos] at hc
  | succ fuel ih =>
    intro space pos numfill c hc
    by_cases hpos : 0 < space
    · by_cases hwd : 0 < (ops.getFillerCell h space).1
      · rw [fillGap_step ops padring gds side ltype h fuel space pos numfill hpos hwd] at hc
        exact ih _ _ _ c hc
      · rw [fillGap_fail ops padring gds side ltype h fuel space pos numfill hpos
          (not_lt.mp hwd)] at hc
        simp only [Flow.exit.injEq] at hc
        exact hc.symm
    · rw [fillGap_of_nonpos ops padring gds side ltype h (fuel + 1) space pos numfill
        (not_lt.mp hpos)] at hc
      cases hc

/-- The body of a walk exits with status 1 only. -/
theorem walkItem_exit_code {H : Type} (ops : FillerOps H) (padring : PadringDB) (gds : Bool)
    (fuel : Nat) (side : side_t) (st : H × Int) (item : LayoutItem) (c : Int)
    (hc : (walkItem ops padring gds fuel side st item).2 = Flow.exit c) : c = 1 := by
  by_cases hsp : isSpace item
  · rw [walkItem_space ops padring gds fuel side st item hsp] at hc
    cases hr : (fillGap ops padring gds side item.m_ltype st.1 fuel item.m_size
        (gapStart side item) st.2).2 with
    | next n => simp [hr] at hc
    | exit c1 =>
      simp only [hr, Flow.exit.injEq] at hc
      rw [← hc]
      exact fillGap_exit_code ops padring gds side item.m_ltype st.1 fuel _ _ _ c1 hr
    | running => simp [hr] at hc
  · unfold walkItem at hc
    have hsp1 : ¬ (item.m_ltype = TYPE_FIXEDSPACE ∨ item.m_ltype = TYPE_FLEXSPACE) := hsp
    by_cases h1 : item.m_ltype = TYPE_CELL
    · simp [h1] at hc
    · by_cases h2 : item.m_ltype = TYPE_BOND
      · simp [h2] at hc
      · by_cases h3 : item.m_ltype = TYPE_FILLERDECL
        · simp [h3] at hc
        · simp [h1, h2, h3, hsp1] at hc

/-- A walk over items exits with status 1 only. -/
theorem walkItems_exit_code {H : Type} (ops : FillerOps H) (padring : PadringDB) (gds : Bool)
    (fuel : Nat) (side : side_t) (items : List LayoutItem) :
    ∀ (st : H × Int) (c : Int),
      (walkItems ops padring gds fuel side st items).2 = Flow.exit c → c = 1 := by
  induction items with
  | nil =>
    intro st c hc
    simp [walkItems] at hc
  | cons x rest ih =>
    intro st c hc
    simp only [walkItems] at hc
    cases hx : (walkItem ops padring gds fuel side st x).2 with
    | next s2 =>
      simp only [hx] at hc
      exact ih s2 c hc
    | exit c1 =>
      simp only [hx, Flow.exit.injEq] at hc
      rw [← hc]
      exact walkItem_exit_code ops padring gds fuel side st x c1 hx
    | running => simp [hx] at hc

/-- The walks over sides exit with status 1 only. -/
theorem walkSides_exit_code {H : Type} (ops : FillerOps H) (padring : PadringDB) (gds : Bool)
    (fuel : Nat) (sides : List side_t) :
    ∀ (st : H × Int) (c : Int),
      (walkSides ops padring gds fuel st sides).2 = Flow.exit c → c = 1 := by
  induction sides with
  | nil =>
    intro st c hc
    simp [walkSides] at hc
  | cons x rest ih =>
    intro st c hc
    simp only [walkSides] at hc
    cases hx : (walkSide ops padring gds fuel x st).2 with
    | next s2 =>
      simp only [hx] at hc
      exact ih s2 c hc
    | exit c1 =>
      simp only [hx, Flow.exit.injEq] at hc
      rw [← hc]
      exact walkItems_exit_code ops padring gds fuel x _ st c1 hx
    | running => simp [hx] at hc

/-- C8 (as stated, refuted). With the cells `N1`, `N2` on the north side and `S1` on the south
side, the SVG writer receives `N1`, `N2`, `S1` in that order; south first and
north in reverse insertion order would be `S1`, `N2`, `N1`. -/
theorem main_stream_order_counterexample :
    cellsAndBonds (streamOf Writer.SVGWriter
        (main specFillerOps (plainEnv orderPadring) plainCmd 1).1) =
      [namedItem TYPE_CELL "N1", namedItem TYPE_CELL "N2", namedItem TYPE_CELL "S1"] ∧
    cellsAndBonds ((specTraversal orderPadring).map some) =
      [namedItem TYPE_CELL "S1", namedItem TYPE_CELL "N2", namedItem TYPE_CELL "N1"] ∧
    cellsAndBonds (streamOf Writer.SVGWriter
        (main specFillerOps (plainEnv orderPadring) plainCmd 1).1) ≠
      cellsAndBonds ((specTraversal orderPadring).map some) := by
  refine ⟨?_, ?_, ?_⟩ <;> decide!

/-- C8 (amended). Each writer that receives items (SVG, DEF and Verilog always, GDS2 when a
GDS2 output was opened) receives first the four corners (top left, top right,
bottom left, bottom right) and then what the side items forward, in the order
north, south, west, east, every side in insertion order: a Cell or Bond itself,
the fillers of a gap at the place of the gap, nothing for any other item. The
items visited are a beginning of that order, and all of it when the run ends
with status 0. -/
theorem main_stream_order {H : Type} (ops : FillerOps H) (padring : PadringDB) (gds : Bool)
    (fuel : Nat) (fillerHandler : H) (w : Writer) (hw : w = Writer.GDS2Writer → gds = true) :
    ∃ (visited : List LayoutItem) (segs : List (List LayoutItem)),
      visited <+: walkTraversal padring ∧ List.Forall₂ ForwardedAs visited segs ∧
      streamOf w (mainOutput ops padring gds fuel fillerHandler).1 =
        [padring.m_north.m_firstCorner, padring.m_north.m_lastCorner,
          padring.m_south.m_firstCorner, padring.m_south.m_lastCorner] ++
          segs.flatten.map some ∧
      ((mainOutput ops padring gds fuel fillerHandler).2 = Flow.exit 0 →
        visited = walkTraversal padring) := by
  obtain ⟨visited, segs, hpre, hall, hst, hfull⟩ :=
    walkSides_stream ops padring gds fuel w hw walkOrder (fillerHandler, 0)
  have htrav : itemsOfSides padring walkOrder = walkTraversal padring := by
    simp [itemsOfSides, walkOrder, walkTraversal, walkLayout]
  rw [htrav] at hpre hfull
  refine ⟨visited, segs, hpre, hall, ?_, ?_⟩
  · unfold mainOutput
    cases hr : (walkSides ops padring gds fuel (fillerHandler, 0) walkOrder).2 <;>
      simp only [hr, streamOf_append, streamOf_writeCorners gds w hw, hst]
  · intro h0
    unfold mainOutput at h0
    cases hr : (walkSides ops padring gds fuel (fillerHandler, 0) walkOrder).2 with
    | next a => exact hfull a hr
    | exit c =>
      simp only [hr, Flow.exit.injEq] at h0
      have := walkSides_exit_code ops padring gds fuel walkOrder (fillerHandler, 0) c hr
      omega
    | running => simp [hr] at h0

/-- Witness of C8 (amended): the SVG stream of the run over `orderPadring`. -/
theorem main_stream_order_witness :
    ∃ (visited : List LayoutItem) (segs : List (List LayoutItem)),
      visited <+: walkTraversal orderPadring ∧ List.Forall₂ ForwardedAs visited segs ∧
      streamOf Writer.SVGWriter
          (mainOutput specFillerOps orderPadring false 1
            (specFillerOps.addFillers specFillerOps.fresh orderPadring.m_lefreader
              orderPadring.m_fillers)).1 =
        [orderPadring.m_north.m_firstCorner, orderPadring.m_north.m_lastCorner,
          orderPadring.m_south.m_firstCorner, orderPadring.m_south.m_lastCorner] ++
          segs.flatten.map some ∧
      ((mainOutput specFillerOps orderPadring false 1
            (specFillerOps.addFillers specFillerOps.fresh orderPadring.m_lefreader
              orderPadring.m_fillers)).2 = Flow.exit 0 →
        visited = walkTraversal orderPadring) :=
  main_stream_order specFillerOps orderPadring false 1
    (specFillerOps.addFillers specFillerOps.fresh orderPadring.m_lefreader orderPadring.m_fillers)
    Writer.SVGWriter (by decide)

/-! ## CSVWriter::writePadring -/

theorem foldl_append_rows (rows : List String) :
    ∀ acc : String, rows.foldl (fun acc row => acc ++ row) acc = acc ++ concatRows rows := by
  induction rows with
  | nil =>
    intro acc
    simp [concatRows, String.append_empty]
  | cons r rest ih =>
    intro acc
    simp only [concatRows, List.foldl_cons]
    rw [ih (acc ++ r), ih ("" ++ r), String.empty_append, String.append_assoc]

theorem concatRows_append (xs ys : List String) :
    concatRows (xs ++ ys) = concatRows xs ++ concatRows ys := by
  unfold concatRows
  rw [List.foldl_append, foldl_append_rows ys]
  rfl

theorem numberedRows_append (start : Nat) (xs ys : List (String × LayoutItem)) :
    numberedRows start (xs ++ ys) =
      numberedRows start xs ++ numberedRows (start + xs.length) ys := by
  simp [numberedRows, List.enumFrom_append]

/-- One loop of `writePadring`: a row for every Cell, numbered on from `m_side`. -/
theorem writeItems_rows (tag : String) (items : List LayoutItem) :
    ∀ (ss : String) (n : Nat),
      items.foldl (CSVWriter.writeItem tag) { m_ss := ss, m_side := (n : Int) } =
        { m_ss := ss ++ concatRows (numberedRows (n + 1) (taggedCells tag items))
          m_side := ((n + (taggedCells tag items).length : Nat) : Int) } := by
  induction items with
  | nil =>
    intro ss n
    simp [taggedCells, numberedRows, concatRows, String.append_empty]
  | cons x rest ih =>
    intro ss n
    rw [List.foldl_cons]
    by_cases hx : x.m_ltype = TYPE_CELL
    · have hstep : CSVWriter.writeItem tag { m_ss := ss, m_side := (n : Int) } x =
          { m_ss := ss ++ csvRow tag ((n + 1 : Nat) : Int) x
            m_side := ((n + 1 : Nat) : Int) } := by
        simp [CSVWriter.writeItem, hx]
      rw [hstep, ih _ (n + 1)]
      have hcells : taggedCells tag (x :: rest) = (tag, x) :: taggedCells tag rest := by
        simp [taggedCells, hx]
      rw [hcells]
      have hrows : numberedRows (n + 1) ((tag, x) :: taggedCells tag rest) =
          [csvRow tag ((n + 1 : Nat) : Int) x] ++
            numberedRows (n + 1 + 1) (taggedCells tag rest) := by
        simp [numberedRows, List.enumFrom_cons]
      rw [hrows, concatRows_append, ← String.append_assoc]
      have hone : concatRows [csvRow tag ((n + 1 : Nat) : Int) x] =
          csvRow tag ((n + 1 : Nat) : Int) x := by
        simp [concatRows, String.empty_append]
      rw [hone]
      congr 1
      simp only [List.length_cons]
      congr 1
      omega
    · have hstep : CSVWriter.writeItem tag { m_ss := ss, m_side := (n : Int) } x =
          { m_ss := ss, m_side := (n : Int) } := by
        simp [CSVWriter.writeItem, hx]
      have hcells : taggedCells tag (x :: rest) = taggedCells tag rest := by
        simp [taggedCells, hx]
      rw [hstep, hcells]
      exact ih ss n

/-- C9. `CSVWriter::writePadring` on a fresh writer appends exactly one row per item of kind
Cell (none for any other kind), in the order south in insertion order, east in
insertion order, north in reverse insertion order, west in reverse insertion
order, tagged SOUTH, EAST, NORTH, WEST accordingly; the k-th row (k from 1)
carries pin number k, and the counter ends at the number of rows. -/
theorem writePadring_rows (padring : PadringDB) :
    (CSVWriter.new.writePadring padring).m_ss = concatRows (numberedRows 1 (csvCells padring)) ∧
    (CSVWriter.new.writePadring padring).m_side = ((csvCells padring).length : Int) ∧
    (numberedRows 1 (csvCells padring)).length = (csvCells padring).length ∧
    (∀ k : Nat, (numberedRows 1 (csvCells padring))[k]? =
      ((csvCells padring)[k]?).map (fun c => csvRow c.1 ((k : Int) + 1) c.2)) ∧
    (∀ c ∈ csvCells padring, c.2.m_ltype = TYPE_CELL) := by
  have hnew : CSVWriter.new = { m_ss := "", m_side := ((0 : Nat) : Int) } := rfl
  have hall : CSVWriter.new.writePadring padring =
      { m_ss := concatRows (numberedRows 1 (csvCells padring))
        m_side := ((csvCells padring).length : Int) } := by
    unfold CSVWriter.writePadring Layout.forward Layout.backward
    simp only []
    rw [hnew, writeItems_rows, writeItems_rows, writeItems_rows, writeItems_rows]
    simp only [csvCells, numberedRows_append, concatRows_append, List.length_append,
      String.empty_append, String.append_assoc]
    congr 1
    · simp only [Nat.zero_add, Nat.add_comm 1, Nat.add_assoc]
    · simp only [Nat.zero_add, Nat.add_assoc]
  refine ⟨by rw [hall], by rw [hall], by simp [numberedRows], ?_, ?_⟩
  · intro k
    simp only [numberedRows, List.getElem?_map, List.getElem?_enumFrom, Option.map_map]
    congr 1
    funext c
    simp only [Function.comp_apply]
    congr 1
    push_cast
    ring
  · intro c hc
    simp only [csvCells, taggedCells, List.mem_append, List.mem_map, List.mem_filter] at hc
    rcases hc with ((hc | hc) | hc) | hc <;> obtain ⟨it, ⟨_, ht⟩, rfl⟩ := hc <;> simpa using ht

/-- The rows written for `csvPadring`: the cells only, numbered 1 to 7 around the four
sides. -/
theorem writePadring_rows_example :
    numberedRows 1 (csvCells csvPadring) =
      [csvRow "SOUTH" 1 (namedItem TYPE_CELL "S1"), csvRow "SOUTH" 2 (namedItem TYPE_CELL "S2"),
        csvRow "EAST" 3 (namedItem TYPE_CELL "E1"),
        csvRow "NORTH" 4 (namedItem TYPE_CELL "N2"), csvRow "NORTH" 5 (namedItem TYPE_CELL "N1"),
        csvRow "WEST" 6 (namedItem TYPE_CELL "W2"), csvRow "WEST" 7 (namedItem TYPE_CELL "W1")] ∧
    csvRow "SOUTH" 1 (namedItem TYPE_CELL "S1") = ",SOUTH,1,I/O,NONE,S1,,,,,,,,,,,,,,,,,\n" ∧
    (CSVWriter.new.writePadring csvPadring).m_side = 7 := by
  refine ⟨?_, ?_, ?_⟩ <;> decide!

/-! ## Configuration errors -/

/-- C10. Process-level failure contract: for every run whose configuration parsed, if the
filler registry holds zero cells, or the die width is below 1e-6, or the die
height is below 1e-6, the run ends with exit status 1 and the only thing it did
is report the error: `padring.doLayout` was not called, no output stream was
opened and no writer received an item. -/
theorem config_errors_abort {H : Type} (ops : FillerOps H) (env : Env) (cmd : CmdLine)
    (fuel : Nat)
    (hhelp : cmd.help = false) (hpos : cmd.positional.length = 1) (hlef : 1 ≤ cmd.lef.length)
    (hparse : (env.parse cmd.lef (cmd.positional.headD "")).2 = true)
    (hbad :
      ops.getCellCount (ops.addFillers ops.fresh
          (env.parse cmd.lef (cmd.positional.headD "")).1.m_lefreader
          (env.parse cmd.lef (cmd.positional.headD "")).1.m_fillers) = 0 ∨
      (env.parse cmd.lef (cmd.positional.headD "")).1.m_dieWidth < 1 / 1000000 ∨
      (env.parse cmd.lef (cmd.positional.headD "")).1.m_dieHeight < 1 / 1000000) :
    (main ops env cmd fuel).2 = Flow.exit 1 ∧
    ((main ops env cmd fuel).1 = [Event.logError ErrorMsg.noFillerCells] ∨
      (main ops env cmd fuel).1 = [Event.logError ErrorMsg.dieAreaNotSpecified]) ∧
    Event.doLayout ∉ (main ops env cmd fuel).1 ∧
    (∀ w file, Event.openStream w file ∉ (main ops env cmd fuel).1) ∧
    (∀ w item, Event.writeCell w item ∉ (main ops env cmd fuel).1) := by
  have h0 : ¬ (cmd.help = true ∨ cmd.positional.length ≠ 1) := by simp [hhelp, hpos]
  have h1 : ¬ (cmd.lef.length < 1) := by omega
  unfold main
  rw [if_neg h0, if_neg h1]
  generalize env.parse cmd.lef (cmd.positional.headD "") = parsed at hparse hbad ⊢
  simp only [hparse, Bool.not_true, Bool.false_eq_true, if_false]
  unfold mainParsed
  by_cases hcount : ops.getCellCount (ops.addFillers ops.fresh parsed.1.m_lefreader
      parsed.1.m_fillers) = 0
  · simp only [hcount, if_true]
    simp
  · have hdie : parsed.1.m_dieWidth < 1 / 1000000 ∨ parsed.1.m_dieHeight < 1 / 1000000 := by
      rcases hbad with hb | hb
      · exact absurd hb hcount
      · exact hb
    simp only [hcount, if_false, hdie, if_true]
    simp

/-- Witness of C10: a die height of 0 ends the run with status 1 after the error
message alone. -/
theorem config_errors_abort_witness :
    main specFillerOps (plainEnv zeroDiePadring) plainCmd 4 =
      ([Event.logError ErrorMsg.dieAreaNotSpecified], Flow.exit 1) ∧
    (main specFillerOps (plainEnv zeroDiePadring) plainCmd 4).2 = Flow.exit 1 ∧
    Event.doLayout ∉ (main specFillerOps (plainEnv zeroDiePadring) plainCmd 4).1 :=
  have h := config_errors_abort specFillerOps (plainEnv zeroDiePadring) plainCmd 4
    rfl rfl (by decide) rfl (Or.inr (Or.inr (by decide!)))
  ⟨by decide!, h.1, h.2.2.1⟩

/-! ## The failure report -/

/-- C11 (the code at the failing inputs). A gap of width 4 that no filler fits, lying on the west
side, is reported with the text `(east)`, and the same gap lying on the east
side with the text `(west)`; the remaining width 4 is reported in both. On
north and south the text names the side walked. -/
theorem noFillerFits_report_swaps_west_east :
    main specFillerOps (plainEnv westNarrowPadring) plainCmd 1 =
      ([Event.doLayout] ++ writeCorners false [none, none, none, none] ++
        [Event.logError (ErrorMsg.noFillerFits "east" 4 TYPE_FIXEDSPACE)], Flow.exit 1) ∧
    main specFillerOps (plainEnv eastNarrowPadring) plainCmd 1 =
      ([Event.doLayout] ++ writeCorners false [none, none, none, none] ++
        [Event.logError (ErrorMsg.noFillerFits "west" 4 TYPE_FIXEDSPACE)], Flow.exit 1) ∧
    walkLabel SIDE_WEST = sideName SIDE_EAST ∧ walkLabel SIDE_EAST = sideName SIDE_WEST ∧
    walkLabel SIDE_NORTH = sideName SIDE_NORTH ∧ walkLabel SIDE_SOUTH = sideName SIDE_SOUTH := by
  refine ⟨?_, ?_, ?_, ?_, ?_, ?_⟩ <;> decide!

/-! ## Gaps at the boundary -/

/-- C13. Zero gap boundary: on every side, for every registry (an empty one included), every
lookup and every grid, a FixedSpace or FlexSpace item of width exactly 0 makes
the body of the walk do nothing: no event (so no filler), no failure, and the
registry and the filler counter as they were. The outcome is the same for
every lookup function: none is consulted. -/
theorem zero_gap_emits_nothing {H : Type} (ops : FillerOps H) (padring : PadringDB) (gds : Bool)
    (fuel : Nat) (side : side_t) (st : H × Int) (item : LayoutItem)
    (hitem : isSpace item) (hzero : item.m_size = 0) :
    walkItem ops padring gds fuel side st item = ([], Flow.next st) := by
  rw [walkItem_space ops padring gds fuel side st item hitem,
    fillGap_of_nonpos ops padring gds side item.m_ltype st.1 fuel item.m_size _ _
      (le_of_eq hzero)]

/-- Witness of C13: a flex space of width 0 on the west side, walked with an empty
registry and no loop budget at all. -/
theorem zero_gap_emits_nothing_witness :
    walkItem specFillerOps scenarioPadring true 0 SIDE_WEST (emptyHandler, 7)
      (spaceItem TYPE_FLEXSPACE 0 10) = ([], Flow.next (emptyHandler, 7)) :=
  zero_gap_emits_nothing specFillerOps scenarioPadring true 0 SIDE_WEST (emptyHandler, 7)
    (spaceItem TYPE_FLEXSPACE 0 10) (Or.inr rfl) rfl

/-- C12 (as stated, refuted). A fixed space of width 0.05 on a 0.1 grid, with only a filler of
width 5 registered: the run fails with NoFillerFits for the remaining width
0.05 instead of closing the gap by tolerance. -/
theorem subgrid_gap_counterexample :
    (0 : Rat) < 1 / 20 ∧ (1 / 20 : Rat) < subGridPadring.m_grid ∧
    main specFillerOps (plainEnv subGridPadring) plainCmd 1 =
      ([Event.doLayout] ++ writeCorners false [none, none, none, none] ++
        [Event.logError (ErrorMsg.noFillerFits "north" (1 / 20) TYPE_FIXEDSPACE)],
        Flow.exit 1) := by
  refine ⟨?_, ?_, ?_⟩ <;> decide!

/-- C12 (amended). On every side, for every grid and every registry, a space item whose width
`g` satisfies `0 < g < grid` is looked up like any other gap: when the lookup
for `g` returns no match the loop fails with NoFillerFits for the width `g`,
having emitted no filler; when it returns a width `w > 0` exactly one filler of
width `w` is emitted at the start of the gap and the loop ends without failure,
the residue `g - w` being below the grid. -/
theorem subgrid_gap_lookup {H : Type} (ops : FillerOps H) (padring : PadringDB) (gds : Bool)
    (fuel : Nat) (side : side_t) (st : H × Int) (item : LayoutItem)
    (hitem : isSpace item) (hpos : 0 < item.m_size) (hsub : item.m_size < padring.m_grid) :
    walkItem ops padring gds (fuel + 1) side st item =
      if (ops.getFillerCell st.1 item.m_size).1 ≤ 0 then
        ([Event.logError (ErrorMsg.noFillerFits (walkLabel side) item.m_size item.m_ltype)],
          Flow.exit 1)
      else
        (forwardItem gds (makeFiller padring side (ops.getFillerCell st.1 item.m_size).2 st.2
            (gapStart side item) (ops.getFillerCell st.1 item.m_size).1),
          Flow.next (st.1, st.2 + 1)) := by
  rw [walkItem_space ops padring gds (fuel + 1) side st item hitem]
  by_cases hw : (ops.getFillerCell st.1 item.m_size).1 ≤ 0
  · rw [if_pos hw, fillGap_fail ops padring gds side item.m_ltype st.1 fuel _ _ _ hpos hw]
  · rw [if_neg hw, fillGap_step ops padring gds side item.m_ltype st.1 fuel _ _ _ hpos
      (not_le.mp hw)]
    have hrest : (if item.m_size - (ops.getFillerCell st.1 item.m_size).1 > 0 ∧
        item.m_size - (ops.getFillerCell st.1 item.m_size).1 < padring.m_grid then (0 : Rat)
        else item.m_size - (ops.getFillerCell st.1 item.m_size).1) ≤ 0 := by
      have hw1 := not_le.mp hw
      split
      · exact le_refl 0
      · next hn =>
        by_contra hc
        exact hn ⟨not_le.mp hc, by linarith⟩
    rw [fillGap_of_nonpos ops padring gds side item.m_ltype st.1 fuel _ _ _ hrest]
    simp

/-- Witness of C12 (amended): the gap of width 0.05 with a filler of width 0.05 registered
gets that one filler. -/
theorem subgrid_gap_lookup_witness :
    walkItem specFillerOps subGridPadring false 1 SIDE_NORTH
        ({ m_fillers := [("FILL005", 1 / 20)] }, 0) (spaceItem TYPE_FIXEDSPACE (1 / 20) 10) =
      (forwardItem false (makeFiller subGridPadring SIDE_NORTH "FILL005" 0 10 (1 / 20)),
        Flow.next ({ m_fillers := [("FILL005", 1 / 20)] }, 1)) :=
  (subgrid_gap_lookup specFillerOps subGridPadring false 0 SIDE_NORTH
    ({ m_fillers := [("FILL005", 1 / 20)] }, 0) (spaceItem TYPE_FIXEDSPACE (1 / 20) 10)
    (Or.inl rfl) (by decide!) (by decide!)).trans (by decide!)

/-! ## Two cells on an empty side -/

/-- The stamp of `setItemEdgePos` after an `addItem` call is the stamp before it. -/
theorem setItemEdgePos_addItem (l : Layout) (x it : LayoutItem) :
    (l.addItem x).setItemEdgePos it = l.setItemEdgePos it := by
  unfold Layout.setItemEdgePos
  rw [(addItem_dir_edgePos l x).1, (addItem_dir_edgePos l x).2]

/-- C16 (as stated, refuted). Two Cells added to an empty side give a sequence with two FlexSpace
items when the automatic-spacer flag of the side starts set (one before each
Cell) and with one when it starts clear; in both the sequence ends with the
second Cell, so there are never three and none follows the last Cell. -/
theorem two_cells_counterexample :
    (addItems (emptySide DIR_HORIZONTAL SIDE_NORTH true)
        [namedItem TYPE_CELL "A", namedItem TYPE_CELL "B"]).m_items =
      [(emptySide DIR_HORIZONTAL SIDE_NORTH true).setItemEdgePos (LayoutItem.new TYPE_FLEXSPACE),
        namedItem TYPE_CELL "A",
        (emptySide DIR_HORIZONTAL SIDE_NORTH true).setItemEdgePos (LayoutItem.new TYPE_FLEXSPACE),
        namedItem TYPE_CELL "B"] ∧
    countFlex (addItems (emptySide DIR_HORIZONTAL SIDE_NORTH true)
        [namedItem TYPE_CELL "A", namedItem TYPE_CELL "B"]).m_items = 2 ∧
    countFlex (addItems (emptySide DIR_HORIZONTAL SIDE_NORTH false)
        [namedItem TYPE_CELL "A", namedItem TYPE_CELL "B"]).m_items = 1 := by
  refine ⟨?_, ?_, ?_⟩ <;> decide!

/-- C16 (amended). Adding exactly two Cell items with `addItem` to an otherwise empty side
yields `[flex, c1, flex, c2]` when the automatic-spacer flag of the side is set
beforehand, two FlexSpace items, one before the first Cell and one between the
two Cells, and `[c1, flex, c2]` when it is clear; `addItem` puts no FlexSpace
after the last Cell. -/
theorem addItem_two_cells (l : Layout) (c1 c2 : LayoutItem)
    (hempty : l.m_items = []) (h1 : c1.m_ltype = TYPE_CELL) (h2 : c2.m_ltype = TYPE_CELL) :
    (addItems l [c1, c2]).m_items =
      (if l.m_insertFlexSpacer = true then
        [l.setItemEdgePos (LayoutItem.new TYPE_FLEXSPACE), c1,
          l.setItemEdgePos (LayoutItem.new TYPE_FLEXSPACE), c2]
      else [c1, l.setItemEdgePos (LayoutItem.new TYPE_FLEXSPACE), c2]) ∧
    countFlex (addItems l [c1, c2]).m_items = (if l.m_insertFlexSpacer = true then 2 else 1) ∧
    (addItems l [c1, c2]).m_items.getLast? = some c2 := by
  have hflex := (setItemEdgePos_flex l).1
  have hitems : (addItems l [c1, c2]).m_items =
      (if l.m_insertFlexSpacer = true then
        [l.setItemEdgePos (LayoutItem.new TYPE_FLEXSPACE), c1,
          l.setItemEdgePos (LayoutItem.new TYPE_FLEXSPACE), c2]
      else [c1, l.setItemEdgePos (LayoutItem.new TYPE_FLEXSPACE), c2]) := by
    simp only [addItems, List.foldl_cons, List.foldl_nil]
    rw [addItem_items_eq, addItem_flag_eq, addItem_items_eq, setItemEdgePos_addItem, hempty]
    by_cases hf : l.m_insertFlexSpacer = true <;> simp [hf, h1, h2]
  rw [hitems]
  by_cases hf : l.m_insertFlexSpacer = true
  · simp [hf, countFlex, List.countP_cons, hflex, h1, h2]
  · simp [hf, countFlex, List.countP_cons, hflex, h1, h2]

/-- Witness of C16 (amended): the cells `A` and `B` on a side whose flag starts set. -/
theorem addItem_two_cells_witness :
    countFlex (addItems (emptySide DIR_VERTICAL SIDE_EAST true)
        [namedItem TYPE_CELL "A", namedItem TYPE_CELL "B"]).m_items = 2 ∧
    (addItems (emptySide DIR_VERTICAL SIDE_EAST true)
        [namedItem TYPE_CELL "A", namedItem TYPE_CELL "B"]).m_items.getLast? =
      some (namedItem TYPE_CELL "B") :=
  have h := addItem_two_cells (emptySide DIR_VERTICAL SIDE_EAST true)
    (namedItem TYPE_CELL "A") (namedItem TYPE_CELL "B") rfl rfl rfl
  ⟨h.2.1, h.2.2⟩

/-! ## Stamping of the fillers -/

/-- The coordinates and the tag `makeFiller` writes on each side. -/
theorem makeFiller_stamp (padring : PadringDB) (side : side_t) (cellName : String)
    (numfill : Int) (pos width : Rat) :
    match side with
    | SIDE_NORTH =>
      (makeFiller padring side cellName numfill pos width).m_x = pos ∧
      (makeFiller padring side cellName numfill pos width).m_y = padring.m_dieHeight ∧
      (makeFiller padring side cellName numfill pos width).m_location = "N"
    | SIDE_SOUTH =>
      (makeFiller padring side cellName numfill pos width).m_x = pos ∧
      (makeFiller padring side cellName numfill pos width).m_y = 0 ∧
      (makeFiller padring side cellName numfill pos width).m_location = "S"
    | SIDE_WEST =>
      (makeFiller padring side cellName numfill pos width).m_y = pos ∧
      (makeFiller padring side cellName numfill pos width).m_x = 0 ∧
      (makeFiller padring side cellName numfill pos width).m_location = "W"
    | SIDE_EAST =>
      (makeFiller padring side cellName numfill pos width).m_y = pos ∧
      (makeFiller padring side cellName numfill pos width).m_x = padring.m_dieWidth ∧
      (makeFiller padring side cellName numfill pos width).m_location = "E" := by
  cases side <;> simp [makeFiller, LayoutItem.new, walkEdge, walkLocation]

/-- The i-th filler of a gap loop is the one built in iteration i, from the state
the loop has then; its start is the start of the gap plus the widths of the
fillers before it. -/
theorem fillGap_nth_filler {H : Type} (ops : FillerOps H) (padring : PadringDB) (gds : Bool)
    (side : side_t) (ltype : LayoutItemType) (h : H) :
    ∀ (fuel : Nat) (space pos : Rat) (numfill : Int) (i : Nat) (f : LayoutItem),
      (fillersOf (fillGap ops padring gds side ltype h fuel space pos numfill).1)[i]? = some f →
      ∃ (s p : Rat) (n : Int),
        gapState ops padring h i space pos numfill = some (s, p, n) ∧
        p = pos + ((fillerWidths
          (fillGap ops padring gds side ltype h fuel space pos numfill).1).take i).sum ∧
        f = makeFiller padring side (ops.getFillerCell h s).2 n p (ops.getFillerCell h s).1 := by
  intro fuel
  induction fuel with
  | zero =>
    intro space pos numfill i f hf
    by_cases hpos : 0 < space <;> simp [fillGap, hpos, fillersOf, streamOf] at hf
  | succ fuel ih =>
    intro space pos numfill i f hf
    by_cases hpos : 0 < space
    · by_cases hw : 0 < (ops.getFillerCell h space).1
      · rw [fillGap_step ops padring gds side ltype h fuel space pos numfill hpos hw] at hf ⊢
        simp only [fillerWidths, fillersOf_append, fillersOf_forward_filler, List.singleton_append,
          List.map_cons, (makeFiller_fields _ _ _ _ _ _).2.1] at hf ⊢
        cases i with
        | zero =>
          simp only [List.getElem?_cons_zero, Option.some.injEq] at hf
          exact ⟨space, pos, numfill, rfl, by simp, hf.symm⟩
        | succ j =>
          simp only [List.getElem?_cons_succ] at hf
          obtain ⟨s, p, n, hst, hp, hfm⟩ := ih _ _ _ j f hf
          refine ⟨s, p, n, ?_, ?_, hfm⟩
          · simp only [gapState, gt_iff_lt, hpos, hw, if_true]
            exact hst
          · rw [hp]
            simp only [fillerWidths, List.take_succ_cons, List.sum_cons]
            ring
      · rw [fillGap_fail ops padring gds side ltype h fuel space pos numfill hpos
          (not_lt.mp hw)] at hf
        simp [fillersOf, streamOf] at hf
    · rw [fillGap_of_nonpos ops padring gds side ltype h (fuel + 1) space pos numfill
        (not_lt.mp hpos)] at hf
      simp [fillersOf, streamOf] at hf

/-- C17. Filler stamping: for the gap of every space item, the i-th filler emitted for the
gap (the fillers before it being those emitted for the same gap) starts at the
start of the gap plus the sum of the widths of the fillers before it, its size
is the width the lookup returned for the space then remaining, and its
coordinates and tag are `x = start`, `y = dieHeight`, "N" on north, `x = start`,
`y = 0`, "S" on south, `y = start`, `x = 0`, "W" on west and `y = start`,
`x = dieWidth`, "E" on east. -/
theorem filler_stamping {H : Type} (ops : FillerOps H) (padring : PadringDB) (gds : Bool)
    (fuel : Nat) (side : side_t) (st : H × Int) (item : LayoutItem) (i : Nat) (f : LayoutItem)
    (hitem : isSpace item)
    (hf : (fillersOf (walkItem ops padring gds fuel side st item).1)[i]? = some f) :
    (∃ (s p : Rat) (n : Int),
      gapState ops padring st.1 i item.m_size (gapStart side item) st.2 = some (s, p, n) ∧
      f.m_size = (ops.getFillerCell st.1 s).1 ∧ f.m_cellname = (ops.getFillerCell st.1 s).2) ∧
    f.m_ltype = TYPE_FILLER ∧
    (match side with
    | SIDE_NORTH =>
      f.m_x = item.m_x +
        ((fillerWidths (walkItem ops padring gds fuel side st item).1).take i).sum ∧
      f.m_y = padring.m_dieHeight ∧ f.m_location = "N"
    | SIDE_SOUTH =>
      f.m_x = item.m_x +
        ((fillerWidths (walkItem ops padring gds fuel side st item).1).take i).sum ∧
      f.m_y = 0 ∧ f.m_location = "S"
    | SIDE_WEST =>
      f.m_y = item.m_y +
        ((fillerWidths (walkItem ops padring gds fuel side st item).1).take i).sum ∧
      f.m_x = 0 ∧ f.m_location = "W"
    | SIDE_EAST =>
      f.m_y = item.m_y +
        ((fillerWidths (walkItem ops padring gds fuel side st item).1).take i).sum ∧
      f.m_x = padring.m_dieWidth ∧ f.m_location = "E") := by
  rw [walkItem_space ops padring gds fuel side st item hitem] at hf ⊢
  simp only at hf ⊢
  obtain ⟨s, p, n, hst, hp, hfm⟩ :=
    fillGap_nth_filler ops padring gds side item.m_ltype st.1 fuel item.m_size
      (gapStart side item) st.2 i f hf
  have hfields := makeFiller_fields padring side (ops.getFillerCell st.1 s).2 n p
    (ops.getFillerCell st.1 s).1
  have hstamp := makeFiller_stamp padring side (ops.getFillerCell st.1 s).2 n p
    (ops.getFillerCell st.1 s).1
  rw [← hfm] at hfields hstamp
  refine ⟨⟨s, p, n, hst, hfields.2.1, hfields.2.2.2.1⟩, hfields.1, ?_⟩
  cases side <;> simp only at hstamp ⊢ <;>
    exact ⟨by rw [hstamp.1, hp]; rfl, hstamp.2.1, hstamp.2.2⟩

/-- Witness of C17: the third filler of the 7.3 gap starting at 10 on the north side is
the one of width 0.3, placed at 10 + 5 + 2 = 17 on `y = dieHeight = 100`. -/
theorem filler_stamping_witness :
    (fillersOf (walkItem specFillerOps scenarioPadring false 4 SIDE_NORTH (scenarioHandler, 0)
      (spaceItem TYPE_FIXEDSPACE (73 / 10) 10)).1)[2]? =
      some (makeFiller scenarioPadring SIDE_NORTH "FILL03" 2 17 (3 / 10)) ∧
    (makeFiller scenarioPadring SIDE_NORTH "FILL03" 2 17 (3 / 10)).m_x =
      (spaceItem TYPE_FIXEDSPACE (73 / 10) 10).m_x +
        ((fillerWidths (walkItem specFillerOps scenarioPadring false 4 SIDE_NORTH
          (scenarioHandler, 0) (spaceItem TYPE_FIXEDSPACE (73 / 10) 10)).1).take 2).sum ∧
    (makeFiller scenarioPadring SIDE_NORTH "FILL03" 2 17 (3 / 10)).m_y =
      scenarioPadring.m_dieHeight ∧
    (makeFiller scenarioPadring SIDE_NORTH "FILL03" 2 17 (3 / 10)).m_location = "N" :=
  ⟨by decide!,
    (filler_stamping specFillerOps scenarioPadring false 4 SIDE_NORTH (scenarioHandler, 0)
      (spaceItem TYPE_FIXEDSPACE (73 / 10) 10) 2
      (makeFiller scenarioPadring SIDE_NORTH "FILL03" 2 17 (3 / 10))
      (Or.inl rfl) (by decide!)).2.2⟩

/-! ## Termination of the gap loop -/

/-- With every found width at least `m`, a gap of at most `N * m` is done within `N`
iterations: the loop stops, after at most `N` fillers, because the remaining
space is `<= 0` or in the failure branch. -/
theorem fillGap_bounded {H : Type} (ops : FillerOps H) (padring : PadringDB) (gds : Bool)
    (side : side_t) (ltype : LayoutItemType) (h : H) (m : Rat)
    (hlookup : ∀ r : Rat, (ops.getFillerCell h r).1 ≤ 0 ∨ m ≤ (ops.getFillerCell h r).1) :
    ∀ (fuel N : Nat) (space pos : Rat) (numfill : Int), N ≤ fuel → space ≤ (N : Rat) * m →
      fillerCount (fillGap ops padring gds side ltype h fuel space pos numfill) ≤ N ∧
      ∃ (s p : Rat) (n : Int),
        gapState ops padring h
          (fillerCount (fillGap ops padring gds side ltype h fuel space pos numfill))
          space pos numfill = some (s, p, n) ∧
        (((fillGap ops padring gds side ltype h fuel space pos numfill).2 = Flow.next n ∧
            s ≤ 0) ∨
          ((fillGap ops padring gds side ltype h fuel space pos numfill).2 = Flow.exit 1 ∧
            0 < s ∧ (ops.getFillerCell h s).1 ≤ 0)) := by
  intro fuel
  induction fuel with
  | zero =>
    intro N space pos numfill hN hsp
    have hN0 : N = 0 := by omega
    subst hN0
    have hs : space ≤ 0 := by simpa using hsp
    rw [fillGap_of_nonpos ops padring gds side ltype h 0 space pos numfill hs]
    exact ⟨by simp [fillerCount, fillersOf, streamOf], space, pos, numfill,
      by simp [fillerCount, fillersOf, streamOf, gapState], Or.inl ⟨rfl, hs⟩⟩
  | succ fuel ih =>
    intro N space pos numfill hN hsp
    by_cases hpos : 0 < space
    · by_cases hw : 0 < (ops.getFillerCell h space).1
      · have hmw : m ≤ (ops.getFillerCell h space).1 := by
          rcases hlookup space with h1 | h1
          · exact absurd hw (not_lt.mpr h1)
          · exact h1
        have hNpos : 0 < N := by
          rcases Nat.eq_zero_or_pos N with h0 | h0
          · subst h0
            simp at hsp
            exact absurd hpos (not_lt.mpr hsp)
          · exact h0
        obtain ⟨N1, rfl⟩ : ∃ N1, N = N1 + 1 := ⟨N - 1, by omega⟩
        have hsp1 : space ≤ (N1 : Rat) * m + m := by
          have : ((N1 + 1 : Nat) : Rat) * m = (N1 : Rat) * m + m := by push_cast; ring
          rw [this] at hsp
          exact hsp
        have hrest : (if space - (ops.getFillerCell h space).1 > 0 ∧
            space - (ops.getFillerCell h space).1 < padring.m_grid then (0 : Rat)
            else space - (ops.getFillerCell h space).1) ≤ (N1 : Rat) * m := by
          split
          · next hc =>
            have : (0 : Rat) < space - (ops.getFillerCell h space).1 := hc.1
            linarith
          · linarith
        obtain ⟨hcount, s, p, n, hst, hend⟩ := ih N1 _ (pos + (ops.getFillerCell h space).1)
          (numfill + 1) (by omega) hrest
        rw [fillGap_step ops padring gds side ltype h fuel space pos numfill hpos hw]
        have hcnt : ∀ (ev : List Event) (fl : Flow Int),
            fillerCount (forwardItem gds (makeFiller padring side (ops.getFillerCell h space).2
              numfill pos (ops.getFillerCell h space).1) ++ ev, fl) =
            fillerCount (ev, fl) + 1 := by
          intro ev fl
          simp [fillerCount, fillersOf_append, fillersOf_forward_filler]
        rw [hcnt]
        refine ⟨by simp only [fillerCount] at hcount ⊢; omega, s, p, n, ?_, ?_⟩
        · simp only [gapState, gt_iff_lt, hpos, hw, if_true]
          exact hst
        · exact hend
      · rw [fillGap_fail ops padring gds side ltype h fuel space pos numfill hpos
          (not_lt.mp hw)]
        exact ⟨by simp [fillerCount, fillersOf, streamOf], space, pos, numfill,
          by simp [fillerCount, fillersOf, streamOf, gapState],
          Or.inr ⟨rfl, hpos, not_lt.mp hw⟩⟩
    · have hs : space ≤ 0 := not_lt.mp hpos
      rw [fillGap_of_nonpos ops padring gds side ltype h (fuel + 1) space pos numfill hs]
      exact ⟨by simp [fillerCount, fillersOf, streamOf], space, pos, numfill,
        by simp [fillerCount, fillersOf, streamOf, gapState], Or.inl ⟨rfl, hs⟩⟩

/-- C18. Termination of gap filling: for every gap width, every grid and every filler lookup
that returns no match or a width of at least a fixed `m > 0`, the gap loop
stops within the gap width divided by `m`, rounded up, iterations: with that
budget or any larger one it ends with the remaining space `<= 0` or in the
NoFillerFits failure, and the number of fillers emitted is at most the gap
width divided by `m`, rounded up. -/
theorem fillGap_terminates {H : Type} (ops : FillerOps H) (padring : PadringDB) (gds : Bool)
    (side : side_t) (ltype : LayoutItemType) (h : H) (m : Rat) (fuel : Nat)
    (space pos : Rat) (numfill : Int) (hm : 0 < m)
    (hlookup : ∀ r : Rat, (ops.getFillerCell h r).1 ≤ 0 ∨ m ≤ (ops.getFillerCell h r).1)
    (hfuel : ⌈space / m⌉₊ ≤ fuel) :
    fillerCount (fillGap ops padring gds side ltype h fuel space pos numfill) ≤ ⌈space / m⌉₊ ∧
    ∃ (s p : Rat) (n : Int),
      gapState ops padring h
        (fillerCount (fillGap ops padring gds side ltype h fuel space pos numfill))
        space pos numfill = some (s, p, n) ∧
      (((fillGap ops padring gds side ltype h fuel space pos numfill).2 = Flow.next n ∧
          s ≤ 0) ∨
        ((fillGap ops padring gds side ltype h fuel space pos numfill).2 = Flow.exit 1 ∧
          0 < s ∧ (ops.getFillerCell h s).1 ≤ 0)) := by
  have hsp : space ≤ ((⌈space / m⌉₊ : Nat) : Rat) * m := by
    have h1 : space / m ≤ (⌈space / m⌉₊ : Rat) := Nat.le_ceil _
    exact (div_le_iff₀ hm).mp h1
  exact fillGap_bounded ops padring gds side ltype h m hlookup fuel ⌈space / m⌉₊ space pos
    numfill hfuel hsp

/-- The lookup of the registry modelled from the spec returns no match or a width
of at least the smallest registered width. -/
theorem specFillerOps_lookup_min (h : FillerHandler) (m : Rat)
    (hmin : ∀ e ∈ h.m_fillers, m ≤ e.2) (r : Rat) :
    (specFillerOps.getFillerCell h r).1 ≤ 0 ∨ m ≤ (specFillerOps.getFillerCell h r).1 := by
  show (FillerHandler.getFillerCell h r).1 ≤ 0 ∨ m ≤ (FillerHandler.getFillerCell h r).1
  unfold FillerHandler.getFillerCell
  cases hb : h.bestFit r with
  | none => exact Or.inl (le_refl 0)
  | some e => exact Or.inr (hmin e (bestFit_mem h r e hb).1)

/-- Witness of C18: the gap of 7.3 over the registry with smallest width 0.3 is done within
25 iterations; it ends with the space used up after three fillers. -/
theorem fillGap_terminates_witness :
    (fillGap specFillerOps scenarioPadring false SIDE_NORTH TYPE_FIXEDSPACE scenarioHandler 25
      (73 / 10) 10 0).2 = Flow.next 3 ∧
    fillerCount (fillGap specFillerOps scenarioPadring false SIDE_NORTH TYPE_FIXEDSPACE
      scenarioHandler 25 (73 / 10) 10 0) ≤ ⌈(73 / 10 : Rat) / (3 / 10)⌉₊ :=
  ⟨by decide!,
    (fillGap_terminates specFillerOps scenarioPadring false SIDE_NORTH TYPE_FIXEDSPACE
      scenarioHandler (3 / 10) 25 (73 / 10) 10 0 (by norm_num)
      (specFillerOps_lookup_min scenarioHandler (3 / 10) (by decide!))
      (Nat.ceil_le.mpr (by norm_num))).1⟩

/-! ## Decimal text of the filler counter -/

theorem digitValue_digitChar (k : Nat) (hk : k < 10) : digitValue (Nat.digitChar k) = k := by
  interval_cases k <;> rfl

/-- Reading back the digits `toDigitsCore` writes in front of `ds`. -/
theorem decimal_toDigitsCore (fuel : Nat) :
    ∀ (n : Nat) (ds : List Char), n < fuel →
      (Nat.toDigitsCore 10 fuel n ds).foldl (fun acc c => acc * 10 + digitValue c) 0 =
        ds.foldl (fun acc c => acc * 10 + digitValue c) n := by
  induction fuel with
  | zero =>
    intro n ds hn
    omega
  | succ fuel ih =>
    intro n ds hn
    have hd : digitValue (Nat.digitChar (n % 10)) = n % 10 :=
      digitValue_digitChar (n % 10) (Nat.mod_lt _ (by decide))
    unfold Nat.toDigitsCore
    by_cases h0 : n / 10 = 0
    · simp only [h0, if_true, List.foldl_cons, hd]
      have : n % 10 = n := Nat.mod_eq_of_lt (by omega)
      rw [this]
      simp
    · simp only [h0, if_false]
      rw [ih (n / 10) _ (by omega)]
      simp only [List.foldl_cons, hd]
      have : n / 10 * 10 + n % 10 = n := by omega
      rw [this]

/-- The decimal text of a natural number reads back as that number. -/
theorem decimalValue_repr (n : Nat) : decimalValue (toString n) = n := by
  show decimalValue (Nat.repr n) = n
  unfold decimalValue Nat.repr Nat.toDigits
  simp only [List.asString]
  rw [decimal_toDigitsCore (n + 1) n [] (by omega)]
  rfl

/-- Different natural numbers have different decimal texts. -/
theorem toString_nat_injective (a b : Nat) (h : toString a = toString b) : a = b := by
  have := congrArg decimalValue h
  rwa [decimalValue_repr, decimalValue_repr] at this

theorem toString_int_ofNat (k : Nat) : toString ((k : Nat) : Int) = toString k := rfl

theorem append_left_cancel_string (p a b : String) (h : p ++ a = p ++ b) : a = b := by
  have h1 := congrArg String.data h
  simp only [String.data_append] at h1
  exact String.ext (List.append_cancel_left h1)

/-- Different counter values give different filler names. -/
theorem filler_name_injective (a b : Nat)
    (h : "FILLER_" ++ toString ((a : Nat) : Int) = "FILLER_" ++ toString ((b : Nat) : Int)) :
    a = b := by
  rw [toString_int_ofNat, toString_int_ofNat] at h
  exact toString_nat_injective a b (append_left_cancel_string _ _ _ h)

/-! ## Names of the fillers -/

theorem fillerNames_append (a b : Nat) :
    ∀ start : Int, fillerNames start (a + b) =
      fillerNames start a ++ fillerNames (start + (a : Int)) b := by
  induction a with
  | zero =>
    intro start
    simp [fillerNames]
  | succ a ih =>
    intro start
    have e : a + 1 + b = (a + b) + 1 := by omega
    rw [e]
    simp only [fillerNames, List.cons_append]
    rw [ih (start + 1)]
    congr 3
    push_cast
    ring

theorem fillerNames_eq_map (count : Nat) :
    ∀ n : Nat, fillerNames ((n : Nat) : Int) count =
      (List.range' n count).map (fun k => "FILLER_" ++ toString ((k : Nat) : Int)) := by
  induction count with
  | zero =>
    intro n
    simp [fillerNames]
  | succ c ih =>
    intro n
    simp only [fillerNames, List.range'_succ, List.map_cons]
    congr 1
    exact ih (n + 1)

theorem fillerNames_nodup (n count : Nat) : (fillerNames ((n : Nat) : Int) count).Nodup := by
  rw [fillerNames_eq_map]
  apply List.Nodup.map_on _ (List.nodup_range' n count)
  intro a _ b _ hab
  exact filler_name_injective a b hab

theorem fillerNames_mem (n count : Nat) (s : String)
    (hs : s ∈ fillerNames ((n : Nat) : Int) count) : ∃ k : Nat, s = "FILLER_" ++ toString k := by
  rw [fillerNames_eq_map] at hs
  simp only [List.mem_map] at hs
  obtain ⟨k, _, hk⟩ := hs
  exact ⟨k, hk.symm⟩

theorem fillerNames_getElem (count : Nat) :
    ∀ (n k : Nat) (s : String), (fillerNames ((n : Nat) : Int) count)[k]? = some s →
      s = "FILLER_" ++ toString (n + k) := by
  intro n k s hs
  rw [fillerNames_eq_map, List.getElem?_map] at hs
  cases hr : (List.range' n count)[k]? with
  | none => simp [hr] at hs
  | some v =>
    simp only [hr, Option.map_some', Option.some.injEq] at hs
    have hv := List.getElem?_eq_some_iff.mp hr
    obtain ⟨hlt, hval⟩ := hv
    simp only [List.getElem_range'] at hval
    rw [← hs, ← hval, toString_int_ofNat]
    simp

theorem forwardAll_append (gds : Bool) (xs ys : List LayoutItem) :
    forwardAll gds (xs ++ ys) = forwardAll gds xs ++ forwardAll gds ys := by
  simp [forwardAll, List.flatMap_append]

theorem streamOf_forwardAll (gds : Bool) (w : Writer) (hw : w = Writer.GDS2Writer → gds = true)
    (items : List LayoutItem) : streamOf w (forwardAll gds items) = items.map some := by
  induction items with
  | nil => simp [forwardAll, streamOf]
  | cons x rest ih =>
    have e : forwardAll gds (x :: rest) = forwardItem gds x ++ forwardAll gds rest := by
      simp [forwardAll, List.flatMap_cons]
    rw [e, streamOf_append, streamOf_forwardItem gds w hw, ih]
    simp

theorem streamOf_errors (w : Writer) (errs : List Event)
    (herr : ∀ e ∈ errs, ∃ msg, e = Event.logError msg) : streamOf w errs = [] := by
  induction errs with
  | nil => simp [streamOf]
  | cons x rest ih =>
    obtain ⟨msg, hx⟩ := herr x (List.mem_cons_self _ _)
    have hrest := ih (fun e he => herr e (List.mem_cons_of_mem _ he))
    simp only [streamOf] at hrest ⊢
    rw [List.filterMap_cons, hx]
    simpa using hrest

theorem fillersOf_forwardAll (gds : Bool) (items : List LayoutItem) (errs : List Event)
    (herr : ∀ e ∈ errs, ∃ msg, e = Event.logError msg) :
    fillersOf (forwardAll gds items ++ errs) = items.filter isFillerItem := by
  unfold fillersOf
  rw [streamOf_append, streamOf_forwardAll gds Writer.SVGWriter (by simp) items,
    streamOf_errors Writer.SVGWriter errs herr, List.append_nil, List.filterMap_map]
  induction items with
  | nil => simp
  | cons x rest ih =>
    by_cases hx : x.m_ltype = TYPE_FILLER
    · simp [List.filterMap_cons, List.filter_cons, isFillerItem, hx, ih]
    · simp [List.filterMap_cons, List.filter_cons, isFillerItem, hx, ih]

/-- A piece that exits or is still running, after a piece that fell through. -/
theorem walkShape_seq {α β : Type} (gds : Bool) (start : Int) (final1 : α → Int)
    (final2 : β → Int) (e1 e2 : List Event) (a : α) (f2 : Flow β)
    (h1 : WalkShape gds start final1 (e1, Flow.next a))
    (h2 : WalkShape gds (final1 a) final2 (e2, f2)) :
    WalkShape gds start final2 (e1 ++ e2, f2) := by
  obtain ⟨items1, errs1, c1, he1, _, hn1, hf1⟩ := h1
  obtain ⟨items2, errs2, c2, he2, herr2, hn2, hf2⟩ := h2
  obtain ⟨hnil, hfin⟩ := hf1 a rfl
  refine ⟨items1 ++ items2, errs2, c1 + c2, ?_, herr2, ?_, ?_⟩
  · simp only at he1 he2 ⊢
    rw [he1, he2, hnil, forwardAll_append]
    simp
  · rw [List.filter_append, List.map_append, hn1, hn2, hfin, fillerNames_append]
  · intro b hb
    obtain ⟨hnil2, hfin2⟩ := hf2 b hb
    refine ⟨hnil2, ?_⟩
    rw [hfin2, hfin]
    push_cast
    ring

/-- A piece without events that falls through with the counter unchanged. -/
theorem walkShape_skip {α : Type} (gds : Bool) (start : Int) (final : α → Int) (a : α)
    (ha : final a = start) : WalkShape gds start final (([] : List Event), Flow.next a) := by
  refine ⟨[], [], 0, by simp [forwardAll], by simp, by simp [fillerNames], ?_⟩
  intro b hb
  simp only [Flow.next.injEq] at hb
  rw [← hb, ha]
  simp

/-- The forwarding of one configured item, which is not a filler. -/
theorem walkShape_item {α : Type} (gds : Bool) (start : Int) (final : α → Int) (a : α)
    (ha : final a = start) (item : LayoutItem) (hitem : item.m_ltype ≠ TYPE_FILLER) :
    WalkShape gds start final (forwardItem gds item, Flow.next a) := by
  refine ⟨[item], [], 0, by simp [forwardAll], by simp, ?_, ?_⟩
  · simp [isFillerItem, hitem, fillerNames]
  · intro b hb
    simp only [Flow.next.injEq] at hb
    rw [← hb, ha]
    simp

/-- The shape of the events of a gap loop. -/
theorem fillGap_shape {H : Type} (ops : FillerOps H) (padring : PadringDB) (gds : Bool)
    (side : side_t) (ltype : LayoutItemType) (h : H) :
    ∀ (fuel : Nat) (space pos : Rat) (numfill : Int),
      WalkShape gds numfill (fun n : Int => n)
        (fillGap ops padring gds side ltype h fuel space pos numfill) := by
  intro fuel
  induction fuel with
  | zero =>
    intro space pos numfill
    by_cases hpos : 0 < space
    · simp only [fillGap, gt_iff_lt, hpos, if_true]
      exact ⟨[], [], 0, by simp [forwardAll], by simp, by simp [fillerNames],
        fun a ha => by cases ha⟩
    · rw [fillGap_of_nonpos ops padring gds side ltype h 0 space pos numfill (not_lt.mp hpos)]
      exact walkShape_skip gds numfill _ numfill rfl
  | succ fuel ih =>
    intro space pos numfill
    by_cases hpos : 0 < space
    · by_cases hw : 0 < (ops.getFillerCell h space).1
      · rw [fillGap_step ops padring gds side ltype h fuel space pos numfill hpos hw]
        have hfirst : WalkShape gds numfill (fun n : Int => n)
            (forwardItem gds (makeFiller padring side (ops.getFillerCell h space).2 numfill pos
              (ops.getFillerCell h space).1), Flow.next (numfill + 1)) := by
          refine ⟨[makeFiller padring side (ops.getFillerCell h space).2 numfill pos
            (ops.getFillerCell h space).1], [], 1, by simp [forwardAll], by simp, ?_, ?_⟩
          · simp [isFillerItem, (makeFiller_fields _ _ _ _ _ _).1,
              (makeFiller_fields _ _ _ _ _ _).2.2.1, fillerNames]
          · intro a ha
            simp only [Flow.next.injEq] at ha
            rw [← ha]
            simp
        exact walkShape_seq gds numfill _ _ _ _ (numfill + 1) _ hfirst (ih _ _ _)
      · rw [fillGap_fail ops padring gds side ltype h fuel space pos numfill hpos
          (not_lt.mp hw)]
        exact ⟨[], [Event.logError (ErrorMsg.noFillerFits (walkLabel side) space ltype)], 0,
          by simp [forwardAll], by simp, by simp [fillerNames], fun a ha => by cases ha⟩
    · rw [fillGap_of_nonpos ops padring gds side ltype h (fuel + 1) space pos numfill
        (not_lt.mp hpos)]
      exact walkShape_skip gds numfill _ numfill rfl

/-- The shape of the events of the body of a walk. -/
theorem walkItem_shape {H : Type} (ops : FillerOps H) (padring : PadringDB) (gds : Bool)
    (fuel : Nat) (side : side_t) (st : H × Int) (item : LayoutItem) :
    WalkShape gds st.2 (fun s : H × Int => s.2)
      (walkItem ops padring gds fuel side st item) := by
  by_cases hsp : isSpace item
  · rw [walkItem_space ops padring gds fuel side st item hsp]
    obtain ⟨items, errs, c, he, herr, hn, hf⟩ :=
      fillGap_shape ops padring gds side item.m_ltype st.1 fuel item.m_size
        (gapStart side item) st.2
    refine ⟨items, errs, c, he, herr, hn, ?_⟩
    intro a ha
    cases hr : (fillGap ops padring gds side item.m_ltype st.1 fuel item.m_size
        (gapStart side item) st.2).2 with
    | next n =>
      simp only [hr, Flow.next.injEq] at ha
      obtain ⟨h1, h2⟩ := hf n hr
      rw [← ha]
      exact ⟨h1, h2⟩
    | exit c1 => simp [hr] at ha
    | running => simp [hr] at ha
  · have hsp1 : ¬ (item.m_ltype = TYPE_FIXEDSPACE ∨ item.m_ltype = TYPE_FLEXSPACE) := hsp
    unfold walkItem
    by_cases h1 : item.m_ltype = TYPE_CELL
    · rw [if_pos h1]
      exact walkShape_item gds st.2 _ st rfl item (by simp [h1])
    · rw [if_neg h1]
      by_cases h2 : item.m_ltype = TYPE_BOND
      · rw [if_pos h2]
        exact walkShape_item gds st.2 _ st rfl item (by simp [h2])
      · rw [if_neg h2]
        by_cases h3 : item.m_ltype = TYPE_FILLERDECL
        · rw [if_pos h3]
          exact walkShape_skip gds st.2 _ _ rfl
        · rw [if_neg h3, if_neg hsp1]
          exact walkShape_skip gds st.2 _ _ rfl

/-- The shape of the events of a walk over items. -/
theorem walkItems_shape {H : Type} (ops : FillerOps H) (padring : PadringDB) (gds : Bool)
    (fuel : Nat) (side : side_t) (items : List LayoutItem) :
    ∀ st : H × Int, WalkShape gds st.2 (fun s : H × Int => s.2)
      (walkItems ops padring gds fuel side st items) := by
  induction items with
  | nil =>
    intro st
    exact walkShape_skip gds st.2 _ st rfl
  | cons x rest ih =>
    intro st
    have hx := walkItem_shape ops padring gds fuel side st x
    simp only [walkItems]
    cases hr : (walkItem ops padring gds fuel side st x).2 with
    | next s2 =>
      have hx1 : WalkShape gds st.2 (fun s : H × Int => s.2)
          ((walkItem ops padring gds fuel side st x).1, Flow.next s2) := by
        rw [← hr]
        exact hx
      exact walkShape_seq gds st.2 _ _ _ _ s2 _ hx1 (ih s2)
    | exit c =>
      obtain ⟨items, errs, cnt, he, herr, hn, _⟩ := hx
      exact ⟨items, errs, cnt, he, herr, hn, fun a ha => by cases ha⟩
    | running =>
      obtain ⟨items, errs, cnt, he, herr, hn, _⟩ := hx
      exact ⟨items, errs, cnt, he, herr, hn, fun a ha => by cases ha⟩

/-- The shape of the events of the walks over sides. -/
theorem walkSides_shape {H : Type} (ops : FillerOps H) (padring : PadringDB) (gds : Bool)
    (fuel : Nat) (sides : List side_t) :
    ∀ st : H × Int, WalkShape gds st.2 (fun s : H × Int => s.2)
      (walkSides ops padring gds fuel st sides) := by
  induction sides with
  | nil =>
    intro st
    exact walkShape_skip gds st.2 _ st rfl
  | cons x rest ih =>
    intro st
    have hx : WalkShape gds st.2 (fun s : H × Int => s.2)
        (walkSide ops padring gds fuel x st) :=
      walkItems_shape ops padring gds fuel x _ st
    simp only [walkSides]
    cases hr : (walkSide ops padring gds fuel x st).2 with
    | next s2 =>
      have hx1 : WalkShape gds st.2 (fun s : H × Int => s.2)
          ((walkSide ops padring gds fuel x st).1, Flow.next s2) := by
        rw [← hr]
        exact hx
      exact walkShape_seq gds st.2 _ _ _ _ s2 _ hx1 (ih s2)
    | exit c =>
      obtain ⟨items, errs, cnt, he, herr, hn, _⟩ := hx
      exact ⟨items, errs, cnt, he, herr, hn, fun a ha => by cases ha⟩
    | running =>
      obtain ⟨items, errs, cnt, he, herr, hn, _⟩ := hx
      exact ⟨items, errs, cnt, he, herr, hn, fun a ha => by cases ha⟩

/-- C14. Sequential unique filler names: over a whole run (the corner writes, then the walks
entered with `numfill = 0` and never resetting it) the k-th filler emitted, k
counted from 0 across the north, south, west and east walks, has the instance
name "FILLER_" followed by the decimal text of k; hence the names of the
emitted fillers are pairwise different, on the same and on different sides. -/
theorem filler_names_sequential {H : Type} (ops : FillerOps H) (padring : PadringDB)
    (gds : Bool) (fuel : Nat) (fillerHandler : H) :
    (mainOutput ops padring gds fuel fillerHandler).1 =
      writeCorners gds [padring.m_north.m_firstCorner, padring.m_north.m_lastCorner,
        padring.m_south.m_firstCorner, padring.m_south.m_lastCorner] ++
      (walkSides ops padring gds fuel (fillerHandler, 0) walkOrder).1 ∧
    (∀ (k : Nat) (f : LayoutItem),
      (fillersOf (walkSides ops padring gds fuel (fillerHandler, 0) walkOrder).1)[k]? = some f →
      f.m_instance = "FILLER_" ++ toString k) ∧
    ((fillersOf (walkSides ops padring gds fuel (fillerHandler, 0) walkOrder).1).map
      (fun f => f.m_instance)).Nodup ∧
    (∀ (i j : Nat) (f g : LayoutItem),
      (fillersOf (walkSides ops padring gds fuel (fillerHandler, 0) walkOrder).1)[i]? = some f →
      (fillersOf (walkSides ops padring gds fuel (fillerHandler, 0) walkOrder).1)[j]? = some g →
      i ≠ j → f.m_instance ≠ g.m_instance) := by
  obtain ⟨items, errs, count, he, herr, hn, _⟩ :=
    walkSides_shape ops padring gds fuel walkOrder (fillerHandler, 0)
  have hfs : fillersOf (walkSides ops padring gds fuel (fillerHandler, 0) walkOrder).1 =
      items.filter isFillerItem := by
    rw [he]
    exact fillersOf_forwardAll gds items errs herr
  have hn0 : (items.filter isFillerItem).map (fun f => f.m_instance) =
      fillerNames ((0 : Nat) : Int) count := hn
  have hkth : ∀ (k : Nat) (f : LayoutItem),
      (fillersOf (walkSides ops padring gds fuel (fillerHandler, 0) walkOrder).1)[k]? = some f →
      f.m_instance = "FILLER_" ++ toString k := by
    intro k f hf
    rw [hfs] at hf
    have h1 : ((items.filter isFillerItem).map (fun f => f.m_instance))[k]? =
        some f.m_instance := by
      rw [List.getElem?_map, hf]
      rfl
    rw [hn0] at h1
    have h2 := fillerNames_getElem count 0 k _ h1
    rw [h2]
    simp
  refine ⟨?_, hkth, ?_, ?_⟩
  · unfold mainOutput
    cases hr : (walkSides ops padring gds fuel (fillerHandler, 0) walkOrder).2 <;>
      simp only [hr]
  · rw [hfs, hn0]
    exact fillerNames_nodup 0 count
  · intro i j f g hf hg hij heq
    rw [hkth i f hf, hkth j g hg] at heq
    exact hij (toString_nat_injective i j (append_left_cancel_string _ _ _ heq))

/-! ## Instance names in the stream -/

/-- A list whose two classes of elements have distinct images, within each class
and across the classes, has distinct images. -/
theorem nodup_map_of_classes {α β : Type} (f : α → β) (p : α → Bool) (l : List α)
    (h1 : ((l.filter p).map f).Nodup)
    (h2 : ((l.filter (fun a => !p a)).map f).Nodup)
    (h3 : ∀ a ∈ l, ∀ b ∈ l, p a = true → p b = false → f a ≠ f b) :
    (l.map f).Nodup := by
  induction l with
  | nil => simp
  | cons x rest ih =>
    have hrest : (rest.map f).Nodup := by
      apply ih
      · by_cases hx : p x = true
        · rw [List.filter_cons_of_pos hx, List.map_cons, List.nodup_cons] at h1
          exact h1.2
        · rw [List.filter_cons_of_neg hx] at h1
          exact h1
      · by_cases hx : p x = true
        · rw [List.filter_cons_of_neg (by simp [hx])] at h2
          exact h2
        · rw [List.filter_cons_of_pos (by simp [hx]), List.map_cons, List.nodup_cons] at h2
          exact h2.2
      · intro a ha b hb
        exact h3 a (List.mem_cons_of_mem _ ha) b (List.mem_cons_of_mem _ hb)
    rw [List.map_cons, List.nodup_cons]
    refine ⟨?_, hrest⟩
    intro hmem
    obtain ⟨b, hb, hfb⟩ := List.mem_map.mp hmem
    by_cases hx : p x = true
    · by_cases hpb : p b = true
      · rw [List.filter_cons_of_pos hx, List.map_cons, List.nodup_cons] at h1
        exact h1.1 (List.mem_map.mpr ⟨b, List.mem_filter.mpr ⟨hb, hpb⟩, hfb⟩)
      · exact h3 x (List.mem_cons_self _ _) b (List.mem_cons_of_mem _ hb) hx
          (by simpa using hpb) hfb.symm
    · by_cases hpb : p b = true
      · exact h3 b (List.mem_cons_of_mem _ hb) x (List.mem_cons_self _ _) hpb
          (by simpa using hx) hfb
      · rw [List.filter_cons_of_pos (by simp [hx]), List.map_cons, List.nodup_cons] at h2
        exact h2.1 (List.mem_map.mpr ⟨b, List.mem_filter.mpr ⟨hb, by simp [hpb]⟩, hfb⟩)

/-- The items other than fillers among what the visited items forward are the
visited cells and bonds. -/
theorem forwardedAs_not_filler (visited : List LayoutItem) (segs : List (List LayoutItem))
    (h : List.Forall₂ ForwardedAs visited segs) :
    segs.flatten.filter (fun it => !isFillerItem it) = visited.filter isCellOrBondItem := by
  induction h with
  | nil => simp
  | @cons item seg visited1 segs1 hseg _ ih =>
    rw [List.flatten_cons, List.filter_append, ih]
    unfold ForwardedAs at hseg
    by_cases hcb : item.m_ltype = TYPE_CELL ∨ item.m_ltype = TYPE_BOND
    · rw [if_pos hcb] at hseg
      subst hseg
      have hcbi : isCellOrBondItem item = true := by
        rcases hcb with h1 | h1 <;> simp [isCellOrBondItem, h1]
      have hnf : (!isFillerItem item) = true := by
        rcases hcb with h1 | h1 <;> simp [isFillerItem, h1]
      rw [List.filter_cons_of_pos hcbi]
      have hone : List.filter (fun it => !isFillerItem it) [item] = [item] := by
        simp [List.filter_cons, hnf]
      rw [hone]
      rfl
    · have hcbi : ¬ (isCellOrBondItem item = true) := by
        simpa [isCellOrBondItem] using hcb
      rw [if_neg hcb] at hseg
      rw [List.filter_cons_of_neg hcbi]
      by_cases hsp : item.m_ltype = TYPE_FIXEDSPACE ∨ item.m_ltype = TYPE_FLEXSPACE
      · rw [if_pos hsp] at hseg
        have : seg.filter (fun it => !isFillerItem it) = [] := by
          rw [List.filter_eq_nil_iff]
          intro a ha
          simp [isFillerItem, hseg a ha]
        rw [this]
        simp
      · rw [if_neg hsp] at hseg
        subst hseg
        simp

/-- C15 (as stated, refuted). A configuration whose only configured item, a cell on the north
side, has the instance name `FILLER_0`, followed by a gap of width 5: the
configured names are pairwise distinct, yet the writers receive the cell and
the first synthesized filler under the same name. -/
theorem forwarded_names_counterexample :
    ((configuredItems clashPadring).map (fun it => it.m_instance)).Nodup ∧
    (forwardedItems Writer.SVGWriter
        (main specFillerOps (plainEnv clashPadring) plainCmd 2).1).map (fun it => it.m_instance) =
      ["FILLER_0", "FILLER_0"] ∧
    ¬ ((forwardedItems Writer.SVGWriter
        (main specFillerOps (plainEnv clashPadring) plainCmd 2).1).map
          (fun it => it.m_instance)).Nodup := by
  refine ⟨?_, ?_, ?_⟩ <;> decide!

/-- C15 (amended). For every configuration whose configured items (the corners that are set, the
cells and the bonds of the four sides) have pairwise distinct instance names,
none of them of the form `FILLER_` followed by the decimal text of a natural
number, the instance names of all items a writer receives, the configured
items together with every synthesized filler, are pairwise distinct. -/
theorem forwarded_names_distinct {H : Type} (ops : FillerOps H) (padring : PadringDB)
    (gds : Bool) (fuel : Nat) (fillerHandler : H) (w : Writer)
    (hw : w = Writer.GDS2Writer → gds = true)
    (hnodup : ((configuredItems padring).map (fun it => it.m_instance)).Nodup)
    (hnofill : ∀ it ∈ configuredItems padring, ¬ isFillerName it.m_instance) :
    ((forwardedItems w (mainOutput ops padring gds fuel fillerHandler).1).map
      (fun it => it.m_instance)).Nodup := by
  obtain ⟨items, errs, count, he, herr, hn, _⟩ :=
    walkSides_shape ops padring gds fuel walkOrder (fillerHandler, 0)
  obtain ⟨visited, segs, hpre, hall, hst, _⟩ :=
    walkSides_stream ops padring gds fuel w hw walkOrder (fillerHandler, 0)
  have htrav : itemsOfSides padring walkOrder = walkTraversal padring := by
    simp [itemsOfSides, walkOrder, walkTraversal, walkLayout]
  rw [htrav] at hpre
  have hstream : streamOf w (walkSides ops padring gds fuel (fillerHandler, 0) walkOrder).1 =
      items.map some := by
    rw [he, streamOf_append, streamOf_forwardAll gds w hw, streamOf_errors w errs herr]
    simp
  have hitems : items = segs.flatten := by
    have h1 : items.map some = segs.flatten.map some := by rw [← hstream, hst]
    exact List.map_injective_iff.mpr (Option.some_injective _) h1
  -- the items of the walks that are not fillers are configured cells and bonds
  have hplain : List.Sublist (items.filter (fun it => !isFillerItem it))
      ((walkTraversal padring).filter isCellOrBondItem) := by
    rw [hitems, forwardedAs_not_filler visited segs hall]
    exact hpre.sublist.filter _
  have hplain_mem : ∀ b ∈ items, isFillerItem b = false → b ∈ configuredItems padring := by
    intro b hb hfb
    have : b ∈ items.filter (fun it => !isFillerItem it) :=
      List.mem_filter.mpr ⟨hb, by simp [hfb]⟩
    exact List.mem_append_right _ (hplain.subset this)
  have hn0 : (items.filter isFillerItem).map (fun f => f.m_instance) =
      fillerNames ((0 : Nat) : Int) count := hn
  have hfill_name : ∀ a ∈ items, isFillerItem a = true → isFillerName a.m_instance := by
    intro a ha hfa
    have : a.m_instance ∈ (items.filter isFillerItem).map (fun f => f.m_instance) :=
      List.mem_map.mpr ⟨a, List.mem_filter.mpr ⟨ha, hfa⟩, rfl⟩
    rw [hn0] at this
    exact fillerNames_mem 0 count _ this
  have hcfg : ((([padring.m_north.m_firstCorner, padring.m_north.m_lastCorner,
        padring.m_south.m_firstCorner, padring.m_south.m_lastCorner].filterMap id).map
          (fun it => it.m_instance)).Nodup) ∧
      ((((walkTraversal padring).filter isCellOrBondItem).map
          (fun it => it.m_instance)).Nodup) ∧
      List.Disjoint
        (([padring.m_north.m_firstCorner, padring.m_north.m_lastCorner,
          padring.m_south.m_firstCorner, padring.m_south.m_lastCorner].filterMap id).map
            (fun it => it.m_instance))
        (((walkTraversal padring).filter isCellOrBondItem).map (fun it => it.m_instance)) := by
    unfold configuredItems at hnodup
    rw [List.map_append] at hnodup
    exact List.nodup_append.mp hnodup
  have hwalk : (items.map (fun it => it.m_instance)).Nodup := by
    apply nodup_map_of_classes (fun it => it.m_instance) isFillerItem items
    · rw [hn0]
      exact fillerNames_nodup 0 count
    · have := hplain.map (fun it : LayoutItem => it.m_instance)
      exact List.Nodup.sublist this hcfg.2.1
    · intro a ha b hb hfa hfb heq
      have h1 := hfill_name a ha hfa
      have h2 := hnofill b (hplain_mem b hb hfb)
      rw [heq] at h1
      exact h2 h1
  have hout : forwardedItems w (mainOutput ops padring gds fuel fillerHandler).1 =
      [padring.m_north.m_firstCorner, padring.m_north.m_lastCorner,
        padring.m_south.m_firstCorner, padring.m_south.m_lastCorner].filterMap id ++ items := by
    have hmain : (mainOutput ops padring gds fuel fillerHandler).1 =
        writeCorners gds [padring.m_north.m_firstCorner, padring.m_north.m_lastCorner,
          padring.m_south.m_firstCorner, padring.m_south.m_lastCorner] ++
        (walkSides ops padring gds fuel (fillerHandler, 0) walkOrder).1 := by
      unfold mainOutput
      cases hr : (walkSides ops padring gds fuel (fillerHandler, 0) walkOrder).2 <;>
        simp only [hr]
    unfold forwardedItems
    rw [hmain, streamOf_append, streamOf_writeCorners gds w hw, hstream, List.filterMap_append]
    congr 1
    simp [List.filterMap_map]
  rw [hout, List.map_append, List.nodup_append]
  refine ⟨hcfg.1, hwalk, ?_⟩
  intro s hs1 hs2
  obtain ⟨c, hc, hcs⟩ := List.mem_map.mp hs1
  obtain ⟨b, hb, hbs⟩ := List.mem_map.mp hs2
  by_cases hfb : isFillerItem b = true
  · have h1 := hfill_name b hb hfb
    have h2 := hnofill c (List.mem_append_left _ hc)
    rw [hbs, ← hcs] at h1
    exact h2 h1
  · have hb2 : b ∈ (walkTraversal padring).filter isCellOrBondItem := by
      have : b ∈ items.filter (fun it => !isFillerItem it) :=
        List.mem_filter.mpr ⟨hb, by simpa using hfb⟩
      exact hplain.subset this
    exact hcfg.2.2 hs1 (List.mem_map.mpr ⟨b, hb2, hbs⟩)

/-- A filler name has at least the seven characters of `FILLER_`. -/
theorem isFillerName_length (s : String) (h : isFillerName s) : 7 ≤ s.length := by
  obtain ⟨k, hk⟩ := h
  rw [hk, String.length_append]
  have : "FILLER_".length = 7 := by decide
  omega

/-- Witness of C15 (amended): the run over `csvPadring`, whose configured names are short and
distinct and whose south side has a gap that gets a filler. -/
theorem forwarded_names_distinct_witness :
    ((forwardedItems Writer.SVGWriter
      (mainOutput specFillerOps csvPadring false 4
        (specFillerOps.addFillers specFillerOps.fresh csvPadring.m_lefreader
          csvPadring.m_fillers)).1).map (fun it => it.m_instance)).Nodup ∧
    (forwardedItems Writer.SVGWriter
      (mainOutput specFillerOps csvPadring false 4
        (specFillerOps.addFillers specFillerOps.fresh csvPadring.m_lefreader
          csvPadring.m_fillers)).1).map (fun it => it.m_instance) =
      ["N1", "NB", "N2", "S1", "FILLER_0", "S2", "W1", "W2", "E1"] :=
  ⟨forwarded_names_distinct specFillerOps csvPadring false 4
      (specFillerOps.addFillers specFillerOps.fresh csvPadring.m_lefreader csvPadring.m_fillers)
      Writer.SVGWriter (by decide) (by decide!)
      (fun it hit hname =>
        absurd (isFillerName_length _ hname)
          (Nat.not_le.mpr
            ((by decide! : ∀ it ∈ configuredItems csvPadring, it.m_instance.length < 7) it hit))),
    by decide!⟩

/-! ## VerilogWriter::writeCell -/

theorem concatRows_cons (x : String) (xs : List String) :
    concatRows (x :: xs) = x ++ concatRows xs := by
  have h := concatRows_append [x] xs
  have h1 : concatRows [x] = x := by simp [concatRows, String.empty_append]
  rw [h1] at h
  exact h

theorem concatRows_nil : concatRows [] = "" := rfl

/-- A pin that is not a signal pin leaves the streams alone. -/
theorem writePin_skip (instName : String) (st : PinLoop) (p : String × LEFPinInfo_t)
    (hp : p.2.m_use ≠ 0) : VerilogWriter.writePin instName st p = st := by
  simp [VerilogWriter.writePin, hp]

/-- What a signal pin appends to the three streams. -/
theorem writePin_signal (instName : String) (st : PinLoop) (p : String × LEFPinInfo_t)
    (hp : p.2.m_use = 0) :
    VerilogWriter.writePin instName st p =
      { dirs := st.dirs ++ dirDeclaration instName p
        vars := st.vars ++ wireDeclaration instName p
        body := (if st.first = true then st.body else st.body ++ ", ") ++
          pinConnection instName p
        first := false } := by
  unfold VerilogWriter.writePin dirDeclaration wireDeclaration pinConnection dirKeyword
  rw [if_neg (by simp [hp])]
  have hbody : (if (!st.first) = true then st.body ++ ", " else st.body) =
      (if st.first = true then st.body else st.body ++ ", ") := by
    cases st.first <;> rfl
  simp only [hbody]
  by_cases h0 : p.2.m_dir = 0
  · have h1 : ¬ p.2.m_dir = 1 := by rw [h0]; decide
    have h2 : ¬ p.2.m_dir = 2 := by rw [h0]; decide
    simp only [if_pos h0, if_neg h1, if_neg h2, String.append_assoc]
  · by_cases h1 : p.2.m_dir = 1
    · have h2 : ¬ p.2.m_dir = 2 := by rw [h1]; decide
      simp only [if_neg h0, if_pos h1, if_neg h2, String.append_assoc]
    · by_cases h2 : p.2.m_dir = 2
      · simp only [if_neg h0, if_neg h1, if_pos h2, String.append_assoc]
      · simp only [if_neg h0, if_neg h1, if_neg h2, String.append_assoc, String.empty_append]

theorem joinWith_cons (sep : String) (rest : List String) :
    ∀ a : String, joinWith sep (a :: rest) =
      a ++ concatRows (rest.map (fun s => sep ++ s)) := by
  induction rest with
  | nil =>
    intro a
    simp [joinWith, concatRows_nil, String.append_empty]
  | cons b r ih =>
    intro a
    rw [List.map_cons, concatRows_cons]
    simp only [joinWith]
    rw [ih b]
    simp only [String.append_assoc]

/-- The loop over the pins once a connection has been written: every further
signal pin appends its declarations and `, ` with its connection. -/
theorem pins_fold_rest (instName : String) (pins : List (String × LEFPinInfo_t)) :
    ∀ st : PinLoop, st.first = false →
      pins.foldl (VerilogWriter.writePin instName) st =
        { dirs := st.dirs ++ concatRows
            ((pins.filter (fun p => p.2.m_use == 0)).map (dirDeclaration instName))
          vars := st.vars ++ concatRows
            ((pins.filter (fun p => p.2.m_use == 0)).map (wireDeclaration instName))
          body := st.body ++ concatRows
            ((pins.filter (fun p => p.2.m_use == 0)).map
              (fun p => ", " ++ pinConnection instName p))
          first := false } := by
  induction pins with
  | nil =>
    intro st hst
    cases st
    simp_all [concatRows_nil, String.append_empty]
  | cons p rest ih =>
    intro st hst
    rw [List.foldl_cons]
    by_cases hp : p.2.m_use = 0
    · rw [writePin_signal instName st p hp, ih _ rfl]
      have hf : (p :: rest).filter (fun p => p.2.m_use == 0) =
          p :: rest.filter (fun p => p.2.m_use == 0) := by
        simp [List.filter_cons, hp]
      rw [hf]
      simp only [List.map_cons, concatRows_cons, hst, Bool.false_eq_true, if_false,
        String.append_assoc]
    · rw [writePin_skip instName st p hp, ih st hst]
      have hf : (p :: rest).filter (fun p => p.2.m_use == 0) =
          rest.filter (fun p => p.2.m_use == 0) := by
        simp [List.filter_cons, hp]
      rw [hf]

/-- The loop over the pins from its start: the declarations of the signal pins and
their connections separated by `, `. -/
theorem pins_fold_first (instName : String) (pins : List (String × LEFPinInfo_t)) :
    ∀ st : PinLoop, st.first = true →
      (pins.foldl (VerilogWriter.writePin instName) st).dirs =
        st.dirs ++ concatRows
          ((pins.filter (fun p => p.2.m_use == 0)).map (dirDeclaration instName)) ∧
      (pins.foldl (VerilogWriter.writePin instName) st).vars =
        st.vars ++ concatRows
          ((pins.filter (fun p => p.2.m_use == 0)).map (wireDeclaration instName)) ∧
      (pins.foldl (VerilogWriter.writePin instName) st).body =
        st.body ++ joinWith ", "
          ((pins.filter (fun p => p.2.m_use == 0)).map (pinConnection instName)) := by
  induction pins with
  | nil =>
    intro st _
    simp [concatRows_nil, joinWith, String.append_empty]
  | cons p rest ih =>
    intro st hst
    rw [List.foldl_cons]
    by_cases hp : p.2.m_use = 0
    · have hf : (p :: rest).filter (fun p => p.2.m_use == 0) =
          p :: rest.filter (fun p => p.2.m_use == 0) := by
        simp [List.filter_cons, hp]
      rw [writePin_signal instName st p hp, pins_fold_rest instName rest _ rfl, hf]
      simp only [List.map_cons, concatRows_cons, joinWith_cons, List.map_map, hst, if_true,
        String.append_assoc, Function.comp_def]
      exact ⟨trivial, trivial, trivial⟩
    · have hf : (p :: rest).filter (fun p => p.2.m_use == 0) =
          rest.filter (fun p => p.2.m_use == 0) := by
        simp [List.filter_cons, hp]
      rw [writePin_skip instName st p hp, hf]
      exact ih st hst

/-- C19. `VerilogWriter::writeCell` pin filtering: for every item with a cell-library entry, the
instantiation written connects exactly the pins whose use is signal (use = 0),
in the order of the pin map, each pin `p` as `.p(<instance>_p)`, separated by
", "; for exactly those pins one direction declaration (`input` for dir 0,
`output` for dir 1, `inout` for dir 2) and one wire declaration named
`<instance>_p` are written; the pins of any other use add nothing to the three
streams, and the header stream and design name stay as they were. -/
theorem writeCell_signal_pins (w : VerilogWriter) (item : LayoutItem) (info : LEFCellInfo_t)
    (hinfo : item.m_lefinfo = some info) :
    w.writeCell item = some
      { w with
        m_ss_body := w.m_ss_body ++ "  " ++ item.m_cellname ++ " " ++ item.m_instance ++ "(" ++
          joinWith ", " ((signalPins info).map (pinConnection item.m_instance)) ++ ");\n"
        m_ss_dirs := w.m_ss_dirs ++
          concatRows ((signalPins info).map (dirDeclaration item.m_instance))
        m_ss_vars := w.m_ss_vars ++
          concatRows ((signalPins info).map (wireDeclaration item.m_instance)) } ∧
    (∀ p ∈ signalPins info, p ∈ info.m_pins ∧ p.2.m_use = 0) ∧
    (∀ p ∈ info.m_pins, p.2.m_use = 0 → p ∈ signalPins info) := by
  refine ⟨?_, ?_, ?_⟩
  · unfold VerilogWriter.writeCell
    rw [hinfo]
    obtain ⟨h1, h2, h3⟩ := pins_fold_first item.m_instance info.m_pins
      { dirs := w.m_ss_dirs, vars := w.m_ss_vars,
        body := w.m_ss_body ++ "  " ++ item.m_cellname ++ " " ++ item.m_instance ++ "(",
        first := true } rfl
    simp only [h1, h2, h3, signalPins]
  · intro p hp
    simpa [signalPins] using hp
  · intro p hp hu
    simp [signalPins, hp, hu]

/-- Witness of C19: the cell `u1` of type `PADIO`, whose pin map holds the signal pins `A`, `Y`,
`PAD` and the supply pins `VDD`, `VSS`. -/
theorem writeCell_signal_pins_witness :
    emptyVerilogWriter.writeCell padCellItem = some
      { emptyVerilogWriter with
        m_ss_body := "  PADIO u1(.A(u1_A), .Y(u1_Y), .PAD(u1_PAD));\n"
        m_ss_dirs := "  input u1_A;\n  output u1_Y;\n  inout u1_PAD;\n"
        m_ss_vars := "  wire u1_A;\n  wire u1_Y;\n  wire u1_PAD;\n" } :=
  ((writeCell_signal_pins emptyVerilogWriter padCellItem padCellInfo rfl).1).trans (by decide!)

end Padring
